import Mathlib

/-!
# Action triggers of the charging engine

A shallow embedding of `engine/action_trigger.go`: the trigger entity, its
matching rule against an action descriptor and the `Execute` transition.

Conventions of the embedding.

* A Go pointer that may be nil is an `Option`; a struct value is a structure.
* `time.Time` is a number of nanoseconds counted from the zero instant, so the
  zero time is `0`; `time.Duration` is an integer number of nanoseconds and
  `Time.Sub` saturates at the 64-bit bounds as the library does.
* `float64` fields are taken as exact rationals.
* `error` is `Option Error` (`none` is the nil error).
* Code that the file calls and that lives elsewhere (the data manager, the
  filter service, the action registry, the JSON decoder, the time parser, the
  balance predicate's methods) is gathered in `Env` and `FilterS` and stays
  arbitrary in every general theorem.
* Calls that leave the function (store, filter service, handlers, logger) are
  recorded, in order, in a trace of `Event`s.
-/

namespace Engine

/-! ## Time -/

/-- Go `time.Time`: nanoseconds counted from the zero instant. -/
structure Time where
  ns : Int
  deriving DecidableEq, Repr

/-- Go `time.Duration`: a signed 64-bit count of nanoseconds. -/
abbrev Duration := Int

def minDuration : Duration := -(2 ^ 63)

def maxDuration : Duration := 2 ^ 63 - 1

/-- Method `Time.IsZero`: the receiver is the zero instant. -/
def Time.IsZero (t : Time) : Bool := t.ns == 0

/-- Method `Time.After`: the receiver is strictly later than `u`. -/
def Time.After (t u : Time) : Bool := decide (u.ns < t.ns)

/-- Method `Time.Sub`: the duration `t - u`, saturated at the bounds of `Duration`. -/
def Time.Sub (t u : Time) : Duration :=
  if t.ns - u.ns < minDuration then minDuration
  else if maxDuration < t.ns - u.ns then maxDuration
  else t.ns - u.ns

/-- Function `time.Since(t)`, that is `time.Now().Sub(t)`; `now` is the clock
reading taken inside the call. -/
def Since (now t : Time) : Duration := now.Sub t

/-- Go `error` values are represented by their message. -/
abbrev Error := String

/-! ## Data model -/

/-- Modelled from the spec: the balance predicate (`BalanceFilter`) is declared
outside `action_trigger.go`. It is a record of optional conditions over a
balance; a nil pointer field is `none`. -/
structure BalanceFilter where
  Uuid : Option String
  ID : Option String
  Type_ : Option String
  Value : Option ℚ
  ExpirationDate : Option Time
  Weight : Option ℚ
  DestinationIDs : Option (List String)
  RatingSubject : Option String
  SharedGroups : Option (List String)
  Disabled : Option Bool
  Blocker : Option Bool
  deriving DecidableEq, Repr

/-- The literal `&BalanceFilter{}`: every condition absent. -/
def BalanceFilter.empty : BalanceFilter :=
  { Uuid := none, ID := none, Type_ := none, Value := none, ExpirationDate := none,
    Weight := none, DestinationIDs := none, RatingSubject := none,
    SharedGroups := none, Disabled := none, Blocker := none }

/-- Modelled from the spec: `BalanceFilter.GetType`, the type a predicate asks
for. The getter is nil-safe: a nil predicate, or one without a type, reads as
the empty string. -/
def BalanceFilter.GetType (bp : Option BalanceFilter) : String :=
  match bp with
  | none => ""
  | some b =>
    match b.Type_ with
    | none => ""
    | some ty => ty

/-- Modelled from the spec: a concrete balance (`Balance`), declared outside
`action_trigger.go`. -/
structure Balance where
  Uuid : String
  ID : String
  Value : ℚ
  ExpirationDate : Time
  Weight : ℚ
  DestinationIDs : List String
  RatingSubject : String
  SharedGroups : List String
  Disabled : Bool
  Blocker : Bool
  deriving DecidableEq, Repr

/-- Modelled from the spec: the account (`Account`), declared outside
`action_trigger.go`. `Execute` reads `ID` and `Disabled`; the balances are what
handlers rewrite. -/
structure Account where
  ID : String
  Disabled : Bool
  BalanceMap : List (String × List Balance)
  deriving DecidableEq, Repr

/-- Modelled from the spec: the action descriptor (`Action`), declared outside
`action_trigger.go`, with the fields the trigger code reads or writes. -/
structure Action where
  Id : String
  ActionType : String
  ExtraParameters : String
  Filters : List String
  ExpirationString : String
  Weight : ℚ
  Balance : Option BalanceFilter
  deriving DecidableEq, Repr

/-- The trigger entity, field for field. -/
structure ActionTrigger where
  ID : String
  UniqueID : String
  ThresholdType : String
  ThresholdValue : ℚ
  Recurrent : Bool
  MinSleep : Duration
  ExpirationDate : Time
  ActivationDate : Time
  Balance : Option BalanceFilter
  Weight : ℚ
  ActionsID : String
  MinQueuedItems : Int
  Executed : Bool
  LastExecutionTime : Time
  deriving DecidableEq, Repr

/-- The anonymous struct that `Match` decodes `ExtraParameters` into. -/
structure ExtraParams where
  GroupID : String
  UniqueID : String
  ThresholdType : String
  deriving DecidableEq, Repr

/-- What the filter service answers: `(pass, err)`. -/
structure FilterS where
  Pass : String → List String → Option Account → Except Error Bool

/-- What a handler leaves behind: the contents of the account it was given
(read only when the account pointer is non-nil) and its error. -/
structure HandlerResult where
  ub : Account
  err : Option Error

/-- Signature of an action handler: account, action, sibling actions, filter
service (the trace context is always nil in this file). A handler is known to
`Execute` by what it does to the account and by the error it returns; the
action descriptors it is handed are taken as read-only. -/
abbrev ActionFunc := Option Account → Action → List Action → FilterS → HandlerResult

/-- The code `action_trigger.go` calls and does not define. -/
structure Env where
  /-- Decoder `json.Unmarshal` into the zero-valued auxiliary struct. -/
  Unmarshal : String → ExtraParams
  /-- Method `BalanceFilter.CreateBalance`. -/
  CreateBalance : Option BalanceFilter → Balance
  /-- Method `Balance.MatchFilter(filter, skipIds, skipExpiry)`. -/
  MatchFilter : Balance → Option BalanceFilter → Bool → Bool → Bool
  /-- Data manager call `dm.GetActions(key, skipCache, transactionID)`. -/
  GetActions : String → Bool → String → Except Error (List Action)
  /-- Constant `utils.NonTransactional`. -/
  NonTransactional : String
  /-- Method `Actions.Sort`, as the list it leaves. -/
  SortActions : List Action → List Action
  /-- Expression `utils.NewTenantID(id).Tenant`. -/
  Tenant : String → String
  /-- Function `utils.ParseTimeDetectLayout(value, timezone)`. -/
  ParseTimeDetectLayout : String → String → Except Error Time
  /-- Setting `config.CgrConfig().GeneralCfg().DefaultTimezone`. -/
  DefaultTimezone : String
  /-- Function `getActionFunc`: the registry lookup, `none` when the type is unknown. -/
  getActionFunc : String → Option ActionFunc
  /-- Constant `utils.MetaRemoveAccount`. -/
  MetaRemoveAccount : String

/-! ## Matching -/

/-- Method `ActionTrigger.Match`. -/
def ActionTrigger.Match (env : Env) (trg : ActionTrigger) (a : Option Action) : Bool :=
  match a with
  | none => true
  | some a =>
    match a.Balance with
    | none => true
    | some ab =>
      if ab.Type_.isSome && BalanceFilter.GetType (some ab) != BalanceFilter.GetType trg.Balance then
        false
      else if a.ExtraParameters != "" then
        let t := env.Unmarshal a.ExtraParameters
        if t.GroupID != "" then
          trg.ID == t.GroupID
        else if t.UniqueID != "" then
          trg.UniqueID == t.UniqueID
        else
          (t.ThresholdType == "" || trg.ThresholdType == t.ThresholdType) &&
            env.MatchFilter (env.CreateBalance trg.Balance) (some ab) false false
      else
        env.MatchFilter (env.CreateBalance trg.Balance) (some ab) false false

/-! ## Execution -/

/-- Calls that leave `Execute`, in the order they are made. -/
inductive Event where
  | GetActions (key : String) (skipCache : Bool) (transactionID : String)
  | Pass (tenant : String) (filters : List String) (ub : Option Account)
  | ActionFunc (ub : Option Account) (a : Action) (aac : List Action)
  | SetAccount (ub : Account)
  | LogErr (msg : String)
  deriving DecidableEq, Repr

/-- The event is the invocation of a handler. -/
def Event.isActionFunc : Event → Bool
  | .ActionFunc _ _ _ => true
  | _ => false

/-- The event is a call of `dm.SetAccount`. -/
def Event.isSetAccount : Event → Bool
  | .SetAccount _ => true
  | _ => false

/-- The local variables of `Execute` that live across loop iterations, with the
account behind `ub` and the trace. -/
structure LoopState where
  ub : Option Account
  transactionFailed : Bool
  removeAccountActionFound : Bool
  trace : List Event
  deriving DecidableEq, Repr

/-- How one iteration of the loop ends: it goes on to the next action (leaving
the visited action as `a`), it executes `break`, or it executes `return err`. -/
inductive Step where
  | next (a : Action) (st : LoopState)
  | brk (st : LoopState)
  | ret (err : Error) (st : LoopState)
  deriving DecidableEq, Repr

/-- How the loop was left: range exhausted, `break`, or `return err`. -/
inductive LoopExit where
  | completed
  | abandoned
  | returned (err : Error)
  deriving DecidableEq, Repr

/-- Lines 79 to 88: default the balance predicate, then write the parsed
expiration when the expiration string is non-empty and parses. -/
def patchBalance (env : Env) (a : Action) : Action :=
  let b : BalanceFilter :=
    match a.Balance with
    | none => BalanceFilter.empty
    | some b => b
  if a.ExpirationString != "" then
    match env.ParseTimeDetectLayout a.ExpirationString env.DefaultTimezone with
    | .ok expDate => { a with Balance := some { b with ExpirationDate := some expDate } }
    | .error _ => { a with Balance := some b }
  else
    { a with Balance := some b }

/-- Lines 90 to 104: resolve the handler, run it, note a removal action. The
slice handed to the handler is the whole list: `before`, the current action,
`after`. -/
def runAction (env : Env) (fltrS : FilterS) (before : List Action) (a : Action)
    (after : List Action) (st : LoopState) : Step :=
  match env.getActionFunc a.ActionType with
  | none =>
    .brk { st with
      transactionFailed := false
      trace := st.trace ++
        [.LogErr ("Function type " ++ a.ActionType ++ " not available, aborting execution!")] }
  | some actionFunction =>
    let r := actionFunction st.ub a (before ++ a :: after) fltrS
    let st1 : LoopState :=
      { st with
        ub := st.ub.map fun _ => r.ub
        trace := st.trace ++ [.ActionFunc st.ub a (before ++ a :: after)] }
    match r.err with
    | some err =>
      .brk { st1 with
        transactionFailed := false
        trace := st1.trace ++
          [.LogErr ("Error executing action " ++ a.ActionType ++ ": " ++ err ++ "!")] }
    | none =>
      if a.ActionType == env.MetaRemoveAccount then
        .next a { st1 with removeAccountActionFound := true }
      else
        .next a st1

/-- The body of the `for` loop for the action `a`, lines 70 to 104. -/
def loopBody (env : Env) (fltrS : FilterS) (before : List Action) (a : Action)
    (after : List Action) (st : LoopState) : Step :=
  if 0 < a.Filters.length then
    match fltrS.Pass (env.Tenant a.Id) a.Filters st.ub with
    | .error err =>
      .ret err { st with trace := st.trace ++ [.Pass (env.Tenant a.Id) a.Filters st.ub] }
    | .ok false =>
      .next a { st with trace := st.trace ++ [.Pass (env.Tenant a.Id) a.Filters st.ub] }
    | .ok true =>
      runAction env fltrS before (patchBalance env a) after
        { st with trace := st.trace ++ [.Pass (env.Tenant a.Id) a.Filters st.ub] }
  else
    runAction env fltrS before (patchBalance env a) after st

/-- The `for _, a := range aac` loop: `before` holds the actions already
visited, the second list those still to visit. -/
def executeLoop (env : Env) (fltrS : FilterS) :
    List Action → List Action → LoopState → LoopExit × LoopState
  | _, [], st => (.completed, st)
  | before, a :: after, st =>
    match loopBody env fltrS before a after st with
    | .next a1 st1 => executeLoop env fltrS (before ++ [a1]) after st1
    | .brk st1 => (.abandoned, st1)
    | .ret err st1 => (.returned err, st1)

/-- What a call of `Execute` leaves: the returned error, the trigger and the
account as mutated, and the calls it made. -/
structure ExecResult where
  err : Option Error
  trigger : ActionTrigger
  ub : Option Account
  trace : List Event
  deriving DecidableEq, Repr

/-- The min-sleep test of line 51; `sinceNow` is the clock reading inside
`time.Since`. -/
def ActionTrigger.throttled (sinceNow : Time) (trg : ActionTrigger) : Bool :=
  trg.Recurrent && !trg.LastExecutionTime.IsZero &&
    decide (Since sinceNow trg.LastExecutionTime < trg.MinSleep)

/-- The guard of line 55, `ub != nil && ub.Disabled`: the account when the guard
holds, `none` when it does not. -/
def disabledAccount (ub : Option Account) : Option Account :=
  match ub with
  | none => none
  | some acc => if acc.Disabled then some acc else none

/-- Lines 106 to 112, reached when the loop is left by exhaustion or `break`. -/
def finishExecute (trg : ActionTrigger) (st : LoopState) : ExecResult :=
  let trg1 : ActionTrigger :=
    if st.transactionFailed || trg.Recurrent then { trg with Executed := false } else trg
  match st.ub with
  | some acc =>
    if !st.transactionFailed && !st.removeAccountActionFound then
      { err := none, trigger := trg1, ub := st.ub, trace := st.trace ++ [.SetAccount acc] }
    else
      { err := none, trigger := trg1, ub := st.ub, trace := st.trace }
  | none => { err := none, trigger := trg1, ub := st.ub, trace := st.trace }

/-- The loop of `Execute` on the loaded list `aac`, started as line 66 to 69
leave the locals, with the trace so far. -/
def ActionTrigger.runLoop (env : Env) (trg : ActionTrigger) (ub : Option Account)
    (fltrS : FilterS) (aac : List Action) : LoopExit × LoopState :=
  executeLoop env fltrS [] (env.SortActions aac)
    { ub := ub, transactionFailed := false, removeAccountActionFound := false,
      trace := [.GetActions trg.ActionsID false env.NonTransactional] }

/-- Method `ActionTrigger.Execute`. `sinceNow` is the clock reading taken by
`time.Since` on line 51 and `now` the one taken by `time.Now` on line 54. -/
def ActionTrigger.Execute (env : Env) (sinceNow now : Time) (trg : ActionTrigger)
    (ub : Option Account) (fltrS : FilterS) : ExecResult :=
  if trg.throttled sinceNow then
    { err := none, trigger := trg, ub := ub, trace := [] }
  else
    let trg1 : ActionTrigger := { trg with LastExecutionTime := now }
    match disabledAccount ub with
    | some acc =>
      { err := some ("User " ++ acc.ID ++ " is disabled and there are triggers in action!"),
        trigger := trg1, ub := ub, trace := [] }
    | none =>
      match env.GetActions trg1.ActionsID false env.NonTransactional with
      | .error err =>
        { err := some err, trigger := trg1, ub := ub,
          trace := [.GetActions trg1.ActionsID false env.NonTransactional,
                    .LogErr ("Failed to get actions: " ++ err)] }
      | .ok aac =>
        let trg2 : ActionTrigger := { trg1 with Executed := true }
        match trg2.runLoop env ub fltrS aac with
        | (.returned err, st) => { err := some err, trigger := trg2, ub := st.ub, trace := st.trace }
        | (_, st) => finishExecute trg2 st

/-- The event is the invocation of the handler of an account-removal action
(line 102 compares the action's type with `utils.MetaRemoveAccount`). -/
def Event.isRemoval (env : Env) : Event → Bool
  | .ActionFunc _ a _ => a.ActionType == env.MetaRemoveAccount
  | _ => false

/-- The event is not a filter evaluation that answered with an error. -/
def Event.passOk (fltrS : FilterS) : Event → Bool
  | .Pass tenant filters ub =>
    match fltrS.Pass tenant filters ub with
    | .error _ => false
    | .ok _ => true
  | _ => true

/-- The action a handler was invoked on, for a handler event. -/
def Event.handlerAction : Event → Option Action
  | .ActionFunc _ a _ => some a
  | _ => none

/-- The handler invocations of a run over the sorted list, told the way the
specification tells them, action by action: an action whose filters do not
pass is skipped and the run goes on; an action whose type the registry does
not resolve gets no handler and ends the run; an action whose handler fails
is invoked and ends the run; any other action is invoked and the run goes on
with the account as its handler left it. A filter evaluation that fails ends
the run. The answer lists the actions as handed to the handlers, in order. -/
def invokedActions (env : Env) (fltrS : FilterS) :
    List Action → List Action → Option Account → List Action
  | _, [], _ => []
  | before, a :: after, ub =>
    match (if 0 < a.Filters.length then fltrS.Pass (env.Tenant a.Id) a.Filters ub
      else .ok true) with
    | .error _ => []
    | .ok false => invokedActions env fltrS (before ++ [a]) after ub
    | .ok true =>
      match env.getActionFunc (patchBalance env a).ActionType with
      | none => []
      | some handler =>
        match (handler ub (patchBalance env a) (before ++ patchBalance env a :: after)
          fltrS).err with
        | some _ => [patchBalance env a]
        | none =>
          patchBalance env a ::
            invokedActions env fltrS (before ++ [patchBalance env a]) after
              (ub.map fun _ =>
                (handler ub (patchBalance env a) (before ++ patchBalance env a :: after)
                  fltrS).ub)

/-! ## The trigger entity: materialised balance, copy, identity -/

/-- Method `ActionTrigger.CreateBalance`, lines 144 to 148: the balance of the
trigger's predicate with its identifier set to the trigger's `UniqueID`. -/
def ActionTrigger.CreateBalance (env : Env) (trg : ActionTrigger) : Engine.Balance :=
  { env.CreateBalance trg.Balance with ID := trg.UniqueID }

/-- Modelled from the spec: `BalanceFilter.Clone`, the balance predicate's own
deep copy, declared outside `action_trigger.go`. A nil predicate clones to
nil; otherwise the copy carries the conditions of the original. -/
def BalanceFilter.Clone (bp : Option BalanceFilter) : Option BalanceFilter :=
  match bp with
  | none => none
  | some b => some b

/-- Method `ActionTrigger.Clone`, lines 151 to 171, on the value behind the
pointer: nil for a nil receiver, otherwise the struct literal of line 155. -/
def ActionTrigger.Clone (trg : Option ActionTrigger) : Option ActionTrigger :=
  match trg with
  | none => none
  | some t =>
    some
      { ID := t.ID
        UniqueID := t.UniqueID
        ThresholdType := t.ThresholdType
        ThresholdValue := t.ThresholdValue
        Recurrent := t.Recurrent
        MinSleep := t.MinSleep
        ExpirationDate := t.ExpirationDate
        ActivationDate := t.ActivationDate
        Weight := t.Weight
        ActionsID := t.ActionsID
        MinQueuedItems := t.MinQueuedItems
        Executed := t.Executed
        LastExecutionTime := t.LastExecutionTime
        Balance := BalanceFilter.Clone t.Balance }

/-- Method `ActionTrigger.Equals`, lines 173 to 176: identifiers only. -/
def ActionTrigger.Equals (trg oat : ActionTrigger) : Bool :=
  trg.ID == oat.ID && trg.UniqueID == oat.UniqueID

/-- Method `ActionTrigger.IsActive`, line 178. -/
def ActionTrigger.IsActive (trg : ActionTrigger) (t : Time) : Bool :=
  trg.ActivationDate.IsZero || t.After trg.ActivationDate

/-- Method `ActionTrigger.IsExpired`, line 182. -/
def ActionTrigger.IsExpired (trg : ActionTrigger) (t : Time) : Bool :=
  !trg.ExpirationDate.IsZero && t.After trg.ExpirationDate

/-! ## The field accessor -/

/-- A value of type `interface{}` as the accessor hands it out. -/
inductive FieldValue where
  | string (s : String)
  | float64 (x : ℚ)
  | bool (b : Bool)
  | duration (d : Duration)
  | time (t : Time)
  | int (n : Int)
  | balanceFilter (bp : Option BalanceFilter)
  | other (shown : String)
  deriving DecidableEq, Repr

/-- What the accessor takes from package `utils` and from the balance
predicate: the field-name constants, the not-found error, the predicate's own
accessor and the conversion to a string. -/
structure FieldEnv where
  ID : String
  UniqueID : String
  ThresholdType : String
  ThresholdValue : String
  Recurrent : String
  MinSleep : String
  ExpirationDate : String
  ActivationDate : String
  BalanceField : String
  Weight : String
  ActionsID : String
  MinQueuedItems : String
  Executed : String
  LastExecutionTime : String
  /-- Error value `utils.ErrNotFound`. -/
  ErrNotFound : Error
  /-- Method `BalanceFilter.FieldAsInterface`. -/
  BalanceFieldAsInterface : Option BalanceFilter → List String → Except Error FieldValue
  /-- Function `utils.IfaceAsString`. -/
  IfaceAsString : FieldValue → String

/-- The body shared by the cases of a leaf field:
`if len(fldPath) != 1 { return nil, utils.ErrNotFound }; return value, nil`. -/
def leafField (fe : FieldEnv) (fldPath : List String) (v : FieldValue) :
    Except Error FieldValue :=
  if fldPath.length ≠ 1 then .error fe.ErrNotFound else .ok v

/-- The `switch fldPath[0]` of lines 225 to 298 for a non-nil receiver and a
path of first element `name`. The cases are tried in the order of the source;
`default` is what is left. -/
def fieldSwitch (fe : FieldEnv) (t : ActionTrigger) (name : String) (rest : List String) :
    Except Error FieldValue :=
  if name = fe.ID then leafField fe (name :: rest) (.string t.ID)
  else if name = fe.UniqueID then leafField fe (name :: rest) (.string t.UniqueID)
  else if name = fe.ThresholdType then leafField fe (name :: rest) (.string t.ThresholdType)
  else if name = fe.ThresholdValue then leafField fe (name :: rest) (.float64 t.ThresholdValue)
  else if name = fe.Recurrent then leafField fe (name :: rest) (.bool t.Recurrent)
  else if name = fe.MinSleep then leafField fe (name :: rest) (.duration t.MinSleep)
  else if name = fe.ExpirationDate then leafField fe (name :: rest) (.time t.ExpirationDate)
  else if name = fe.ActivationDate then leafField fe (name :: rest) (.time t.ActivationDate)
  else if name = fe.BalanceField then
    if (name :: rest).length = 1 then .ok (.balanceFilter t.Balance)
    else fe.BalanceFieldAsInterface t.Balance rest
  else if name = fe.Weight then leafField fe (name :: rest) (.float64 t.Weight)
  else if name = fe.ActionsID then leafField fe (name :: rest) (.string t.ActionsID)
  else if name = fe.MinQueuedItems then leafField fe (name :: rest) (.int t.MinQueuedItems)
  else if name = fe.Executed then leafField fe (name :: rest) (.bool t.Executed)
  else if name = fe.LastExecutionTime then
    leafField fe (name :: rest) (.time t.LastExecutionTime)
  else .error ("unsupported field prefix: <" ++ name ++ ">")

/-- Method `ActionTrigger.FieldAsInterface`, lines 221 to 299: the guard of
line 222, then the `switch`. -/
def ActionTrigger.FieldAsInterface (fe : FieldEnv) (trg : Option ActionTrigger)
    (fldPath : List String) : Except Error FieldValue :=
  match trg, fldPath with
  | none, _ => .error fe.ErrNotFound
  | some _, [] => .error fe.ErrNotFound
  | some t, name :: rest => fieldSwitch fe t name rest

/-- Method `ActionTrigger.FieldAsString`, lines 301 to 308. -/
def ActionTrigger.FieldAsString (fe : FieldEnv) (trg : Option ActionTrigger)
    (fldPath : List String) : Except Error String :=
  match ActionTrigger.FieldAsInterface fe trg fldPath with
  | .error err => .error err
  | .ok iface => .ok (fe.IfaceAsString iface)

/-- The names of the leaf fields, every field but `Balance`. -/
def FieldEnv.leafNames (fe : FieldEnv) : List String :=
  [fe.ID, fe.UniqueID, fe.ThresholdType, fe.ThresholdValue, fe.Recurrent, fe.MinSleep,
   fe.ExpirationDate, fe.ActivationDate, fe.Weight, fe.ActionsID, fe.MinQueuedItems,
   fe.Executed, fe.LastExecutionTime]

/-! ## The copy, seen through pointers

`ActionTrigger.Clone` above works on the values behind the pointers. To say
that the copy shares nothing with the original, the same method is given once
more on a heap, where a trigger struct holds its `Balance` as a pointer. -/

/-- An address of the heap; a Go pointer is an `Option Ptr`, nil being `none`. -/
abbrev Ptr := Nat

/-- The struct a `*ActionTrigger` points to, its `Balance` field a pointer. -/
structure TriggerCell where
  ID : String
  UniqueID : String
  ThresholdType : String
  ThresholdValue : ℚ
  Recurrent : Bool
  MinSleep : Duration
  ExpirationDate : Time
  ActivationDate : Time
  Balance : Option Ptr
  Weight : ℚ
  ActionsID : String
  MinQueuedItems : Int
  Executed : Bool
  LastExecutionTime : Time
  deriving DecidableEq, Repr

/-- The heap: the trigger structs and the balance predicates allocated so far.
The address of a struct is its position in the list; allocation appends. -/
structure Heap where
  triggers : List TriggerCell
  filters : List BalanceFilter
  deriving DecidableEq, Repr

/-- Modelled from the spec: `BalanceFilter.Clone` on the heap, a deep copy
declared outside `action_trigger.go`. Nil clones to nil; otherwise a new
predicate is allocated with the conditions of the original. -/
def Heap.CloneFilter (h : Heap) (bp : Option Ptr) : Heap × Option Ptr :=
  match bp with
  | none => (h, none)
  | some p =>
    match h.filters[p]? with
    | none => (h, none)
    | some f => ({ h with filters := h.filters ++ [f] }, some h.filters.length)

/-- Method `ActionTrigger.Clone`, lines 151 to 171, on the heap: nil for a nil
receiver, otherwise a newly allocated struct built by the literal of line 155.
An address that holds nothing, which a Go pointer never is, answers nil. -/
def Heap.CloneTrigger (h : Heap) (trg : Option Ptr) : Heap × Option Ptr :=
  match trg with
  | none => (h, none)
  | some p =>
    match h.triggers[p]? with
    | none => (h, none)
    | some t =>
      let r := h.CloneFilter t.Balance
      ({ r.1 with
          triggers := r.1.triggers ++
            [{ ID := t.ID
               UniqueID := t.UniqueID
               ThresholdType := t.ThresholdType
               ThresholdValue := t.ThresholdValue
               Recurrent := t.Recurrent
               MinSleep := t.MinSleep
               ExpirationDate := t.ExpirationDate
               ActivationDate := t.ActivationDate
               Weight := t.Weight
               ActionsID := t.ActionsID
               MinQueuedItems := t.MinQueuedItems
               Executed := t.Executed
               LastExecutionTime := t.LastExecutionTime
               Balance := r.2 }] },
        some r.1.triggers.length)

/-- The trigger value of a struct of the heap: its scalar fields, with the
predicate its `Balance` points to. -/
def Heap.read (h : Heap) (t : TriggerCell) : ActionTrigger :=
  { ID := t.ID
    UniqueID := t.UniqueID
    ThresholdType := t.ThresholdType
    ThresholdValue := t.ThresholdValue
    Recurrent := t.Recurrent
    MinSleep := t.MinSleep
    ExpirationDate := t.ExpirationDate
    ActivationDate := t.ActivationDate
    Balance := t.Balance.bind fun q => h.filters[q]?
    Weight := t.Weight
    ActionsID := t.ActionsID
    MinQueuedItems := t.MinQueuedItems
    Executed := t.Executed
    LastExecutionTime := t.LastExecutionTime }

/-- The trigger a pointer stands for, nil standing for nothing. This is the
value the rest of the file works with. -/
def Heap.load (h : Heap) (trg : Option Ptr) : Option ActionTrigger :=
  match trg with
  | none => none
  | some p => (h.triggers[p]?).map h.read

/-- An assignment through a trigger pointer: the struct at `p` is replaced. -/
def Heap.storeTrigger (h : Heap) (p : Ptr) (t : TriggerCell) : Heap :=
  { h with triggers := h.triggers.set p t }

/-- An assignment through a predicate pointer: the predicate at `p` is
replaced. -/
def Heap.storeFilter (h : Heap) (p : Ptr) (f : BalanceFilter) : Heap :=
  { h with filters := h.filters.set p f }

/-! ## The trigger set -/

/-- Method `ActionTriggers.Clone`, lines 206 to 215. A set is a slice of
trigger pointers: `none` is the nil slice, an element `none` a nil pointer.
The clone starts as `make(ActionTriggers, len(atpl))`, all nil, and is filled
index by index. -/
def ActionTriggers.Clone (atpl : Option (List (Option ActionTrigger))) :
    Option (List (Option ActionTrigger)) :=
  match atpl with
  | none => none
  | some l =>
    some ((List.range l.length).foldl
      (fun clone i => clone.set i (ActionTrigger.Clone (l.getD i none)))
      (List.replicate l.length none))

/-- The pointer `p` holds a trigger struct whose `Balance` pointer is nil or
holds a predicate, as every non-nil `*ActionTrigger` of a Go program does. -/
def Heap.validTrigger (h : Heap) (p : Ptr) : Bool :=
  match h.triggers[p]? with
  | none => false
  | some cell =>
    match cell.Balance with
    | none => true
    | some bp => decide (bp < h.filters.length)

/-- One turn of the loop of `ActionTriggers.Clone`, line 212:
`clone[i] = at.Clone()`, with the heap as the call leaves it. -/
def Heap.cloneAt (l : List (Option Ptr)) (s : Heap × List (Option Ptr)) (i : Nat) :
    Heap × List (Option Ptr) :=
  ((s.1.CloneTrigger (l.getD i none)).1, s.2.set i (s.1.CloneTrigger (l.getD i none)).2)

/-- Method `ActionTriggers.Clone`, lines 206 to 215, on the heap. A set is a
slice of trigger pointers, `none` the nil slice. The clone starts as
`make(ActionTriggers, len(atpl))`, all nil, and the loop stores at each index
the pointer `at.Clone()` returns, the heap growing with every struct
allocated. -/
def Heap.CloneTriggers (h : Heap) (atpl : Option (List (Option Ptr))) :
    Heap × Option (List (Option Ptr)) :=
  match atpl with
  | none => (h, none)
  | some l =>
    let r := (List.range l.length).foldl (Heap.cloneAt l) (h, List.replicate l.length none)
    (r.1, some r.2)

/-! ## The library sort

`ActionTriggers.Sort` hands the set to `sort.Sort` of the Go library. What
follows is that function as the library has had it since Go 1.19, a
pattern-defeating quicksort driven by the three methods of `sort.Interface`.
Loops are bounded by a fuel that their ranges cover; the recursion of
`pdqsort` answers `none` when its fuel runs out. -/

/-- The three methods `sort.Sort` asks of its argument (`sort.Interface`). -/
structure SortInterface (α : Type) where
  Len : α → Nat
  Less : α → Nat → Nat → Bool
  Swap : α → Nat → Nat → α

/-- Function `bits.Len`: the number of bits needed to write `n`. -/
def bitsLen (n : Nat) : Nat :=
  (List.range (n + 1)).foldl (fun len k => if 2 ^ k ≤ n then k + 1 else len) 0

/-- The inner loop of `insertionSort`:
`for j := i; j > a && data.Less(j, j-1); j-- { data.Swap(j, j-1) }`. -/
def insertionShift {α : Type} (I : SortInterface α) (a : Nat) : Nat → α → α
  | 0, d => d
  | j + 1, d =>
    if a < j + 1 && I.Less d (j + 1) j then insertionShift I a j (I.Swap d (j + 1) j) else d

/-- Function `insertionSort(data, a, b)`. -/
def insertionSort {α : Type} (I : SortInterface α) (d : α) (a b : Nat) : α :=
  (List.range' (a + 1) (b - (a + 1))).foldl (fun d i => insertionShift I a i d) d

/-- Function `siftDown(data, lo, hi, first)`, `root` starting at `lo`. -/
def siftDown {α : Type} (I : SortInterface α) (first hi : Nat) : Nat → Nat → α → α
  | 0, _, d => d
  | fuel + 1, root, d =>
    if hi ≤ 2 * root + 1 then d
    else
      let child :=
        if 2 * root + 2 < hi && I.Less d (first + (2 * root + 1)) (first + (2 * root + 1) + 1)
        then 2 * root + 2 else 2 * root + 1
      if !I.Less d (first + root) (first + child) then d
      else siftDown I first hi fuel child (I.Swap d (first + root) (first + child))

/-- Function `heapSort(data, a, b)`. -/
def heapSort {α : Type} (I : SortInterface α) (d : α) (a b : Nat) : α :=
  let hi := b - a
  let d1 := (List.range ((hi - 1) / 2 + 1)).reverse.foldl
    (fun d i => siftDown I a hi (hi + 1) i d) d
  (List.range hi).reverse.foldl
    (fun d i => siftDown I a i (hi + 1) 0 (I.Swap d a (a + i))) d1

/-- The loop `for i <= j && p(i) { i++ }`. -/
def scanUp (p : Nat → Bool) (j : Nat) : Nat → Nat → Nat
  | 0, i => i
  | fuel + 1, i => if i ≤ j && p i then scanUp p j fuel (i + 1) else i

/-- The loop `for i <= j && p(j) { j-- }`. -/
def scanDown (p : Nat → Bool) (i : Nat) : Nat → Nat → Nat
  | 0, j => j
  | fuel + 1, j => if i ≤ j && p j then scanDown p i fuel (j - 1) else j

/-- The `for` loop of `partition`; the answer is the data and `j`. -/
def partitionLoop {α : Type} (I : SortInterface α) (a : Nat) : Nat → α → Nat → Nat → α × Nat
  | 0, d, _, j => (d, j)
  | fuel + 1, d, i, j =>
    let i1 := scanUp (fun i => I.Less d i a) j (j + 2) i
    let j1 := scanDown (fun j => !I.Less d j a) i1 (j + 2) j
    if j1 < i1 then (d, j1)
    else partitionLoop I a fuel (I.Swap d i1 j1) (i1 + 1) (j1 - 1)

/-- Function `partition(data, a, b, pivot)`: the data, the new place of the
pivot, and whether the range was already partitioned. -/
def partition {α : Type} (I : SortInterface α) (d : α) (a b pivot : Nat) : α × Nat × Bool :=
  let d0 := I.Swap d a pivot
  let i := scanUp (fun i => I.Less d0 i a) (b - 1) (b + 2) (a + 1)
  let j := scanDown (fun j => !I.Less d0 j a) i (b + 2) (b - 1)
  if j < i then (I.Swap d0 j a, j, true)
  else
    let r := partitionLoop I a (b + 2) (I.Swap d0 i j) (i + 1) (j - 1)
    (I.Swap r.1 r.2 a, r.2, false)

/-- The `for` loop of `partitionEqual`; the answer is the data and `i`. -/
def partitionEqualLoop {α : Type} (I : SortInterface α) (a : Nat) :
    Nat → α → Nat → Nat → α × Nat
  | 0, d, i, _ => (d, i)
  | fuel + 1, d, i, j =>
    let i1 := scanUp (fun i => !I.Less d a i) j (j + 2) i
    let j1 := scanDown (fun j => I.Less d a j) i1 (j + 2) j
    if j1 < i1 then (d, i1)
    else partitionEqualLoop I a fuel (I.Swap d i1 j1) (i1 + 1) (j1 - 1)

/-- Function `partitionEqual(data, a, b, pivot)`. -/
def partitionEqual {α : Type} (I : SortInterface α) (d : α) (a b pivot : Nat) : α × Nat :=
  partitionEqualLoop I a (b + 2) (I.Swap d a pivot) (a + 1) (b - 1)

/-- The loop `for i < b && !data.Less(i, i-1) { i++ }`. -/
def skipOrdered {α : Type} (I : SortInterface α) (d : α) (b : Nat) : Nat → Nat → Nat
  | 0, i => i
  | fuel + 1, i => if i < b && !I.Less d i (i - 1) then skipOrdered I d b fuel (i + 1) else i

/-- The loop `for j := i - 1; j >= 1; j--` of `partialInsertionSort`. -/
def shiftLeft {α : Type} (I : SortInterface α) : Nat → α → α
  | 0, d => d
  | j + 1, d => if !I.Less d (j + 1) j then d else shiftLeft I j (I.Swap d (j + 1) j)

/-- The loop `for j := i + 1; j < b; j++` of `partialInsertionSort`. -/
def shiftRight {α : Type} (I : SortInterface α) (b : Nat) : Nat → Nat → α → α
  | 0, _, d => d
  | fuel + 1, j, d =>
    if j < b then
      if !I.Less d j (j - 1) then d else shiftRight I b fuel (j + 1) (I.Swap d j (j - 1))
    else d

/-- The `for j := 0; j < maxSteps; j++` loop of `partialInsertionSort`, with
the steps still allowed. -/
def partialInsertionLoop {α : Type} (I : SortInterface α) (a b : Nat) :
    Nat → α → Nat → α × Bool
  | 0, d, _ => (d, false)
  | steps + 1, d, i =>
    let i1 := skipOrdered I d b (b + 1) i
    if i1 = b then (d, true)
    else if b - a < 50 then (d, false)
    else
      let d1 := I.Swap d i1 (i1 - 1)
      let d2 := if 2 ≤ i1 - a then shiftLeft I (i1 - 1) d1 else d1
      let d3 := if 2 ≤ b - i1 then shiftRight I b (b + 1) (i1 + 1) d2 else d2
      partialInsertionLoop I a b steps d3 i1

/-- Function `partialInsertionSort(data, a, b)`: the data and whether it is
sorted at the end. -/
def partialInsertionSort {α : Type} (I : SortInterface α) (d : α) (a b : Nat) : α × Bool :=
  partialInsertionLoop I a b 5 d (a + 1)

/-- Method `xorshift.Next` on 64 bits. -/
def xorshiftNext (r : Nat) : Nat :=
  let r1 := r ^^^ ((r <<< 13) % 2 ^ 64)
  let r2 := r1 ^^^ (r1 >>> 7)
  r2 ^^^ ((r2 <<< 17) % 2 ^ 64)

/-- Function `breakPatterns(data, a, b)`: three swaps, at the index before
the middle candidate of `choosePivot`, at that candidate and at the index
after it, each with an index of the range drawn from `xorshift`. -/
def breakPatterns {α : Type} (I : SortInterface α) (d : α) (a b : Nat) : α :=
  let length := b - a
  if 8 ≤ length then
    let modulus := 2 ^ bitsLen length
    let idx := a + (length / 4) * 2 - 1
    let step := fun (s : α × Nat) (i : Nat) =>
      let r := xorshiftNext s.2
      let other := r % modulus
      let other1 := if length ≤ other then other - length else other
      (I.Swap s.1 (idx + i) (a + other1), r)
    ([0, 1, 2].foldl step (d, length)).1
  else d

/-- The hint `choosePivot` gives about the order of the range. -/
inductive SortedHint where
  | unknownHint
  | increasingHint
  | decreasingHint
  deriving DecidableEq, Repr

/-- Function `order2(data, a, b, swaps)`. -/
def order2 {α : Type} (I : SortInterface α) (d : α) (a b swaps : Nat) : Nat × Nat × Nat :=
  if I.Less d b a then (b, a, swaps + 1) else (a, b, swaps)

/-- Function `median(data, a, b, c, swaps)`: the index of the median and the
swap count. -/
def median {α : Type} (I : SortInterface α) (d : α) (a b c swaps : Nat) : Nat × Nat :=
  let r1 := order2 I d a b swaps
  let r2 := order2 I d r1.2.1 c r1.2.2
  let r3 := order2 I d r1.1 r2.1 r2.2.2
  (r3.2.1, r3.2.2)

/-- Function `medianAdjacent(data, a, swaps)`. -/
def medianAdjacent {α : Type} (I : SortInterface α) (d : α) (a swaps : Nat) : Nat × Nat :=
  median I d (a - 1) a (a + 1) swaps

/-- Function `choosePivot(data, a, b)`. -/
def choosePivot {α : Type} (I : SortInterface α) (d : α) (a b : Nat) : Nat × SortedHint :=
  let l := b - a
  let i := a + l / 4 * 1
  let j := a + l / 4 * 2
  let k := a + l / 4 * 3
  let r : Nat × Nat :=
    if 8 ≤ l then
      if 50 ≤ l then
        let ri := medianAdjacent I d i 0
        let rj := medianAdjacent I d j ri.2
        let rk := medianAdjacent I d k rj.2
        median I d ri.1 rj.1 rk.1 rk.2
      else median I d i j k 0
    else (j, 0)
  if r.2 = 0 then (r.1, .increasingHint)
  else if r.2 = 12 then (r.1, .decreasingHint)
  else (r.1, .unknownHint)

/-- Function `reverseRange(data, a, b)`, `i` and `j` starting at `a` and
`b - 1`. -/
def reverseRange {α : Type} (I : SortInterface α) : Nat → α → Nat → Nat → α
  | 0, d, _, _ => d
  | fuel + 1, d, i, j =>
    if i < j then reverseRange I fuel (I.Swap d i j) (i + 1) (j - 1) else d

/-- Function `pdqsort(data, a, b, limit)`. The two flags are its local
variables `wasBalanced` and `wasPartitioned`; one unit of fuel is spent per
turn of its loop and per recursive call. -/
def pdqsort {α : Type} (I : SortInterface α) :
    Nat → α → Nat → Nat → Nat → Bool → Bool → Option α
  | 0, _, _, _, _, _, _ => none
  | fuel + 1, d, a, b, limit, wasBalanced, wasPartitioned =>
    if b - a ≤ 12 then some (insertionSort I d a b)
    else if limit = 0 then some (heapSort I d a b)
    else
      let d1 := if wasBalanced then d else breakPatterns I d a b
      let limit1 := if wasBalanced then limit else limit - 1
      let c := choosePivot I d1 a b
      let d2 := if c.2 = .decreasingHint then reverseRange I b d1 a (b - 1) else d1
      let pivot := if c.2 = .decreasingHint then (b - 1) - (c.1 - a) else c.1
      let hint := if c.2 = .decreasingHint then SortedHint.increasingHint else c.2
      let s : α × Bool :=
        if wasBalanced && wasPartitioned && hint = .increasingHint then
          partialInsertionSort I d2 a b
        else (d2, false)
      if s.2 then some s.1
      else if 0 < a && !I.Less s.1 (a - 1) pivot then
        pdqsort I fuel (partitionEqual I s.1 a b pivot).1 (partitionEqual I s.1 a b pivot).2 b
          limit1 wasBalanced wasPartitioned
      else
        let r := partition I s.1 a b pivot
        let mid := r.2.1
        if mid - a < b - mid then
          match pdqsort I fuel r.1 a mid limit1 true true with
          | none => none
          | some d3 =>
            pdqsort I fuel d3 (mid + 1) b limit1 (decide ((b - a) / 8 ≤ mid - a)) r.2.2
        else
          match pdqsort I fuel r.1 (mid + 1) b limit1 true true with
          | none => none
          | some d3 =>
            pdqsort I fuel d3 a mid limit1 (decide ((b - a) / 8 ≤ b - mid)) r.2.2

/-- Function `sort.Sort(data)`; `none` would say that the fuel did not cover the
run, which `sortSort_spec` below shows never happens. -/
def sortSort {α : Type} (I : SortInterface α) (d : α) : Option α :=
  if I.Len d ≤ 1 then some d
  else pdqsort I (I.Len d + 1) d 0 (I.Len d) (bitsLen (I.Len d)) true true

/-! ## Sorting the trigger set -/

/-- Method `ActionTriggers.Len`, line 189. For sorting, a set is the list of
the triggers its pointers stand for (a nil element would make `Less` fail). -/
def ActionTriggers.Len (atpl : List ActionTrigger) : Nat := atpl.length

/-- Method `ActionTriggers.Swap`, line 193; indices out of range, which make
the Go code fail, leave the set as it is. -/
def ActionTriggers.Swap (atpl : List ActionTrigger) (i j : Nat) : List ActionTrigger :=
  match atpl[i]?, atpl[j]? with
  | some x, some y => (atpl.set i y).set j x
  | _, _ => atpl

/-- Method `ActionTriggers.Less`, line 198, with the parameters in the order of
the source, `(j, i)`: `atpl[i].Weight < atpl[j].Weight`. Indices out of range
answer false. -/
def ActionTriggers.Less (atpl : List ActionTrigger) (j i : Nat) : Bool :=
  match atpl[i]?, atpl[j]? with
  | some x, some y => decide (x.Weight < y.Weight)
  | _, _ => false

/-- The set as a `sort.Interface`. -/
def ActionTriggers.sortInterface : SortInterface (List ActionTrigger) :=
  { Len := ActionTriggers.Len, Less := ActionTriggers.Less, Swap := ActionTriggers.Swap }

/-- Method `ActionTriggers.Sort`, line 202: the set is handed to the library
function `sort.Sort`, here `sortFn`. The answer is the set as the call leaves
it, `none` when the call does not return. -/
def ActionTriggers.Sort
    (sortFn : SortInterface (List ActionTrigger) → List ActionTrigger →
      Option (List ActionTrigger))
    (atpl : List ActionTrigger) : Option (List ActionTrigger) :=
  sortFn ActionTriggers.sortInterface atpl

/-! ## The library sort: vocabulary of the proofs -/

/-- What the proofs ask of a `sort.Interface`: the data has a length and a key
at each index; `Swap` keeps the length and exchanges two keys; `Less` compares
keys. The indices are those within the length. -/
structure Keyed {α : Type} (I : SortInterface α) (key : α → Nat → ℚ) : Prop where
  len_swap : ∀ d i j, I.Len (I.Swap d i j) = I.Len d
  key_swap : ∀ d i j k, i < I.Len d → j < I.Len d →
    key (I.Swap d i j) k = key d (Equiv.swap i j k)
  less_iff : ∀ d i j, i < I.Len d → j < I.Len d → (I.Less d i j = true ↔ key d i < key d j)

/-- The keys `g` are the keys `f` rearranged within the indices `a ≤ k < b`. -/
def RangePerm (a b : Nat) (f g : Nat → ℚ) : Prop :=
  ∃ σ : Equiv.Perm Nat, (∀ k, ¬ (a ≤ k ∧ k < b) → σ k = k) ∧ ∀ k, g k = f (σ k)

/-- The data `out` is the data `d` with the elements at `a ≤ k < b` rearranged. -/
def Reach {α : Type} (I : SortInterface α) (key : α → Nat → ℚ) (a b : Nat) (d out : α) : Prop :=
  I.Len out = I.Len d ∧ RangePerm a b (key d) (key out)

/-- The keys at `a ≤ k < b` are in ascending order. -/
def SortedOn (f : Nat → ℚ) (a b : Nat) : Prop :=
  ∀ k, a ≤ k → k + 1 < b → f k ≤ f (k + 1)

/-- The heap condition at node `c` of the heap of `hi` nodes that starts at
index `first`: no child of `c` has a greater key than `c`. -/
def HeapAt (f : Nat → ℚ) (first hi c : Nat) : Prop :=
  (2 * c + 1 < hi → f (first + (2 * c + 1)) ≤ f (first + c)) ∧
  (2 * c + 2 < hi → f (first + (2 * c + 2)) ≤ f (first + c))

/-- The key the library sort orders a trigger set by: the weight of the trigger
at the index, negated, as `Less` puts the higher weight first. -/
def ActionTriggers.sortKey (atpl : List ActionTrigger) (i : Nat) : ℚ :=
  match atpl[i]? with
  | some t => -t.Weight
  | none => 0

/-! ## A small deployment, used to run the definitions on concrete inputs -/

/-- A decoder that knows the two documents used below and leaves the struct
at its zero value on anything else. -/
def demoUnmarshal (s : String) : ExtraParams :=
  if s = "\x7b\"GroupID\":\"G1\"\x7d" then
    { GroupID := "G1", UniqueID := "", ThresholdType := "" }
  else if s = "\x7b\"UniqueID\":\"U1\"\x7d" then
    { GroupID := "", UniqueID := "U1", ThresholdType := "" }
  else
    { GroupID := "", UniqueID := "", ThresholdType := "" }

/-- A balance built from a predicate, absent conditions read as zero values. -/
def demoCreateBalance (bp : Option BalanceFilter) : Balance :=
  match bp with
  | none =>
    { Uuid := "", ID := "", Value := 0, ExpirationDate := ⟨0⟩, Weight := 0,
      DestinationIDs := [], RatingSubject := "", SharedGroups := [],
      Disabled := false, Blocker := false }
  | some b =>
    { Uuid := b.Uuid.getD "", ID := b.ID.getD "", Value := b.Value.getD 0,
      ExpirationDate := b.ExpirationDate.getD ⟨0⟩, Weight := b.Weight.getD 0,
      DestinationIDs := b.DestinationIDs.getD [], RatingSubject := b.RatingSubject.getD "",
      SharedGroups := b.SharedGroups.getD [], Disabled := b.Disabled.getD false,
      Blocker := b.Blocker.getD false }

/-- A filter match that compares the conditions the predicate carries. -/
def demoMatchFilter (b : Balance) (bp : Option BalanceFilter) (skipIds skipExpiry : Bool) : Bool :=
  match bp with
  | none => true
  | some f =>
    (skipIds || f.ID.all (fun i => i == b.ID)) &&
    (skipExpiry || f.ExpirationDate.all (fun e => e == b.ExpirationDate)) &&
    f.Weight.all (fun w => w == b.Weight) &&
    f.RatingSubject.all (fun r => r == b.RatingSubject)

/-- The account a handler reports when it was handed a nil account. -/
def noAccount : Account := { ID := "", Disabled := false, BalanceMap := [] }

/-- A handler that creates an empty monetary balance list and succeeds. -/
def demoTopup : ActionFunc := fun ub _ _ _ =>
  { ub := { (ub.getD noAccount) with
            BalanceMap := ("*monetary", []) :: (ub.getD noAccount).BalanceMap },
    err := none }

/-- A handler that changes nothing and fails. -/
def demoDebit : ActionFunc := fun ub _ _ _ =>
  { ub := ub.getD noAccount, err := some "insufficient credit" }

/-- A handler that removes the account in the store and succeeds. -/
def demoRemove : ActionFunc := fun ub _ _ _ =>
  { ub := ub.getD noAccount, err := none }

/-- A registry with three action types. -/
def demoRegistry (actionType : String) : Option ActionFunc :=
  if actionType = "*topup" then some demoTopup
  else if actionType = "*debit" then some demoDebit
  else if actionType = "*remove_account" then some demoRemove
  else none

/-- An action of the given type and weight, nothing else set. -/
def mkAction (id actionType : String) (weight : ℚ) : Action :=
  { Id := id, ActionType := actionType, ExtraParameters := "", Filters := [],
    ExpirationString := "", Weight := weight, Balance := none }

/-- Three actions stored out of weight order; the one of weight 20 has a type
the registry does not know. -/
def mixedActions : List Action :=
  [mkAction "ACT_MIXED" "*topup" 10, mkAction "ACT_MIXED" "*topup" 30,
   mkAction "ACT_MIXED" "*unknown" 20]

/-- One action guarded by a filter the filter service cannot evaluate. -/
def filteredActions : List Action :=
  [{ mkAction "ACT_FILTERED" "*topup" 10 with Filters := ["*broken"] }]

/-- The action store of the deployment. -/
def demoGetActions (key : String) (_skipCache : Bool) (_transactionID : String) :
    Except Error (List Action) :=
  if key = "ACT_TOPUP" then .ok [mkAction "ACT_TOPUP" "*topup" 10]
  else if key = "ACT_MIXED" then .ok mixedActions
  else if key = "ACT_DEBIT" then .ok [mkAction "ACT_DEBIT" "*debit" 10]
  else if key = "ACT_REMOVE" then .ok [mkAction "ACT_REMOVE" "*remove_account" 10]
  else if key = "ACT_FILTERED" then .ok filteredActions
  else .error "NOT_FOUND"

/-- A filter service: the filter `*broken` fails, `*never` does not pass,
everything else passes. -/
def demoFilterS : FilterS :=
  { Pass := fun _ filters _ =>
      if filters = ["*broken"] then .error "broken filter"
      else if filters = ["*never"] then .ok false
      else .ok true }

/-- The deployment. Actions are ordered by descending weight with an insertion
sort. -/
def demoEnv : Env :=
  { Unmarshal := demoUnmarshal
    CreateBalance := demoCreateBalance
    MatchFilter := demoMatchFilter
    GetActions := demoGetActions
    NonTransactional := ""
    SortActions := fun aac => aac.insertionSort (fun x y => y.Weight ≤ x.Weight)
    Tenant := fun _ => "cgrates.org"
    ParseTimeDetectLayout := fun s _ =>
      if s = "*unlimited" then .ok ⟨0⟩ else .error "unsupported time format"
    DefaultTimezone := "UTC"
    getActionFunc := demoRegistry
    MetaRemoveAccount := "*remove_account" }

/-- A balance predicate that only asks for a type. -/
def typedFilter (ty : String) : BalanceFilter := { BalanceFilter.empty with Type_ := some ty }

/-- A trigger of group `G1` watching monetary balances. -/
def demoTrigger (uniqueID : String) : ActionTrigger :=
  { ID := "G1", UniqueID := uniqueID, ThresholdType := "*min_balance", ThresholdValue := 2,
    Recurrent := false, MinSleep := 0, ExpirationDate := ⟨0⟩, ActivationDate := ⟨0⟩,
    Balance := some (typedFilter "*monetary"), Weight := 10, ActionsID := "ACT_TOPUP",
    MinQueuedItems := 0, Executed := false, LastExecutionTime := ⟨0⟩ }

/-- An action addressed to group `G1` with a balance predicate of type `ty`. -/
def groupAction (ty : String) : Action :=
  { mkAction "ACT_GROUP" "*topup" 10 with
    ExtraParameters := "\x7b\"GroupID\":\"G1\"\x7d", Balance := some (typedFilter ty) }

/-- An enabled account. -/
def demoAccount : Account := { ID := "cgrates.org:1001", Disabled := false, BalanceMap := [] }

/-- A recurrent trigger that fired one second ago and sleeps for a minute. -/
def sleepyTrigger : ActionTrigger :=
  { demoTrigger "U1" with
    Recurrent := true, MinSleep := 60000000000, LastExecutionTime := ⟨5000000000⟩ }

/-- A disabled account. -/
def disabledDemoAccount : Account := { demoAccount with Disabled := true }

/-- A trigger bound to an action list the store does not hold. -/
def danglingTrigger : ActionTrigger := { demoTrigger "U1" with ActionsID := "ACT_MISSING" }

/-- A non-recurrent trigger bound to `mixedActions`. -/
def mixedTrigger : ActionTrigger := { demoTrigger "U1" with ActionsID := "ACT_MIXED" }

/-- A non-recurrent trigger bound to an action whose handler fails. -/
def debitTrigger : ActionTrigger := { demoTrigger "U1" with ActionsID := "ACT_DEBIT" }

/-- A non-recurrent trigger bound to an account-removal action. -/
def removeTrigger : ActionTrigger := { demoTrigger "U1" with ActionsID := "ACT_REMOVE" }

/-- A recurrent trigger, never fired, bound to `filteredActions`. -/
def filteredTrigger : ActionTrigger :=
  { demoTrigger "U1" with ActionsID := "ACT_FILTERED", Recurrent := true }

/-- An action without `ExtraParameters` whose balance predicate asks for the
monetary balance identified by `id`. -/
def idAction (id : String) : Action :=
  { mkAction "ACT_ID" "*topup" 10 with
    Balance := some { typedFilter "*monetary" with ID := some id } }

/-- A trigger of group `G1` with the given `UniqueID` and weight. -/
def weighted (uniqueID : String) (weight : ℚ) : ActionTrigger :=
  { demoTrigger uniqueID with Weight := weight }

/-- Thirteen triggers: twelve of weight 10, then one of weight 20. -/
def thirteenTriggers : List ActionTrigger :=
  [weighted "T0" 10, weighted "T1" 10, weighted "T2" 10, weighted "T3" 10, weighted "T4" 10,
   weighted "T5" 10, weighted "T6" 10, weighted "T7" 10, weighted "T8" 10, weighted "T9" 10,
   weighted "T10" 10, weighted "T11" 10, weighted "T12" 20]

/-- Three triggers out of weight order. -/
def threeTriggers : List ActionTrigger :=
  [weighted "T0" 10, weighted "T1" 30, weighted "T2" 20]

/-- Fourteen triggers of weights 0, 1, 0, 1, ... -/
def fourteenTriggers : List ActionTrigger :=
  [weighted "T0" 0, weighted "T1" 1, weighted "T2" 0, weighted "T3" 1, weighted "T4" 0,
   weighted "T5" 1, weighted "T6" 0, weighted "T7" 1, weighted "T8" 0, weighted "T9" 1,
   weighted "T10" 0, weighted "T11" 1, weighted "T12" 0, weighted "T13" 1]

/-- A trigger struct of the heap whose `Balance` points to address 0. -/
def demoCell : TriggerCell :=
  { ID := "G1", UniqueID := "U1", ThresholdType := "*min_balance", ThresholdValue := 2,
    Recurrent := false, MinSleep := 0, ExpirationDate := ⟨0⟩, ActivationDate := ⟨0⟩,
    Balance := some 0, Weight := 10, ActionsID := "ACT_TOPUP", MinQueuedItems := 0,
    Executed := false, LastExecutionTime := ⟨0⟩ }

/-- A heap with one trigger and its balance predicate. -/
def demoHeap : Heap := { triggers := [demoCell], filters := [typedFilter "*monetary"] }

/-- The field names as package `utils` spells them, with a predicate accessor
that knows no sub-path. -/
def demoFieldEnv : FieldEnv :=
  { ID := "ID", UniqueID := "UniqueID", ThresholdType := "ThresholdType",
    ThresholdValue := "ThresholdValue", Recurrent := "Recurrent", MinSleep := "MinSleep",
    ExpirationDate := "ExpirationDate", ActivationDate := "ActivationDate",
    BalanceField := "Balance", Weight := "Weight", ActionsID := "ActionsID",
    MinQueuedItems := "MinQueuedItems", Executed := "Executed",
    LastExecutionTime := "LastExecutionTime", ErrNotFound := "NOT_FOUND",
    BalanceFieldAsInterface := fun _ _ => .error "NOT_FOUND",
    IfaceAsString := fun v =>
      match v with
      | .string x => x
      | _ => "" }

/-- A non-recurrent trigger that has fired already. -/
def latchedTrigger : ActionTrigger := { demoTrigger "U1" with Executed := true }

/-- A heap with two trigger structs, the first with a predicate, and the set
that holds a pointer to each and a nil pointer between them. -/
def setHeap : Heap :=
  { triggers := [demoCell, { demoCell with UniqueID := "U2", Balance := none }],
    filters := [typedFilter "*monetary"] }

/-! ## Matching: theorems -/

/-- C1 as stated fails: the action's `ExtraParameters` decode to the non-empty
`GroupID` `G1`, which is the trigger's `ID`, yet `Match` is false because the
action asks for voice balances and the trigger watches monetary ones. -/
theorem Match_groupID_type_mismatch :
    (groupAction "*voice").ExtraParameters ≠ "" ∧
    (demoEnv.Unmarshal (groupAction "*voice").ExtraParameters).GroupID ≠ "" ∧
    (demoEnv.Unmarshal (groupAction "*voice").ExtraParameters).GroupID = (demoTrigger "U1").ID ∧
    (demoTrigger "U1").Match demoEnv (some (groupAction "*voice")) = false := by
  decide

/-- C1 amended: when the action's `ExtraParameters` decode to a non-empty
`GroupID` equal to the trigger's `ID`, `Match` returns true exactly when the
type rule does not reject the action, that is unless the action's balance
predicate names a type different from the trigger's balance type. -/
theorem Match_groupID (env : Env) (trg : ActionTrigger) (a : Action)
    (hx : a.ExtraParameters ≠ "")
    (hne : (env.Unmarshal a.ExtraParameters).GroupID ≠ "")
    (hid : (env.Unmarshal a.ExtraParameters).GroupID = trg.ID) :
    trg.Match env (some a) = true ↔
      ∀ ab, a.Balance = some ab → ∀ ty, ab.Type_ = some ty →
        ty = BalanceFilter.GetType trg.Balance := by
  have hne2 : trg.ID ≠ "" := hid ▸ hne
  cases hb : a.Balance with
  | none => simp [ActionTrigger.Match, hb]
  | some ab =>
    cases hty : ab.Type_ with
    | none => simp [ActionTrigger.Match, hb, hty, hx, hid, hne2]
    | some ty => simp [ActionTrigger.Match, hb, hty, hx, hid, hne2, BalanceFilter.GetType]

/-- Scenario 2 on the deployment: the action addressed to `G1` asks for the
balance type the triggers watch, and two triggers of group `G1` with different
`UniqueID`s both match it. -/
theorem Match_groupID_witness :
    (groupAction "*monetary").ExtraParameters ≠ "" ∧
    (demoEnv.Unmarshal (groupAction "*monetary").ExtraParameters).GroupID ≠ "" ∧
    (demoEnv.Unmarshal (groupAction "*monetary").ExtraParameters).GroupID = (demoTrigger "U1").ID ∧
    ((demoTrigger "U1").Match demoEnv (some (groupAction "*monetary")) = true ↔
      ∀ ab, (groupAction "*monetary").Balance = some ab → ∀ ty, ab.Type_ = some ty →
        ty = BalanceFilter.GetType (demoTrigger "U1").Balance) ∧
    (demoTrigger "U1").Match demoEnv (some (groupAction "*monetary")) = true ∧
    (demoTrigger "U2").Match demoEnv (some (groupAction "*monetary")) = true :=
  ⟨by decide, by decide, by decide,
    Match_groupID demoEnv (demoTrigger "U1") (groupAction "*monetary")
      (by decide) (by decide) (by decide), by decide, by decide⟩

/-! ## Execution: the steps before the loop -/

/-- C2: a recurrent trigger whose `LastExecutionTime` is non-zero and for which
less than `MinSleep` has elapsed is left alone by `Execute`: no error, the
trigger and the account exactly as they came in, and an empty trace, so no
collaborator was called. -/
theorem Execute_throttled (env : Env) (sinceNow now : Time) (trg : ActionTrigger)
    (ub : Option Account) (fltrS : FilterS)
    (hrec : trg.Recurrent = true)
    (hnz : trg.LastExecutionTime.IsZero = false)
    (hsl : Since sinceNow trg.LastExecutionTime < trg.MinSleep) :
    trg.Execute env sinceNow now ub fltrS =
      { err := none, trigger := trg, ub := ub, trace := [] } := by
  have hth : trg.throttled sinceNow = true := by
    simp [ActionTrigger.throttled, hrec, hnz, hsl]
  simp [ActionTrigger.Execute, hth]

/-- The throttle on the deployment: a second call one second after the first
changes nothing. -/
theorem Execute_throttled_witness :
    sleepyTrigger.Recurrent = true ∧
    sleepyTrigger.LastExecutionTime.IsZero = false ∧
    Since ⟨6000000000⟩ sleepyTrigger.LastExecutionTime < sleepyTrigger.MinSleep ∧
    sleepyTrigger.Execute demoEnv ⟨6000000000⟩ ⟨6000000001⟩ (some demoAccount) demoFilterS =
      { err := none, trigger := sleepyTrigger, ub := some demoAccount, trace := [] } :=
  ⟨by decide, by decide, by decide,
    Execute_throttled demoEnv ⟨6000000000⟩ ⟨6000000001⟩ sleepyTrigger (some demoAccount)
      demoFilterS (by decide) (by decide) (by decide)⟩

/-- C3: when the trigger is not throttled and the account is non-nil and
disabled, `Execute` returns the disabled-account error and does nothing else:
the trace is empty (no action list loaded, no handler run, no account
persisted), the account is untouched and `Executed` keeps its incoming value. -/
theorem Execute_disabled (env : Env) (sinceNow now : Time) (trg : ActionTrigger)
    (acc : Account) (fltrS : FilterS)
    (hth : trg.throttled sinceNow = false)
    (hdis : acc.Disabled = true) :
    (trg.Execute env sinceNow now (some acc) fltrS).err =
        some ("User " ++ acc.ID ++ " is disabled and there are triggers in action!") ∧
    (trg.Execute env sinceNow now (some acc) fltrS).trace = [] ∧
    (trg.Execute env sinceNow now (some acc) fltrS).ub = some acc ∧
    (trg.Execute env sinceNow now (some acc) fltrS).trigger.Executed = trg.Executed := by
  simp [ActionTrigger.Execute, hth, disabledAccount, hdis]

/-- Scenario 1 on the deployment: a disabled account yields the error and no
call at all. -/
theorem Execute_disabled_witness :
    (demoTrigger "U1").throttled ⟨7⟩ = false ∧
    disabledDemoAccount.Disabled = true ∧
    ((demoTrigger "U1").Execute demoEnv ⟨7⟩ ⟨8⟩ (some disabledDemoAccount) demoFilterS).err =
        some ("User " ++ disabledDemoAccount.ID ++
          " is disabled and there are triggers in action!") ∧
    ((demoTrigger "U1").Execute demoEnv ⟨7⟩ ⟨8⟩ (some disabledDemoAccount) demoFilterS).trace = [] ∧
    ((demoTrigger "U1").Execute demoEnv ⟨7⟩ ⟨8⟩ (some disabledDemoAccount) demoFilterS).ub =
        some disabledDemoAccount ∧
    ((demoTrigger "U1").Execute demoEnv ⟨7⟩ ⟨8⟩ (some disabledDemoAccount)
        demoFilterS).trigger.Executed = (demoTrigger "U1").Executed :=
  ⟨by decide, by decide,
    Execute_disabled demoEnv ⟨7⟩ ⟨8⟩ (demoTrigger "U1") disabledDemoAccount demoFilterS
      (by decide) (by decide)⟩

/-- C4: when the trigger is not throttled, the account is nil or enabled, and
loading the action list fails with `e`, `Execute` returns `e`; the only calls
are the failed load and the log line, so no handler ran and nothing was
persisted, the account is untouched and `Executed` keeps its incoming value. -/
theorem Execute_load_failure (env : Env) (sinceNow now : Time) (trg : ActionTrigger)
    (ub : Option Account) (fltrS : FilterS) (e : Error)
    (hth : trg.throttled sinceNow = false)
    (hen : ∀ acc, ub = some acc → acc.Disabled = false)
    (hload : env.GetActions trg.ActionsID false env.NonTransactional = .error e) :
    (trg.Execute env sinceNow now ub fltrS).err = some e ∧
    (trg.Execute env sinceNow now ub fltrS).trace =
        [.GetActions trg.ActionsID false env.NonTransactional,
         .LogErr ("Failed to get actions: " ++ e)] ∧
    (trg.Execute env sinceNow now ub fltrS).ub = ub ∧
    (trg.Execute env sinceNow now ub fltrS).trigger.Executed = trg.Executed := by
  have hd : disabledAccount ub = none := by
    cases ub with
    | none => rfl
    | some acc => simp [disabledAccount, hen acc rfl]
  simp [ActionTrigger.Execute, hth, hd, hload]

/-- A load failure on the deployment. -/
theorem Execute_load_failure_witness :
    danglingTrigger.throttled ⟨7⟩ = false ∧
    (∀ acc, some demoAccount = some acc → acc.Disabled = false) ∧
    demoEnv.GetActions danglingTrigger.ActionsID false demoEnv.NonTransactional =
        .error "NOT_FOUND" ∧
    (danglingTrigger.Execute demoEnv ⟨7⟩ ⟨8⟩ (some demoAccount) demoFilterS).err =
        some "NOT_FOUND" ∧
    (danglingTrigger.Execute demoEnv ⟨7⟩ ⟨8⟩ (some demoAccount) demoFilterS).trace =
        [.GetActions danglingTrigger.ActionsID false demoEnv.NonTransactional,
         .LogErr ("Failed to get actions: " ++ "NOT_FOUND")] ∧
    (danglingTrigger.Execute demoEnv ⟨7⟩ ⟨8⟩ (some demoAccount) demoFilterS).ub =
        some demoAccount ∧
    (danglingTrigger.Execute demoEnv ⟨7⟩ ⟨8⟩ (some demoAccount) demoFilterS).trigger.Executed =
        danglingTrigger.Executed :=
  ⟨by decide, by intro acc h; cases h; rfl, rfl,
    Execute_load_failure demoEnv ⟨7⟩ ⟨8⟩ danglingTrigger (some demoAccount) demoFilterS
      "NOT_FOUND" (by decide) (by intro acc h; cases h; rfl) rfl⟩

/-! ## Execution: the loop -/

/-- What one iteration does to the loop state, with `evs` the calls it makes. -/
theorem loopBody_spec (env : Env) (fltrS : FilterS) (before : List Action) (a : Action)
    (after : List Action) (st : LoopState) :
    ∃ evs : List Event, (∀ ev ∈ evs, ev.isSetAccount = false) ∧
      match loopBody env fltrS before a after st with
      | .next _ st1 =>
        st1.trace = st.trace ++ evs ∧ (∀ ev ∈ evs, ev.passOk fltrS = true) ∧
        st1.ub.isSome = st.ub.isSome ∧
        st1.transactionFailed = st.transactionFailed ∧
        st1.removeAccountActionFound =
          (st.removeAccountActionFound || evs.any (Event.isRemoval env))
      | .brk st1 =>
        st1.trace = st.trace ++ evs ∧ (∀ ev ∈ evs, ev.passOk fltrS = true) ∧
        st1.ub.isSome = st.ub.isSome ∧
        st1.transactionFailed = false
      | .ret e st1 =>
        ∃ tenant filters ub, evs = [.Pass tenant filters ub] ∧
          st1.trace = st.trace ++ evs ∧ fltrS.Pass tenant filters ub = .error e ∧
          st1.ub = st.ub ∧ st1.transactionFailed = st.transactionFailed := by
  have hrun : ∀ (st0 : LoopState) (evs0 : List Event),
      (∀ ev ∈ evs0, ev.isSetAccount = false) → (∀ ev ∈ evs0, ev.passOk fltrS = true) →
      evs0.any (Event.isRemoval env) = false →
      st0.trace = st.trace ++ evs0 → st0.ub = st.ub →
      st0.transactionFailed = st.transactionFailed →
      st0.removeAccountActionFound = st.removeAccountActionFound →
      ∃ evs : List Event, (∀ ev ∈ evs, ev.isSetAccount = false) ∧
        match runAction env fltrS before (patchBalance env a) after st0 with
        | .next _ st1 =>
          st1.trace = st.trace ++ evs ∧ (∀ ev ∈ evs, ev.passOk fltrS = true) ∧
          st1.ub.isSome = st.ub.isSome ∧
          st1.transactionFailed = st.transactionFailed ∧
          st1.removeAccountActionFound =
            (st.removeAccountActionFound || evs.any (Event.isRemoval env))
        | .brk st1 =>
          st1.trace = st.trace ++ evs ∧ (∀ ev ∈ evs, ev.passOk fltrS = true) ∧
          st1.ub.isSome = st.ub.isSome ∧
          st1.transactionFailed = false
        | .ret e st1 =>
          ∃ tenant filters ub, evs = [.Pass tenant filters ub] ∧
            st1.trace = st.trace ++ evs ∧ fltrS.Pass tenant filters ub = .error e ∧
            st1.ub = st.ub ∧ st1.transactionFailed = st.transactionFailed := by
    intro st0 evs0 hset hpass hrem htr hub htf hfound
    cases hf : env.getActionFunc (patchBalance env a).ActionType with
    | none =>
      refine ⟨evs0 ++ [.LogErr ("Function type " ++ (patchBalance env a).ActionType ++
        " not available, aborting execution!")], ?_, ?_⟩
      · intro ev hev
        rcases List.mem_append.1 hev with h | h
        · exact hset ev h
        · simp at h; subst h; rfl
      · simp only [runAction, hf]
        refine ⟨by simp [htr], ?_, by simp [hub], trivial⟩
        intro ev hev
        rcases List.mem_append.1 hev with h | h
        · exact hpass ev h
        · simp at h; subst h; trivial
    | some f =>
      cases herr : (f st0.ub (patchBalance env a)
          (before ++ patchBalance env a :: after) fltrS).err with
      | some err =>
        refine ⟨evs0 ++ [.ActionFunc st0.ub (patchBalance env a)
            (before ++ patchBalance env a :: after),
          .LogErr ("Error executing action " ++ (patchBalance env a).ActionType ++ ": " ++
            err ++ "!")], ?_, ?_⟩
        · intro ev hev
          rcases List.mem_append.1 hev with h | h
          · exact hset ev h
          · simp at h; rcases h with h | h <;> subst h <;> rfl
        · simp only [runAction, hf, herr]
          refine ⟨by simp [htr], ?_, by simp [hub], trivial⟩
          intro ev hev
          rcases List.mem_append.1 hev with h | h
          · exact hpass ev h
          · simp at h; rcases h with h | h <;> subst h <;> trivial
      | none =>
        refine ⟨evs0 ++ [.ActionFunc st0.ub (patchBalance env a)
            (before ++ patchBalance env a :: after)], ?_, ?_⟩
        · intro ev hev
          rcases List.mem_append.1 hev with h | h
          · exact hset ev h
          · simp at h; subst h; rfl
        · have hp : ∀ ev ∈ evs0 ++ [Event.ActionFunc st0.ub (patchBalance env a)
              (before ++ patchBalance env a :: after)], ev.passOk fltrS = true := by
            intro ev hev
            rcases List.mem_append.1 hev with h | h
            · exact hpass ev h
            · simp at h; subst h; trivial
          by_cases hty : (patchBalance env a).ActionType == env.MetaRemoveAccount
          · simp only [runAction, hf, herr, hty, if_true]
            refine ⟨by simp [htr], hp, by simp [hub], htf, ?_⟩
            simp [Event.isRemoval, hty]
          · simp only [runAction, hf, herr, hty]
            refine ⟨by simp [htr], hp, by simp [hub], htf, ?_⟩
            simp [Event.isRemoval, hty, hrem, hfound]
  unfold loopBody
  by_cases hlen : 0 < a.Filters.length
  · rw [if_pos hlen]
    cases hp : fltrS.Pass (env.Tenant a.Id) a.Filters st.ub with
    | error e =>
      exact ⟨[.Pass (env.Tenant a.Id) a.Filters st.ub], by simp [Event.isSetAccount],
        _, _, _, rfl, rfl, hp, rfl, rfl⟩
    | ok pass =>
      cases pass with
      | false =>
        refine ⟨[.Pass (env.Tenant a.Id) a.Filters st.ub], by simp [Event.isSetAccount], ?_⟩
        simp [Event.passOk, Event.isRemoval, hp]
      | true =>
        exact hrun _ [.Pass (env.Tenant a.Id) a.Filters st.ub] (by simp [Event.isSetAccount])
          (by simp [Event.passOk, hp]) (by simp [Event.isRemoval]) rfl rfl rfl rfl
  · rw [if_neg hlen]
    exact hrun st [] (by simp) (by simp) (by simp) (by simp) rfl rfl rfl

/-- What the whole loop does to the loop state, with `evs` the calls it makes:
it never calls `SetAccount`, keeps the account pointer nil or non-nil, never
raises `transactionFailed`, and a filter evaluation that answers with an error
is the last call of a loop left by `return`. -/
theorem executeLoop_spec (env : Env) (fltrS : FilterS) :
    ∀ (todo before : List Action) (st : LoopState),
    ∃ evs : List Event, (∀ ev ∈ evs, ev.isSetAccount = false) ∧
      (executeLoop env fltrS before todo st).2.trace = st.trace ++ evs ∧
      (executeLoop env fltrS before todo st).2.ub.isSome = st.ub.isSome ∧
      (st.transactionFailed = false →
        (executeLoop env fltrS before todo st).2.transactionFailed = false) ∧
      match (executeLoop env fltrS before todo st).1 with
      | .returned e =>
        ∃ pre tenant filters ub, evs = pre ++ [.Pass tenant filters ub] ∧
          fltrS.Pass tenant filters ub = .error e ∧ ∀ ev ∈ pre, ev.passOk fltrS = true
      | .completed =>
        (∀ ev ∈ evs, ev.passOk fltrS = true) ∧
        (executeLoop env fltrS before todo st).2.removeAccountActionFound =
          (st.removeAccountActionFound || evs.any (Event.isRemoval env))
      | .abandoned => ∀ ev ∈ evs, ev.passOk fltrS = true := by
  intro todo
  induction todo with
  | nil =>
    intro before st
    exact ⟨[], by simp, by simp [executeLoop], by simp [executeLoop],
      by simp [executeLoop], by simp [executeLoop]⟩
  | cons a after ih =>
    intro before st
    obtain ⟨evs1, hset1, hbody⟩ := loopBody_spec env fltrS before a after st
    cases hb : loopBody env fltrS before a after st with
    | next a1 st1 =>
      rw [hb] at hbody
      obtain ⟨htr1, hpass1, hub1, htf1, hfound1⟩ := hbody
      obtain ⟨evs2, hset2, htr2, hub2, htf2, hexit2⟩ := ih (before ++ [a1]) st1
      have hloop : executeLoop env fltrS before (a :: after) st =
          executeLoop env fltrS (before ++ [a1]) after st1 := by
        simp [executeLoop, hb]
      rw [hloop]
      refine ⟨evs1 ++ evs2, ?_, ?_, ?_, ?_, ?_⟩
      · intro ev hev
        rcases List.mem_append.1 hev with h | h
        · exact hset1 ev h
        · exact hset2 ev h
      · rw [htr2, htr1, List.append_assoc]
      · rw [hub2, hub1]
      · intro h
        exact htf2 (by rw [htf1]; exact h)
      · cases hexit : (executeLoop env fltrS (before ++ [a1]) after st1).1 with
        | returned e =>
          rw [hexit] at hexit2
          obtain ⟨pre, tenant, filters, ub, hevs, herr, hpre⟩ := hexit2
          refine ⟨evs1 ++ pre, tenant, filters, ub, ?_, herr, ?_⟩
          · rw [hevs, List.append_assoc]
          · intro ev hev
            rcases List.mem_append.1 hev with h | h
            · exact hpass1 ev h
            · exact hpre ev h
        | completed =>
          rw [hexit] at hexit2
          obtain ⟨hpass2, hfound2⟩ := hexit2
          refine ⟨?_, ?_⟩
          · intro ev hev
            rcases List.mem_append.1 hev with h | h
            · exact hpass1 ev h
            · exact hpass2 ev h
          · rw [hfound2, hfound1, List.any_append, Bool.or_assoc]
        | abandoned =>
          rw [hexit] at hexit2
          intro ev hev
          rcases List.mem_append.1 hev with h | h
          · exact hpass1 ev h
          · exact hexit2 ev h
    | brk st1 =>
      rw [hb] at hbody
      obtain ⟨htr1, hpass1, hub1, htf1⟩ := hbody
      have hloop : executeLoop env fltrS before (a :: after) st = (.abandoned, st1) := by
        simp [executeLoop, hb]
      rw [hloop]
      exact ⟨evs1, hset1, htr1, hub1, fun _ => htf1, hpass1⟩
    | ret e st1 =>
      rw [hb] at hbody
      obtain ⟨tenant, filters, ub, hevs, htr1, herr, hub1, htf1⟩ := hbody
      have hloop : executeLoop env fltrS before (a :: after) st = (.returned e, st1) := by
        simp [executeLoop, hb]
      rw [hloop]
      exact ⟨evs1, hset1, htr1, by rw [hub1], fun h => by rw [htf1]; exact h,
        [], tenant, filters, ub, by simpa using hevs, herr, by simp⟩

/-! ## Execution: from the loop to the return -/

/-- An account that is nil or enabled passes the guard of line 55. -/
theorem disabledAccount_eq_none (ub : Option Account)
    (hen : ∀ acc, ub = some acc → acc.Disabled = false) : disabledAccount ub = none := by
  cases ub with
  | none => rfl
  | some acc => simp [disabledAccount, hen acc rfl]

/-- Once the action list is loaded, `Execute` is the loop followed by the lines
after it. -/
theorem Execute_loaded (env : Env) (sinceNow now : Time) (trg : ActionTrigger)
    (ub : Option Account) (fltrS : FilterS) (aac : List Action)
    (hth : trg.throttled sinceNow = false)
    (hen : ∀ acc, ub = some acc → acc.Disabled = false)
    (hload : env.GetActions trg.ActionsID false env.NonTransactional = .ok aac) :
    trg.Execute env sinceNow now ub fltrS =
      match trg.runLoop env ub fltrS aac with
      | (.returned err, st) =>
        { err := some err, trigger := { trg with LastExecutionTime := now, Executed := true },
          ub := st.ub, trace := st.trace }
      | (_, st) => finishExecute { trg with LastExecutionTime := now, Executed := true } st := by
  simp only [ActionTrigger.Execute, hth, disabledAccount_eq_none ub hen, hload]
  rfl

/-- The loop of `Execute`, seen from its start state. -/
theorem runLoop_spec (env : Env) (trg : ActionTrigger) (ub : Option Account)
    (fltrS : FilterS) (aac : List Action) :
    ∃ evs : List Event, (∀ ev ∈ evs, ev.isSetAccount = false) ∧
      (trg.runLoop env ub fltrS aac).2.trace =
        [.GetActions trg.ActionsID false env.NonTransactional] ++ evs ∧
      (trg.runLoop env ub fltrS aac).2.ub.isSome = ub.isSome ∧
      (trg.runLoop env ub fltrS aac).2.transactionFailed = false ∧
      match (trg.runLoop env ub fltrS aac).1 with
      | .returned e =>
        ∃ pre tenant filters acc, evs = pre ++ [.Pass tenant filters acc] ∧
          fltrS.Pass tenant filters acc = .error e ∧ ∀ ev ∈ pre, ev.passOk fltrS = true
      | .completed =>
        (∀ ev ∈ evs, ev.passOk fltrS = true) ∧
        (trg.runLoop env ub fltrS aac).2.removeAccountActionFound =
          evs.any (Event.isRemoval env)
      | .abandoned => ∀ ev ∈ evs, ev.passOk fltrS = true := by
  obtain ⟨evs, hset, htr, hub, htf, hexit⟩ :=
    executeLoop_spec env fltrS (env.SortActions aac) []
      { ub := ub, transactionFailed := false, removeAccountActionFound := false,
        trace := [.GetActions trg.ActionsID false env.NonTransactional] }
  refine ⟨evs, hset, htr, hub, htf rfl, ?_⟩
  simpa [ActionTrigger.runLoop] using hexit

/-- The lines after the loop add at most the `SetAccount` call to the trace. -/
theorem finishExecute_trace (trg : ActionTrigger) (st : LoopState) :
    (finishExecute trg st).trace = st.trace ∨
    ∃ acc, st.ub = some acc ∧ (finishExecute trg st).trace = st.trace ++ [.SetAccount acc] := by
  unfold finishExecute
  cases hub : st.ub with
  | none => exact Or.inl rfl
  | some acc =>
    by_cases h : (!st.transactionFailed && !st.removeAccountActionFound) = true
    · exact Or.inr ⟨acc, rfl, by simp only [h, if_true]⟩
    · exact Or.inl (by simp only [h]; rfl)

/-- C5: in an `Execute` that reaches the loop, if a filter evaluation that was
made (it is in the trace) answered with the error `e`, then `Execute` returns
exactly `e`, that evaluation is the last call `Execute` made and it was made
only once, so neither the handler of that action nor anything for a later
action ran, and `SetAccount` was never called. -/
theorem Execute_filter_error (env : Env) (sinceNow now : Time) (trg : ActionTrigger)
    (ub : Option Account) (fltrS : FilterS) (aac : List Action)
    (tenant : String) (filters : List String) (acc : Option Account) (e : Error)
    (hth : trg.throttled sinceNow = false)
    (hen : ∀ a, ub = some a → a.Disabled = false)
    (hload : env.GetActions trg.ActionsID false env.NonTransactional = .ok aac)
    (hev : Event.Pass tenant filters acc ∈ (trg.Execute env sinceNow now ub fltrS).trace)
    (herr : fltrS.Pass tenant filters acc = .error e) :
    (trg.Execute env sinceNow now ub fltrS).err = some e ∧
    (∃ pre, (trg.Execute env sinceNow now ub fltrS).trace = pre ++ [.Pass tenant filters acc] ∧
      ∀ ev ∈ pre, ev ≠ .Pass tenant filters acc) ∧
    ∀ ev ∈ (trg.Execute env sinceNow now ub fltrS).trace, ev.isSetAccount = false := by
  have bad : ∀ ev : Event, ev.passOk fltrS = true → ev ≠ .Pass tenant filters acc := by
    intro ev hok h
    subst h
    simp [Event.passOk, herr] at hok
  rw [Execute_loaded env sinceNow now trg ub fltrS aac hth hen hload] at hev ⊢
  obtain ⟨evs, hset, htr, -, -, hexit⟩ := runLoop_spec env trg ub fltrS aac
  rcases hrl : trg.runLoop env ub fltrS aac with ⟨exit, st⟩
  rw [hrl] at hev htr hexit
  dsimp only at htr hexit
  have inEvs : Event.Pass tenant filters acc ∈ (finishExecute
      { trg with LastExecutionTime := now, Executed := true } st).trace →
      Event.Pass tenant filters acc ∈ evs := by
    intro h
    rcases finishExecute_trace { trg with LastExecutionTime := now, Executed := true } st with
      h1 | ⟨a, -, h1⟩
    · rw [h1, htr] at h
      simpa using h
    · rw [h1, htr] at h
      simpa using h
  cases exit with
  | returned e1 =>
    simp only at hev hexit htr ⊢
    obtain ⟨pre, t1, f1, u1, hevs, herr1, hpre⟩ := hexit
    rw [htr, hevs] at hev ⊢
    have hlast : Event.Pass tenant filters acc = Event.Pass t1 f1 u1 := by
      simp only [List.mem_append, List.mem_singleton] at hev
      rcases hev with h | h | h
      · cases h
      · exact absurd rfl (bad _ (hpre _ h))
      · exact h
    cases hlast
    have he : e1 = e := by
      rw [herr] at herr1
      cases herr1
      rfl
    subst he
    refine ⟨rfl, ⟨[.GetActions trg.ActionsID false env.NonTransactional] ++ pre, ?_, ?_⟩, ?_⟩
    · simp
    · intro ev h
      rcases List.mem_append.1 h with h | h
      · simp at h; subst h; simp
      · exact bad ev (hpre ev h)
    · intro ev h
      simp only [List.mem_append, List.mem_singleton] at h
      rcases h with h | h | h
      · subst h; rfl
      · exact hset ev (by rw [hevs]; exact List.mem_append_left _ h)
      · subst h; rfl
  | completed =>
    simp only at hev hexit
    exact absurd rfl (bad _ (hexit.1 _ (inEvs hev)))
  | abandoned =>
    simp only at hev hexit
    exact absurd rfl (bad _ (hexit _ (inEvs hev)))

/-- The filter error on the deployment: the only action of the list is guarded
by a filter that cannot be evaluated. -/
theorem Execute_filter_error_witness :
    filteredTrigger.throttled ⟨7⟩ = false ∧
    (∀ a, some demoAccount = some a → a.Disabled = false) ∧
    demoEnv.GetActions filteredTrigger.ActionsID false demoEnv.NonTransactional =
      .ok filteredActions ∧
    Event.Pass "cgrates.org" ["*broken"] (some demoAccount) ∈
      (filteredTrigger.Execute demoEnv ⟨7⟩ ⟨8⟩ (some demoAccount) demoFilterS).trace ∧
    demoFilterS.Pass "cgrates.org" ["*broken"] (some demoAccount) = .error "broken filter" ∧
    ((filteredTrigger.Execute demoEnv ⟨7⟩ ⟨8⟩ (some demoAccount) demoFilterS).err =
        some "broken filter" ∧
      (∃ pre, (filteredTrigger.Execute demoEnv ⟨7⟩ ⟨8⟩ (some demoAccount) demoFilterS).trace =
          pre ++ [.Pass "cgrates.org" ["*broken"] (some demoAccount)] ∧
        ∀ ev ∈ pre, ev ≠ .Pass "cgrates.org" ["*broken"] (some demoAccount)) ∧
      ∀ ev ∈ (filteredTrigger.Execute demoEnv ⟨7⟩ ⟨8⟩ (some demoAccount) demoFilterS).trace,
        ev.isSetAccount = false) :=
  ⟨by decide, by intro a h; cases h; rfl, rfl, by decide, rfl,
    Execute_filter_error demoEnv ⟨7⟩ ⟨8⟩ filteredTrigger (some demoAccount) demoFilterS
      filteredActions "cgrates.org" ["*broken"] (some demoAccount) "broken filter"
      (by decide) (by intro a h; cases h; rfl) rfl (by decide) rfl⟩

/-- C6: an `Execute` that loads its action list and in which no filter
evaluation answers with an error returns the nil error, whatever the registry
resolves and whatever the handlers return. -/
theorem Execute_no_error_surfaced (env : Env) (sinceNow now : Time) (trg : ActionTrigger)
    (ub : Option Account) (fltrS : FilterS) (aac : List Action)
    (hth : trg.throttled sinceNow = false)
    (hen : ∀ a, ub = some a → a.Disabled = false)
    (hload : env.GetActions trg.ActionsID false env.NonTransactional = .ok aac)
    (hok : ∀ ev ∈ (trg.Execute env sinceNow now ub fltrS).trace, ev.passOk fltrS = true) :
    (trg.Execute env sinceNow now ub fltrS).err = none := by
  rw [Execute_loaded env sinceNow now trg ub fltrS aac hth hen hload] at hok ⊢
  obtain ⟨evs, -, htr, -, -, hexit⟩ := runLoop_spec env trg ub fltrS aac
  rcases hrl : trg.runLoop env ub fltrS aac with ⟨exit, st⟩
  rw [hrl] at hok htr hexit
  dsimp only at htr hexit
  cases exit with
  | returned e1 =>
    simp only at hok hexit
    obtain ⟨pre, t1, f1, u1, hevs, herr1, -⟩ := hexit
    have h := hok (.Pass t1 f1 u1) (by rw [htr, hevs]; simp)
    simp [Event.passOk, herr1] at h
  | completed => simp [finishExecute]; split <;> (try split) <;> rfl
  | abandoned => simp [finishExecute]; split <;> (try split) <;> rfl

/-- Scenario 3 on the deployment: the action of weight 20 has a type the
registry does not know, the failure is logged and `Execute` returns nil. -/
theorem Execute_no_error_surfaced_witness :
    mixedTrigger.throttled ⟨7⟩ = false ∧
    (∀ a, some demoAccount = some a → a.Disabled = false) ∧
    demoEnv.GetActions mixedTrigger.ActionsID false demoEnv.NonTransactional = .ok mixedActions ∧
    (∀ ev ∈ (mixedTrigger.Execute demoEnv ⟨7⟩ ⟨8⟩ (some demoAccount) demoFilterS).trace,
      ev.passOk demoFilterS = true) ∧
    Event.LogErr "Function type *unknown not available, aborting execution!" ∈
      (mixedTrigger.Execute demoEnv ⟨7⟩ ⟨8⟩ (some demoAccount) demoFilterS).trace ∧
    (mixedTrigger.Execute demoEnv ⟨7⟩ ⟨8⟩ (some demoAccount) demoFilterS).err = none :=
  ⟨by decide, by intro a h; cases h; rfl, rfl, by decide, by decide,
    Execute_no_error_surfaced demoEnv ⟨7⟩ ⟨8⟩ mixedTrigger (some demoAccount) demoFilterS
      mixedActions (by decide) (by intro a h; cases h; rfl) rfl (by decide)⟩

/-- C9: when the loop of `Execute` runs to the end of the list (no `break`, no
filter error), then (1) if the account is non-nil and no handler of an
account-removal action ran, the trace ends with the one `SetAccount` call of
the run, made on the account as the handlers left it; (2) if the account is
nil, or the handler of an account-removal action ran, `SetAccount` is not
called at all. -/
theorem Execute_persists_once (env : Env) (sinceNow now : Time) (trg : ActionTrigger)
    (ub : Option Account) (fltrS : FilterS) (aac : List Action)
    (hth : trg.throttled sinceNow = false)
    (hen : ∀ a, ub = some a → a.Disabled = false)
    (hload : env.GetActions trg.ActionsID false env.NonTransactional = .ok aac)
    (hdone : (trg.runLoop env ub fltrS aac).1 = .completed) :
    (ub.isSome = true →
      (trg.Execute env sinceNow now ub fltrS).trace.any (Event.isRemoval env) = false →
      ∃ acc pre, (trg.Execute env sinceNow now ub fltrS).ub = some acc ∧
        (trg.Execute env sinceNow now ub fltrS).trace = pre ++ [.SetAccount acc] ∧
        ∀ ev ∈ pre, ev.isSetAccount = false) ∧
    (ub = none ∨
        (trg.Execute env sinceNow now ub fltrS).trace.any (Event.isRemoval env) = true →
      ∀ ev ∈ (trg.Execute env sinceNow now ub fltrS).trace, ev.isSetAccount = false) := by
  rw [Execute_loaded env sinceNow now trg ub fltrS aac hth hen hload]
  obtain ⟨evs, hset, htr, hub, htf, hexit⟩ := runLoop_spec env trg ub fltrS aac
  rcases hrl : trg.runLoop env ub fltrS aac with ⟨exit, st⟩
  rw [hrl] at hdone htr hub htf hexit
  dsimp only at hdone htr hub htf hexit
  subst hdone
  obtain ⟨-, hfound⟩ := hexit
  have hsetTr : ∀ ev ∈ st.trace, ev.isSetAccount = false := by
    intro ev h
    rw [htr] at h
    rcases List.mem_append.1 h with h | h
    · simp at h; subst h; rfl
    · exact hset ev h
  have hremTr : st.trace.any (Event.isRemoval env) = st.removeAccountActionFound := by
    rw [htr, hfound, List.any_append]
    simp [Event.isRemoval]
  dsimp only
  constructor
  · intro hsome hnorem
    cases hst : st.ub with
    | none => rw [hst] at hub; rw [← hub] at hsome; cases hsome
    | some acc =>
      cases hf : st.removeAccountActionFound with
      | true =>
        have : (finishExecute { trg with LastExecutionTime := now, Executed := true } st).trace =
            st.trace := by
          simp [finishExecute, hst, hf]
        rw [this, hremTr, hf] at hnorem
        cases hnorem
      | false =>
        refine ⟨acc, st.trace, ?_, ?_, hsetTr⟩
        · simp [finishExecute, hst, hf, htf]
        · simp [finishExecute, hst, hf, htf]
  · intro h
    have htrace : (finishExecute { trg with LastExecutionTime := now, Executed := true } st).trace =
        st.trace := by
      rcases h with h | h
      · subst h
        have hst : st.ub = none := by
          cases hst : st.ub with
          | none => rfl
          | some acc => rw [hst] at hub; cases hub
        simp [finishExecute, hst]
      · cases hf : st.removeAccountActionFound with
        | true =>
          cases hst : st.ub with
          | none => simp [finishExecute, hst]
          | some acc => simp [finishExecute, hst, hf]
        | false =>
          rcases finishExecute_trace { trg with LastExecutionTime := now, Executed := true } st
            with h1 | ⟨acc, -, h1⟩
          · exact h1
          · rw [h1, List.any_append, hremTr, hf] at h
            simp [Event.isRemoval] at h
    rw [htrace]
    exact hsetTr

/-- Clean completion on the deployment: one top-up on an enabled account is
followed by exactly one `SetAccount`, of the topped-up account; a removal
action on the same account is followed by none. -/
theorem Execute_persists_once_witness :
    (demoTrigger "U1").throttled ⟨7⟩ = false ∧
    (∀ a, some demoAccount = some a → a.Disabled = false) ∧
    demoEnv.GetActions (demoTrigger "U1").ActionsID false demoEnv.NonTransactional =
      .ok [mkAction "ACT_TOPUP" "*topup" 10] ∧
    ((demoTrigger "U1").runLoop demoEnv (some demoAccount) demoFilterS
      [mkAction "ACT_TOPUP" "*topup" 10]).1 = .completed ∧
    (((some demoAccount).isSome = true →
      ((demoTrigger "U1").Execute demoEnv ⟨7⟩ ⟨8⟩ (some demoAccount) demoFilterS).trace.any
        (Event.isRemoval demoEnv) = false →
      ∃ acc pre,
        ((demoTrigger "U1").Execute demoEnv ⟨7⟩ ⟨8⟩ (some demoAccount) demoFilterS).ub =
          some acc ∧
        ((demoTrigger "U1").Execute demoEnv ⟨7⟩ ⟨8⟩ (some demoAccount) demoFilterS).trace =
          pre ++ [.SetAccount acc] ∧
        ∀ ev ∈ pre, ev.isSetAccount = false) ∧
    (some demoAccount = none ∨
        ((demoTrigger "U1").Execute demoEnv ⟨7⟩ ⟨8⟩ (some demoAccount) demoFilterS).trace.any
          (Event.isRemoval demoEnv) = true →
      ∀ ev ∈ ((demoTrigger "U1").Execute demoEnv ⟨7⟩ ⟨8⟩ (some demoAccount) demoFilterS).trace,
        ev.isSetAccount = false)) ∧
    ((demoTrigger "U1").Execute demoEnv ⟨7⟩ ⟨8⟩ (some demoAccount) demoFilterS).trace.countP
      Event.isSetAccount = 1 ∧
    (removeTrigger.Execute demoEnv ⟨7⟩ ⟨8⟩ (some demoAccount) demoFilterS).trace.countP
      Event.isSetAccount = 0 :=
  ⟨by decide, by intro a h; cases h; rfl, rfl, by decide,
    Execute_persists_once demoEnv ⟨7⟩ ⟨8⟩ (demoTrigger "U1") (some demoAccount) demoFilterS
      [mkAction "ACT_TOPUP" "*topup" 10] (by decide) (by intro a h; cases h; rfl) rfl
      (by decide), by decide, by decide⟩

/-! ## Execution: where the code leaves the claimed behaviour -/

/-- C7, the code at the failing input: the trigger is not recurrent, the loop
is abandoned at the action whose type the registry does not know (the failure
is logged, the action of weight 10 is never run), and still `Executed` is true
at return, because both failure branches assign `false` to `transactionFailed`. -/
theorem Execute_abandoned_stays_latched :
    mixedTrigger.Recurrent = false ∧
    mixedTrigger.Executed = false ∧
    (mixedTrigger.runLoop demoEnv (some demoAccount) demoFilterS mixedActions).1 = .abandoned ∧
    (mixedTrigger.runLoop demoEnv (some demoAccount) demoFilterS
      mixedActions).2.transactionFailed = false ∧
    Event.LogErr "Function type *unknown not available, aborting execution!" ∈
      (mixedTrigger.Execute demoEnv ⟨7⟩ ⟨8⟩ (some demoAccount) demoFilterS).trace ∧
    (mixedTrigger.Execute demoEnv ⟨7⟩ ⟨8⟩ (some demoAccount) demoFilterS).trigger.Executed =
      true := by
  decide

/-- C8, the code at the failing input: the only handler of the list fails, the
loop is abandoned, and `SetAccount` is still called, once, as the last call. -/
theorem Execute_abandoned_still_persists :
    (debitTrigger.runLoop demoEnv (some demoAccount) demoFilterS
      [mkAction "ACT_DEBIT" "*debit" 10]).1 = .abandoned ∧
    Event.LogErr "Error executing action *debit: insufficient credit!" ∈
      (debitTrigger.Execute demoEnv ⟨7⟩ ⟨8⟩ (some demoAccount) demoFilterS).trace ∧
    (debitTrigger.Execute demoEnv ⟨7⟩ ⟨8⟩ (some demoAccount) demoFilterS).trace.getLast? =
      some (.SetAccount demoAccount) ∧
    (debitTrigger.Execute demoEnv ⟨7⟩ ⟨8⟩ (some demoAccount) demoFilterS).trace.countP
      Event.isSetAccount = 1 := by
  decide

/-- C10, the code at the failing input: the trigger is recurrent, its action
list loads, the filter of the first action fails, and `Execute` returns that
error through line 74 with `Executed` still true: the reset of line 106 is
skipped. -/
theorem Execute_recurrent_filter_error_stays_latched :
    filteredTrigger.Recurrent = true ∧
    filteredTrigger.Executed = false ∧
    filteredTrigger.throttled ⟨7⟩ = false ∧
    (filteredTrigger.Execute demoEnv ⟨7⟩ ⟨8⟩ (some demoAccount) demoFilterS).err =
      some "broken filter" ∧
    (filteredTrigger.Execute demoEnv ⟨7⟩ ⟨8⟩ (some demoAccount) demoFilterS).trace =
      [.GetActions "ACT_FILTERED" false "",
       .Pass "cgrates.org" ["*broken"] (some demoAccount)] ∧
    (filteredTrigger.Execute demoEnv ⟨7⟩ ⟨8⟩ (some demoAccount) demoFilterS).trigger.Executed =
      true := by
  decide

/-! ## Matching: the rules in order -/

/-- C11: whatever the trigger (its balance predicate may be nil), `Match`
returns true on a nil action and on an action whose balance predicate is nil,
whatever the other fields of the action, `ExtraParameters` included. -/
theorem Match_nil_rule (env : Env) (trg : ActionTrigger) (a : Action) :
    trg.Match env none = true ∧
    trg.Match env (some { a with Balance := none }) = true := by
  constructor <;> rfl

/-- C12: when the action's balance predicate is non-nil and names a type that
is not the trigger's balance type, `Match` returns false, whatever the
`ExtraParameters` and the other conditions of the predicate. -/
theorem Match_type_rule (env : Env) (trg : ActionTrigger) (a : Action)
    (ab : BalanceFilter) (ty : String)
    (hb : a.Balance = some ab)
    (hty : ab.Type_ = some ty)
    (hne : ty ≠ BalanceFilter.GetType trg.Balance) :
    trg.Match env (some a) = false := by
  have h : BalanceFilter.GetType (some ab) = ty := by simp [BalanceFilter.GetType, hty]
  simp [ActionTrigger.Match, hb, hty, h, hne]

/-- The type rule on the deployment: a voice action never matches a monetary
trigger, even when it is addressed to the trigger's group. -/
theorem Match_type_rule_witness :
    (groupAction "*voice").Balance = some (typedFilter "*voice") ∧
    (typedFilter "*voice").Type_ = some "*voice" ∧
    "*voice" ≠ BalanceFilter.GetType (demoTrigger "U1").Balance ∧
    (demoTrigger "U1").Match demoEnv (some (groupAction "*voice")) = false :=
  ⟨rfl, rfl, by decide,
    Match_type_rule demoEnv (demoTrigger "U1") (groupAction "*voice") (typedFilter "*voice")
      "*voice" rfl rfl (by decide)⟩

/-- C13: for an action that passes the nil rule and the type rule and carries
`ExtraParameters`, a non-empty decoded `GroupID` makes `Match` return exactly
`trigger.ID == GroupID`; otherwise a non-empty decoded `UniqueID` makes it
return exactly `trigger.UniqueID == UniqueID`. Nothing else of the action or
of the trigger enters the result. -/
theorem Match_id_override (env : Env) (trg : ActionTrigger) (a : Action) (ab : BalanceFilter)
    (hb : a.Balance = some ab)
    (htype : ∀ ty, ab.Type_ = some ty → ty = BalanceFilter.GetType trg.Balance)
    (hx : a.ExtraParameters ≠ "") :
    ((env.Unmarshal a.ExtraParameters).GroupID ≠ "" →
      trg.Match env (some a) = (trg.ID == (env.Unmarshal a.ExtraParameters).GroupID)) ∧
    ((env.Unmarshal a.ExtraParameters).GroupID = "" →
      (env.Unmarshal a.ExtraParameters).UniqueID ≠ "" →
      trg.Match env (some a) = (trg.UniqueID == (env.Unmarshal a.ExtraParameters).UniqueID)) := by
  have hguard : (ab.Type_.isSome &&
      BalanceFilter.GetType (some ab) != BalanceFilter.GetType trg.Balance) = false := by
    cases hty : ab.Type_ with
    | none => simp
    | some ty =>
      have h := htype ty hty
      simp only [BalanceFilter.GetType] at h
      simp [BalanceFilter.GetType, hty, ← h]
  constructor
  · intro hg
    simp [ActionTrigger.Match, hb, hguard, hx, hg]
  · intro hg hu
    simp [ActionTrigger.Match, hb, hguard, hx, hg, hu]

/-- The group override on the deployment: the action addressed to `G1` passes
the first two rules and `Match` is the comparison of the trigger's `ID` with
`G1`. -/
theorem Match_id_override_witness :
    (groupAction "*monetary").Balance = some (typedFilter "*monetary") ∧
    (∀ ty, (typedFilter "*monetary").Type_ = some ty →
      ty = BalanceFilter.GetType (demoTrigger "U1").Balance) ∧
    (groupAction "*monetary").ExtraParameters ≠ "" ∧
    (((demoEnv.Unmarshal (groupAction "*monetary").ExtraParameters).GroupID ≠ "" →
      (demoTrigger "U1").Match demoEnv (some (groupAction "*monetary")) =
        ((demoTrigger "U1").ID ==
          (demoEnv.Unmarshal (groupAction "*monetary").ExtraParameters).GroupID)) ∧
    ((demoEnv.Unmarshal (groupAction "*monetary").ExtraParameters).GroupID = "" →
      (demoEnv.Unmarshal (groupAction "*monetary").ExtraParameters).UniqueID ≠ "" →
      (demoTrigger "U1").Match demoEnv (some (groupAction "*monetary")) =
        ((demoTrigger "U1").UniqueID ==
          (demoEnv.Unmarshal (groupAction "*monetary").ExtraParameters).UniqueID))) :=
  ⟨rfl, by intro ty h; cases h; decide, by decide,
    Match_id_override demoEnv (demoTrigger "U1") (groupAction "*monetary")
      (typedFilter "*monetary") rfl (by intro ty h; cases h; decide) (by decide)⟩

/-- C14 as stated fails: the action passes the nil rule and the type rule, has
no `ExtraParameters` (so no identifier override and no threshold type), and
the balance materialised by the trigger's `CreateBalance`, whose identifier is
the trigger's `UniqueID`, satisfies the action's predicate; yet `Match` is
false, because line 141 materialises the balance with the predicate's own
`CreateBalance`, which leaves the identifier as the predicate has it. -/
theorem Match_uses_predicate_balance :
    (idAction "U1").Balance = some { typedFilter "*monetary" with ID := some "U1" } ∧
    BalanceFilter.GetType (idAction "U1").Balance =
      BalanceFilter.GetType (demoTrigger "U1").Balance ∧
    (idAction "U1").ExtraParameters = "" ∧
    ((demoTrigger "U1").CreateBalance demoEnv).ID = (demoTrigger "U1").UniqueID ∧
    demoEnv.MatchFilter ((demoTrigger "U1").CreateBalance demoEnv) (idAction "U1").Balance
      false false = true ∧
    (demoTrigger "U1").Match demoEnv (some (idAction "U1")) = false := by
  decide

/-- C14 amended: for an action that passes the nil rule and the type rule and
whose `ExtraParameters` are empty or decode to an empty `GroupID` and an empty
`UniqueID`, `Match` returns true exactly when the threshold type is not asked
for or equals the trigger's, and the balance materialised by the trigger's
balance predicate (its `CreateBalance`, the identifier not replaced by the
trigger's `UniqueID`) satisfies the action's predicate under `MatchFilter`
with both flags false. -/
theorem Match_final_gate (env : Env) (trg : ActionTrigger) (a : Action) (ab : BalanceFilter)
    (hb : a.Balance = some ab)
    (htype : ∀ ty, ab.Type_ = some ty → ty = BalanceFilter.GetType trg.Balance)
    (hid : a.ExtraParameters ≠ "" →
      (env.Unmarshal a.ExtraParameters).GroupID = "" ∧
      (env.Unmarshal a.ExtraParameters).UniqueID = "") :
    trg.Match env (some a) = true ↔
      (a.ExtraParameters = "" ∨ (env.Unmarshal a.ExtraParameters).ThresholdType = "" ∨
        trg.ThresholdType = (env.Unmarshal a.ExtraParameters).ThresholdType) ∧
      env.MatchFilter (env.CreateBalance trg.Balance) (some ab) false false = true := by
  have hguard : (ab.Type_.isSome &&
      BalanceFilter.GetType (some ab) != BalanceFilter.GetType trg.Balance) = false := by
    cases hty : ab.Type_ with
    | none => simp
    | some ty =>
      have h := htype ty hty
      simp only [BalanceFilter.GetType] at h
      simp [BalanceFilter.GetType, hty, ← h]
  by_cases hx : a.ExtraParameters = ""
  · simp [ActionTrigger.Match, hb, hguard, hx]
  · obtain ⟨hg, hu⟩ := hid hx
    simp [ActionTrigger.Match, hb, hguard, hx, hg, hu]

/-- The final gate on the deployment, at the action of the counterexample. -/
theorem Match_final_gate_witness :
    (idAction "U1").Balance = some { typedFilter "*monetary" with ID := some "U1" } ∧
    (∀ ty, ({ typedFilter "*monetary" with ID := some "U1" } : BalanceFilter).Type_ = some ty →
      ty = BalanceFilter.GetType (demoTrigger "U1").Balance) ∧
    ((idAction "U1").ExtraParameters ≠ "" →
      (demoEnv.Unmarshal (idAction "U1").ExtraParameters).GroupID = "" ∧
      (demoEnv.Unmarshal (idAction "U1").ExtraParameters).UniqueID = "") ∧
    ((demoTrigger "U1").Match demoEnv (some (idAction "U1")) = true ↔
      ((idAction "U1").ExtraParameters = "" ∨
        (demoEnv.Unmarshal (idAction "U1").ExtraParameters).ThresholdType = "" ∨
        (demoTrigger "U1").ThresholdType =
          (demoEnv.Unmarshal (idAction "U1").ExtraParameters).ThresholdType) ∧
      demoEnv.MatchFilter (demoEnv.CreateBalance (demoTrigger "U1").Balance)
        (some { typedFilter "*monetary" with ID := some "U1" }) false false = true) ∧
    (demoTrigger "U1").Match demoEnv
      (some { idAction "U1" with Balance := some (typedFilter "*monetary") }) = true :=
  ⟨rfl, by intro ty h; cases h; decide, by decide,
    Match_final_gate demoEnv (demoTrigger "U1") (idAction "U1")
      { typedFilter "*monetary" with ID := some "U1" } rfl (by intro ty h; cases h; decide)
      (by decide), by decide⟩

/-! ## Copy and identity -/

/-- Filling a slice index by index, as the loop of `ActionTriggers.Clone` does:
after `n` steps the first `n` cells hold `f 0`, ..., `f (n - 1)` and the rest
is as it was. -/
theorem foldl_set_range {β : Type} (f : Nat → β) (init : List β) :
    ∀ n, n ≤ init.length →
      (List.range n).foldl (fun clone i => clone.set i (f i)) init =
        (List.range n).map f ++ init.drop n := by
  intro n
  induction n with
  | zero => intro _; simp
  | succ n ih =>
    intro hn
    have hlt : n < init.length := hn
    rw [List.range_succ, List.foldl_append, ih (Nat.le_of_lt hlt)]
    simp only [List.foldl_cons, List.foldl_nil, List.map_append, List.map_cons, List.map_nil]
    have hlen : ((List.range n).map f).length = n := by simp
    rw [List.set_append_right _ _ (by rw [hlen])]
    rw [hlen, Nat.sub_self, List.append_assoc]
    congr 1
    rw [List.drop_eq_getElem_cons hlt]
    rfl

/-- C17: the clone of a non-nil trigger is a trigger that `Equals` accepts as
the original. -/
theorem Equals_Clone (t : ActionTrigger) :
    ∃ c, ActionTrigger.Clone (some t) = some c ∧ t.Equals c = true :=
  ⟨_, rfl, by simp [ActionTrigger.Equals]⟩

/-- The value-level clone of a set holds at each index the clone of the
element at that index. -/
theorem ActionTriggers_Clone_values (l : List (Option ActionTrigger)) :
    ActionTriggers.Clone (some l) = some (l.map ActionTrigger.Clone) := by
  simp only [ActionTriggers.Clone]
  rw [foldl_set_range (fun i => ActionTrigger.Clone (l.getD i none))
    (List.replicate l.length none) l.length (by simp)]
  congr 1
  apply List.ext_getElem?
  intro i
  by_cases hi : i < l.length
  · simp [hi, List.getElem?_eq_getElem, List.getD_eq_getElem?_getD]
  · have hle : l.length ≤ i := Nat.le_of_not_lt hi
    simp [hi, List.getElem?_eq_none hle, hle]

/-- C20: `Equals` is true exactly when both identifiers agree, and two pairs
of triggers with the same identifiers get the same answer whatever their
other fields hold. -/
theorem Equals_iff (a b : ActionTrigger) :
    (a.Equals b = true ↔ a.ID = b.ID ∧ a.UniqueID = b.UniqueID) ∧
    ∀ a1 b1 : ActionTrigger, a1.ID = a.ID → a1.UniqueID = a.UniqueID →
      b1.ID = b.ID → b1.UniqueID = b.UniqueID → a1.Equals b1 = a.Equals b := by
  constructor
  · simp [ActionTrigger.Equals]
  · intro a1 b1 h1 h2 h3 h4
    simp [ActionTrigger.Equals, h1, h2, h3, h4]

/-- C18: `Clone` of a nil trigger is nil. For a trigger at address `p` whose
`Balance` pointer is nil or valid, `Clone` returns a new address `q`; the
trigger read at `q` is the value-level clone of the trigger read at `p`:
every scalar field is the original's and `Balance` is the predicate's own
clone. The copy shares nothing with the original: the clone's `Balance`
pointer, when not nil, is not the original's, and the original reads the same
after any assignment to the struct at `q` or to the predicate the clone points
to. -/
theorem Clone_deep (h : Heap) (p : Ptr) (cell : TriggerCell)
    (hcell : h.triggers[p]? = some cell)
    (hbal : ∀ bp, cell.Balance = some bp → bp < h.filters.length) :
    h.CloneTrigger none = (h, none) ∧
    ActionTrigger.Clone none = none ∧
    ∃ q t t1, (h.CloneTrigger (some p)).2 = some q ∧ q ≠ p ∧
      h.load (some p) = some t ∧
      (h.CloneTrigger (some p)).1.load (some q) = some t1 ∧
      ActionTrigger.Clone (some t) = some t1 ∧
      (t1.ID = t.ID ∧ t1.UniqueID = t.UniqueID ∧ t1.ThresholdType = t.ThresholdType ∧
        t1.ThresholdValue = t.ThresholdValue ∧ t1.Recurrent = t.Recurrent ∧
        t1.MinSleep = t.MinSleep ∧ t1.ExpirationDate = t.ExpirationDate ∧
        t1.ActivationDate = t.ActivationDate ∧ t1.Weight = t.Weight ∧
        t1.ActionsID = t.ActionsID ∧ t1.MinQueuedItems = t.MinQueuedItems ∧
        t1.Executed = t.Executed ∧ t1.LastExecutionTime = t.LastExecutionTime ∧
        t1.Balance = BalanceFilter.Clone t.Balance) ∧
      (h.CloneTrigger (some p)).1.load (some p) = some t ∧
      (∀ cell1, ((h.CloneTrigger (some p)).1.storeTrigger q cell1).load (some p) = some t) ∧
      ∀ bq f1, ((h.CloneTrigger (some p)).1.triggers[q]?).bind (fun x => x.Balance) = some bq →
        cell.Balance ≠ some bq ∧
        ((h.CloneTrigger (some p)).1.storeFilter bq f1).load (some p) = some t := by
  have hp : p < h.triggers.length := by
    rcases Nat.lt_or_ge p h.triggers.length with hlt | hge
    · exact hlt
    · rw [List.getElem?_eq_none hge] at hcell
      cases hcell
  have hne : h.triggers.length ≠ p := Nat.ne_of_gt hp
  refine ⟨rfl, rfl, ?_⟩
  cases hb : cell.Balance with
  | none =>
    refine ⟨h.triggers.length, h.read cell,
      { h.read cell with Balance := BalanceFilter.Clone (h.read cell).Balance },
      ?_, hne, ?_, ?_, rfl, ?_, ?_, ?_, ?_⟩
    · simp [Heap.CloneTrigger, hcell, hb, Heap.CloneFilter]
    · simp [Heap.load, Heap.read, hcell]
    · simp [Heap.CloneTrigger, hcell, hb, Heap.CloneFilter, Heap.load, Heap.read]
      simp [BalanceFilter.Clone]
    · simp [BalanceFilter.Clone, hb]
    · simp [Heap.CloneTrigger, hcell, hb, Heap.CloneFilter, Heap.load, Heap.read,
        List.getElem?_append_left hp]
    · intro cell1
      simp [Heap.CloneTrigger, hcell, hb, Heap.CloneFilter, Heap.load, Heap.read, Heap.storeTrigger,
        List.getElem?_set_ne hne, List.getElem?_append_left hp]
    · intro bq f1 hq
      simp [Heap.CloneTrigger, hcell, hb, Heap.CloneFilter] at hq
  | some bp =>
    have hbp : bp < h.filters.length := hbal bp hb
    obtain ⟨f, hf⟩ : ∃ f, h.filters[bp]? = some f :=
      ⟨h.filters[bp], List.getElem?_eq_getElem hbp⟩
    have hnb : h.filters.length ≠ bp := Nat.ne_of_gt hbp
    refine ⟨h.triggers.length, h.read cell,
      { h.read cell with Balance := BalanceFilter.Clone (h.read cell).Balance },
      ?_, hne, ?_, ?_, rfl, ?_, ?_, ?_, ?_⟩
    · simp [Heap.CloneTrigger, hcell, hb, Heap.CloneFilter, hf]
    · simp [Heap.load, Heap.read, hcell]
    · simp [Heap.CloneTrigger, hcell, hb, Heap.CloneFilter, hf, Heap.load, Heap.read]
      simp [BalanceFilter.Clone]
    · simp [BalanceFilter.Clone, hb, hf]
    · simp [Heap.CloneTrigger, hcell, hb, Heap.CloneFilter, hf, Heap.load, Heap.read,
        List.getElem?_append_left hp, List.getElem?_append_left hbp]
    · intro cell1
      simp [Heap.CloneTrigger, hcell, hb, Heap.CloneFilter, hf, Heap.load, Heap.read, Heap.storeTrigger,
        List.getElem?_set_ne hne, List.getElem?_append_left hp, List.getElem?_append_left hbp]
    · intro bq f1 hq
      simp [Heap.CloneTrigger, hcell, hb, Heap.CloneFilter, hf] at hq
      subst hq
      refine ⟨by simpa using hnb.symm, ?_⟩
      simp [Heap.CloneTrigger, hcell, hb, Heap.CloneFilter, hf, Heap.load, Heap.read, Heap.storeFilter,
        List.getElem?_set_ne hnb, List.getElem?_append_left hp, List.getElem?_append_left hbp]

/-! ## The library sort only swaps -/

/-- A fold whose step keeps `P` keeps `P`. -/
theorem foldl_keeps {α β : Type} (P : α → Prop) (f : α → β → α)
    (hf : ∀ d x, P d → P (f d x)) : ∀ (l : List β) (d : α), P d → P (l.foldl f d) := by
  intro l
  induction l with
  | nil => intro d hd; exact hd
  | cons x l ih => intro d hd; exact ih (f d x) (hf d x hd)

theorem insertionShift_keeps {α : Type} (I : SortInterface α) (P : α → Prop)
    (hswap : ∀ d i j, P d → P (I.Swap d i j)) (a : Nat) :
    ∀ (j : Nat) (d : α), P d → P (insertionShift I a j d) := by
  intro j
  induction j with
  | zero => intro d hd; exact hd
  | succ j ih =>
    intro d hd
    unfold insertionShift
    split
    · exact ih _ (hswap _ _ _ hd)
    · exact hd

theorem insertionSort_keeps {α : Type} (I : SortInterface α) (P : α → Prop)
    (hswap : ∀ d i j, P d → P (I.Swap d i j)) (d : α) (a b : Nat) (hd : P d) :
    P (insertionSort I d a b) :=
  foldl_keeps P _ (fun d i h => insertionShift_keeps I P hswap a i d h) _ d hd

theorem siftDown_keeps {α : Type} (I : SortInterface α) (P : α → Prop)
    (hswap : ∀ d i j, P d → P (I.Swap d i j)) (first hi : Nat) :
    ∀ (fuel root : Nat) (d : α), P d → P (siftDown I first hi fuel root d) := by
  intro fuel
  induction fuel with
  | zero => intro root d hd; exact hd
  | succ fuel ih =>
    intro root d hd
    unfold siftDown
    split
    · exact hd
    · dsimp only
      split <;> split <;> first | exact hd | exact ih _ _ (hswap _ _ _ hd)

theorem heapSort_keeps {α : Type} (I : SortInterface α) (P : α → Prop)
    (hswap : ∀ d i j, P d → P (I.Swap d i j)) (d : α) (a b : Nat) (hd : P d) :
    P (heapSort I d a b) := by
  unfold heapSort
  dsimp only
  apply foldl_keeps P
  · intro d i h
    exact siftDown_keeps I P hswap _ _ _ _ _ (hswap _ _ _ h)
  · apply foldl_keeps P
    · intro d i h
      exact siftDown_keeps I P hswap _ _ _ _ _ h
    · exact hd

theorem partitionLoop_keeps {α : Type} (I : SortInterface α) (P : α → Prop)
    (hswap : ∀ d i j, P d → P (I.Swap d i j)) (a : Nat) :
    ∀ (fuel : Nat) (d : α) (i j : Nat), P d → P (partitionLoop I a fuel d i j).1 := by
  intro fuel
  induction fuel with
  | zero => intro d i j hd; exact hd
  | succ fuel ih =>
    intro d i j hd
    unfold partitionLoop
    dsimp only
    split
    · exact hd
    · exact ih _ _ _ (hswap _ _ _ hd)

theorem partition_keeps {α : Type} (I : SortInterface α) (P : α → Prop)
    (hswap : ∀ d i j, P d → P (I.Swap d i j)) (d : α) (a b pivot : Nat) (hd : P d) :
    P (partition I d a b pivot).1 := by
  unfold partition
  dsimp only
  split
  · exact hswap _ _ _ (hswap _ _ _ hd)
  · exact hswap _ _ _ (partitionLoop_keeps I P hswap a _ _ _ _ (hswap _ _ _ (hswap _ _ _ hd)))

theorem partitionEqualLoop_keeps {α : Type} (I : SortInterface α) (P : α → Prop)
    (hswap : ∀ d i j, P d → P (I.Swap d i j)) (a : Nat) :
    ∀ (fuel : Nat) (d : α) (i j : Nat), P d → P (partitionEqualLoop I a fuel d i j).1 := by
  intro fuel
  induction fuel with
  | zero => intro d i j hd; exact hd
  | succ fuel ih =>
    intro d i j hd
    unfold partitionEqualLoop
    dsimp only
    split
    · exact hd
    · exact ih _ _ _ (hswap _ _ _ hd)

theorem partitionEqual_keeps {α : Type} (I : SortInterface α) (P : α → Prop)
    (hswap : ∀ d i j, P d → P (I.Swap d i j)) (d : α) (a b pivot : Nat) (hd : P d) :
    P (partitionEqual I d a b pivot).1 :=
  partitionEqualLoop_keeps I P hswap a _ _ _ _ (hswap _ _ _ hd)

theorem shiftLeft_keeps {α : Type} (I : SortInterface α) (P : α → Prop)
    (hswap : ∀ d i j, P d → P (I.Swap d i j)) :
    ∀ (j : Nat) (d : α), P d → P (shiftLeft I j d) := by
  intro j
  induction j with
  | zero => intro d hd; exact hd
  | succ j ih =>
    intro d hd
    unfold shiftLeft
    split
    · exact hd
    · exact ih _ (hswap _ _ _ hd)

theorem shiftRight_keeps {α : Type} (I : SortInterface α) (P : α → Prop)
    (hswap : ∀ d i j, P d → P (I.Swap d i j)) (b : Nat) :
    ∀ (fuel j : Nat) (d : α), P d → P (shiftRight I b fuel j d) := by
  intro fuel
  induction fuel with
  | zero => intro j d hd; exact hd
  | succ fuel ih =>
    intro j d hd
    unfold shiftRight
    split
    · split
      · exact hd
      · exact ih _ _ (hswap _ _ _ hd)
    · exact hd

theorem partialInsertionLoop_keeps {α : Type} (I : SortInterface α) (P : α → Prop)
    (hswap : ∀ d i j, P d → P (I.Swap d i j)) (a b : Nat) :
    ∀ (steps : Nat) (d : α) (i : Nat), P d → P (partialInsertionLoop I a b steps d i).1 := by
  intro steps
  induction steps with
  | zero => intro d i hd; exact hd
  | succ steps ih =>
    intro d i hd
    unfold partialInsertionLoop
    dsimp only
    split
    · exact hd
    · split
      · exact hd
      · apply ih
        have h1 := hswap d (skipOrdered I d b (b + 1) i) (skipOrdered I d b (b + 1) i - 1) hd
        have h2 : P (if 2 ≤ skipOrdered I d b (b + 1) i - a then
            shiftLeft I (skipOrdered I d b (b + 1) i - 1)
              (I.Swap d (skipOrdered I d b (b + 1) i) (skipOrdered I d b (b + 1) i - 1))
            else I.Swap d (skipOrdered I d b (b + 1) i) (skipOrdered I d b (b + 1) i - 1)) := by
          split
          · exact shiftLeft_keeps I P hswap _ _ h1
          · exact h1
        split
        · exact shiftRight_keeps I P hswap _ _ _ _ h2
        · exact h2

theorem partialInsertionSort_keeps {α : Type} (I : SortInterface α) (P : α → Prop)
    (hswap : ∀ d i j, P d → P (I.Swap d i j)) (d : α) (a b : Nat) (hd : P d) :
    P (partialInsertionSort I d a b).1 :=
  partialInsertionLoop_keeps I P hswap a b _ _ _ hd

theorem breakPatterns_keeps {α : Type} (I : SortInterface α) (P : α → Prop)
    (hswap : ∀ d i j, P d → P (I.Swap d i j)) (d : α) (a b : Nat) (hd : P d) :
    P (breakPatterns I d a b) := by
  unfold breakPatterns
  dsimp only
  split
  · exact foldl_keeps (fun s : α × Nat => P s.1) _ (fun s i h => hswap _ _ _ h) _ (d, b - a) hd
  · exact hd

theorem reverseRange_keeps {α : Type} (I : SortInterface α) (P : α → Prop)
    (hswap : ∀ d i j, P d → P (I.Swap d i j)) :
    ∀ (fuel : Nat) (d : α) (i j : Nat), P d → P (reverseRange I fuel d i j) := by
  intro fuel
  induction fuel with
  | zero => intro d i j hd; exact hd
  | succ fuel ih =>
    intro d i j hd
    unfold reverseRange
    split
    · exact ih _ _ _ (hswap _ _ _ hd)
    · exact hd

theorem pdqsort_keeps {α : Type} (I : SortInterface α) (P : α → Prop)
    (hswap : ∀ d i j, P d → P (I.Swap d i j)) :
    ∀ (fuel : Nat) (d : α) (a b limit : Nat) (wasBalanced wasPartitioned : Bool) (out : α),
      P d → pdqsort I fuel d a b limit wasBalanced wasPartitioned = some out → P out := by
  intro fuel
  induction fuel with
  | zero => intro d a b limit wb wp out _ h; simp [pdqsort] at h
  | succ fuel ih =>
    intro d a b limit wb wp out hd h
    unfold pdqsort at h
    dsimp only at h
    have h1 : P (if wb = true then d else breakPatterns I d a b) := by
      split
      · exact hd
      · exact breakPatterns_keeps I P hswap d a b hd
    generalize (if wb = true then d else breakPatterns I d a b) = d1 at h h1
    generalize (if wb = true then limit else limit - 1) = limit1 at h
    have h2 : P (if (choosePivot I d1 a b).2 = SortedHint.decreasingHint then
        reverseRange I b d1 a (b - 1) else d1) := by
      split
      · exact reverseRange_keeps I P hswap _ _ _ _ h1
      · exact h1
    generalize (if (choosePivot I d1 a b).2 = SortedHint.decreasingHint then
        reverseRange I b d1 a (b - 1) else d1) = d2 at h h2
    generalize (if (choosePivot I d1 a b).2 = SortedHint.decreasingHint then
        b - 1 - ((choosePivot I d1 a b).1 - a) else (choosePivot I d1 a b).1) = pivot at h
    generalize (if (choosePivot I d1 a b).2 = SortedHint.decreasingHint then
        SortedHint.increasingHint else (choosePivot I d1 a b).2) = hint at h
    have h3 : P (if (wb && wp && decide (hint = SortedHint.increasingHint)) = true then
        partialInsertionSort I d2 a b else (d2, false)).1 := by
      split
      · exact partialInsertionSort_keeps I P hswap _ _ _ h2
      · exact h2
    generalize (if (wb && wp && decide (hint = SortedHint.increasingHint)) = true then
        partialInsertionSort I d2 a b else (d2, false)) = s at h h3
    split at h
    · cases h; exact insertionSort_keeps I P hswap d a b hd
    · split at h
      · cases h; exact heapSort_keeps I P hswap d a b hd
      · split at h
        · cases h; exact h3
        · split at h
          · exact ih _ _ _ _ _ _ _ (partitionEqual_keeps I P hswap _ _ _ _ h3) h
          · have h4 := partition_keeps I P hswap s.1 a b pivot h3
            split at h
            · split at h
              · cases h
              · rename_i d3 hd3
                exact ih _ _ _ _ _ _ _ (ih _ _ _ _ _ _ _ h4 hd3) h
            · split at h
              · cases h
              · rename_i d3 hd3
                exact ih _ _ _ _ _ _ _ (ih _ _ _ _ _ _ _ h4 hd3) h

/-- Whatever `sort.Sort` returns was reached from its argument by calls of
`Swap`: a property of the data that every swap keeps holds of the result. -/
theorem sortSort_keeps {α : Type} (I : SortInterface α) (P : α → Prop)
    (hswap : ∀ d i j, P d → P (I.Swap d i j)) (d out : α) (hd : P d)
    (h : sortSort I d = some out) : P out := by
  unfold sortSort at h
  split at h
  · cases h; exact hd
  · exact pdqsort_keeps I P hswap _ _ _ _ _ _ _ _ hd h

/-! ## Sorting the trigger set: theorems -/

/-- A swap of two elements of the set rearranges it. -/
theorem Swap_perm (l : List ActionTrigger) (i j : Nat) :
    (ActionTriggers.Swap l i j).Perm l := by
  unfold ActionTriggers.Swap
  split
  · rename_i x y hx hy
    obtain ⟨hi, hxi⟩ := List.getElem?_eq_some.1 hx
    obtain ⟨hj, hyj⟩ := List.getElem?_eq_some.1 hy
    rw [List.perm_iff_count]
    intro a
    have hj2 : j < (l.set i y).length := by simpa using hj
    rw [List.count_set _ _ _ _ hj2, List.count_set _ _ _ _ hi]
    have hget : (l.set i y)[j] = y := by
      rw [List.getElem_set]
      split
      · rfl
      · exact hyj
    rw [hget, hxi]
    have hle : (if (x == a) = true then 1 else 0) ≤ List.count a l := by
      have := List.boole_getElem_le_countP (fun b => b == a) l i hi
      rw [hxi] at this
      simpa [List.count_eq_countP] using this
    omega
  · exact List.Perm.refl _

theorem Swap_length (l : List ActionTrigger) (i j : Nat) :
    (ActionTriggers.Swap l i j).length = l.length := (Swap_perm l i j).length_eq

/-- After a swap, the element at `k` is the one that was at the other index. -/
theorem Swap_getElem? (l : List ActionTrigger) (i j k : Nat)
    (hi : i < l.length) (hj : j < l.length) :
    (ActionTriggers.Swap l i j)[k]? = l[if k = j then i else if k = i then j else k]? := by
  unfold ActionTriggers.Swap
  rw [List.getElem?_eq_getElem hi, List.getElem?_eq_getElem hj]
  simp only [List.getElem?_set, List.length_set]
  by_cases hkj : k = j
  · subst hkj
    simp [hi, hj, List.getElem?_eq_getElem]
  · by_cases hki : k = i
    · subst hki
      have hjk : ¬ j = k := fun h => hkj h.symm
      simp [hi, hj, hkj, hjk, List.getElem?_eq_getElem]
    · have hjk : ¬ j = k := fun h => hkj h.symm
      have hik : ¬ i = k := fun h => hki h.symm
      simp [hkj, hki, hjk, hik]

/-- C16 as stated fails: on thirteen triggers, twelve of weight 10 followed by
one of weight 20, `Sort` returns the set ordered by descending weight, but the
twelve triggers of equal weight are no longer in their input order: `T6` now
precedes `T0` and `T1` has moved to the end. -/
theorem Sort_not_stable :
    (ActionTriggers.Sort sortSort thirteenTriggers).map (List.map fun t => t.UniqueID) =
      some ["T12", "T6", "T2", "T3", "T4", "T5", "T0", "T7", "T8", "T9", "T10", "T11", "T1"] ∧
    (thirteenTriggers.filter fun t => t.Weight = 10).map (fun t => t.UniqueID) =
      ["T0", "T1", "T2", "T3", "T4", "T5", "T6", "T7", "T8", "T9", "T10", "T11"] ∧
    ∃ out, ActionTriggers.Sort sortSort thirteenTriggers = some out ∧
      (∀ i, i < 12 → ActionTriggers.Less out (i + 1) i = false) ∧
      (out.filter fun t => t.Weight = 10) ≠ (thirteenTriggers.filter fun t => t.Weight = 10) := by
  refine ⟨by decide, by decide, ?_⟩
  cases h : ActionTriggers.Sort sortSort thirteenTriggers with
  | none => exact absurd h (by decide)
  | some out =>
    have hout : out = [weighted "T12" 20, weighted "T6" 10, weighted "T2" 10, weighted "T3" 10,
        weighted "T4" 10, weighted "T5" 10, weighted "T0" 10, weighted "T7" 10,
        weighted "T8" 10, weighted "T9" 10, weighted "T10" 10, weighted "T11" 10,
        weighted "T1" 10] := by
      have h2 : ActionTriggers.Sort sortSort thirteenTriggers =
          some [weighted "T12" 20, weighted "T6" 10, weighted "T2" 10, weighted "T3" 10,
            weighted "T4" 10, weighted "T5" 10, weighted "T0" 10, weighted "T7" 10,
            weighted "T8" 10, weighted "T9" 10, weighted "T10" 10, weighted "T11" 10,
            weighted "T1" 10] := by decide
      rw [h] at h2
      exact Option.some.inj h2
    subst hout
    exact ⟨_, rfl, by decide, by decide⟩

/-- The copy on a heap with one trigger and its predicate: the clone is a new
struct with a new predicate, and the original reads the same whatever is
assigned through the clone. -/
theorem Clone_deep_witness :
    demoHeap.triggers[0]? = some demoCell ∧
    (∀ bp, demoCell.Balance = some bp → bp < demoHeap.filters.length) ∧
    demoHeap.CloneTrigger (some 0) =
      ({ triggers := [demoCell, { demoCell with Balance := some 1 }],
         filters := [typedFilter "*monetary", typedFilter "*monetary"] }, some 1) ∧
    (
      demoHeap.CloneTrigger none = (demoHeap, none) ∧
      ActionTrigger.Clone none = none ∧
      ∃ q t t1, (demoHeap.CloneTrigger (some 0)).2 = some q ∧ q ≠ 0 ∧
        demoHeap.load (some 0) = some t ∧
        (demoHeap.CloneTrigger (some 0)).1.load (some q) = some t1 ∧
        ActionTrigger.Clone (some t) = some t1 ∧
        (t1.ID = t.ID ∧ t1.UniqueID = t.UniqueID ∧ t1.ThresholdType = t.ThresholdType ∧
          t1.ThresholdValue = t.ThresholdValue ∧ t1.Recurrent = t.Recurrent ∧
          t1.MinSleep = t.MinSleep ∧ t1.ExpirationDate = t.ExpirationDate ∧
          t1.ActivationDate = t.ActivationDate ∧ t1.Weight = t.Weight ∧
          t1.ActionsID = t.ActionsID ∧ t1.MinQueuedItems = t.MinQueuedItems ∧
          t1.Executed = t.Executed ∧ t1.LastExecutionTime = t.LastExecutionTime ∧
          t1.Balance = BalanceFilter.Clone t.Balance) ∧
        (demoHeap.CloneTrigger (some 0)).1.load (some 0) = some t ∧
        (∀ cell1, ((demoHeap.CloneTrigger (some 0)).1.storeTrigger q cell1).load (some 0) = some t) ∧
        ∀ bq f1, ((demoHeap.CloneTrigger (some 0)).1.triggers[q]?).bind (fun x => x.Balance) = some bq →
          demoCell.Balance ≠ some bq ∧
          ((demoHeap.CloneTrigger (some 0)).1.storeFilter bq f1).load (some 0) = some t) :=
  ⟨rfl, by intro bp h; cases h; decide, by decide,
    Clone_deep demoHeap 0 demoCell rfl (by intro bp h; cases h; decide)⟩

/-- Identity on the deployment: two triggers with the same identifiers are
equal whatever their weights, and a different `UniqueID` tells them apart. -/
theorem Equals_iff_witness :
    (((weighted "U1" 10).Equals (weighted "U1" 20) = true ↔
        (weighted "U1" 10).ID = (weighted "U1" 20).ID ∧
        (weighted "U1" 10).UniqueID = (weighted "U1" 20).UniqueID) ∧
      ∀ a1 b1 : ActionTrigger, a1.ID = (weighted "U1" 10).ID →
        a1.UniqueID = (weighted "U1" 10).UniqueID →
        b1.ID = (weighted "U1" 20).ID → b1.UniqueID = (weighted "U1" 20).UniqueID →
        a1.Equals b1 = (weighted "U1" 10).Equals (weighted "U1" 20)) ∧
    (weighted "U1" 10).Equals (weighted "U1" 20) = true ∧
    (weighted "U1" 10).Equals (weighted "U2" 10) = false :=
  ⟨Equals_iff (weighted "U1" 10) (weighted "U1" 20), by decide, by decide⟩

/-! ## Validity window and field access -/

/-- C21: `IsActive(t)` is true exactly when `ActivationDate` is the zero time
or `t` is strictly after `ActivationDate`; so a trigger with a non-zero
`ActivationDate` is not active at any `t` at or before it. -/
theorem IsActive_iff (trg : ActionTrigger) (t : Time) :
    (trg.IsActive t = true ↔ trg.ActivationDate = ⟨0⟩ ∨ trg.ActivationDate.ns < t.ns) ∧
    (trg.ActivationDate ≠ ⟨0⟩ → t.ns ≤ trg.ActivationDate.ns → trg.IsActive t = false) := by
  have hz : trg.ActivationDate = ⟨0⟩ ↔ trg.ActivationDate.ns = 0 := by
    cases trg.ActivationDate
    simp
  constructor
  · simp [ActionTrigger.IsActive, Time.IsZero, Time.After, hz]
  · intro hne hle
    have h0 : ¬ trg.ActivationDate.ns = 0 := fun h => hne (hz.2 h)
    simp [ActionTrigger.IsActive, Time.IsZero, Time.After, h0, hle]

/-- A trigger activated at instant 100 is inactive at 100 and active at 101. -/
theorem IsActive_iff_witness :
    (({ demoTrigger "U1" with ActivationDate := ⟨100⟩ } : ActionTrigger).IsActive ⟨100⟩ = true ↔
      ({ demoTrigger "U1" with ActivationDate := ⟨100⟩ } : ActionTrigger).ActivationDate = ⟨0⟩ ∨
      ({ demoTrigger "U1" with ActivationDate := ⟨100⟩ } : ActionTrigger).ActivationDate.ns <
        (⟨100⟩ : Time).ns) ∧
    (({ demoTrigger "U1" with ActivationDate := ⟨100⟩ } : ActionTrigger).ActivationDate ≠ ⟨0⟩ →
      (⟨100⟩ : Time).ns ≤
        ({ demoTrigger "U1" with ActivationDate := ⟨100⟩ } : ActionTrigger).ActivationDate.ns →
      ({ demoTrigger "U1" with ActivationDate := ⟨100⟩ } : ActionTrigger).IsActive ⟨100⟩ =
        false) ∧
    ({ demoTrigger "U1" with ActivationDate := ⟨100⟩ } : ActionTrigger).IsActive ⟨100⟩ = false ∧
    ({ demoTrigger "U1" with ActivationDate := ⟨100⟩ } : ActionTrigger).IsActive ⟨101⟩ = true ∧
    (demoTrigger "U1").IsActive ⟨0⟩ = true :=
  ⟨(IsActive_iff { demoTrigger "U1" with ActivationDate := ⟨100⟩ } ⟨100⟩).1,
    (IsActive_iff { demoTrigger "U1" with ActivationDate := ⟨100⟩ } ⟨100⟩).2,
    by decide, by decide, by decide⟩

/-- C22: `IsExpired(t)` is true exactly when `ExpirationDate` is not the zero
time and `t` is strictly after `ExpirationDate`; so a trigger with a zero
`ExpirationDate` is never expired. -/
theorem IsExpired_iff (trg : ActionTrigger) (t : Time) :
    (trg.IsExpired t = true ↔ trg.ExpirationDate ≠ ⟨0⟩ ∧ trg.ExpirationDate.ns < t.ns) ∧
    (trg.ExpirationDate = ⟨0⟩ → trg.IsExpired t = false) := by
  have hz : trg.ExpirationDate = ⟨0⟩ ↔ trg.ExpirationDate.ns = 0 := by
    cases trg.ExpirationDate
    simp
  constructor
  · simp [ActionTrigger.IsExpired, Time.IsZero, Time.After, hz]
  · intro h0
    simp [ActionTrigger.IsExpired, Time.IsZero, hz.1 h0]

/-- A trigger expiring at instant 100 is not expired at 100, is expired at 101;
a trigger without expiration is not expired. -/
theorem IsExpired_iff_witness :
    (({ demoTrigger "U1" with ExpirationDate := ⟨100⟩ } : ActionTrigger).IsExpired ⟨101⟩ = true ↔
      ({ demoTrigger "U1" with ExpirationDate := ⟨100⟩ } : ActionTrigger).ExpirationDate ≠ ⟨0⟩ ∧
      ({ demoTrigger "U1" with ExpirationDate := ⟨100⟩ } : ActionTrigger).ExpirationDate.ns <
        (⟨101⟩ : Time).ns) ∧
    ((demoTrigger "U1").ExpirationDate = ⟨0⟩ → (demoTrigger "U1").IsExpired ⟨101⟩ = false) ∧
    ({ demoTrigger "U1" with ExpirationDate := ⟨100⟩ } : ActionTrigger).IsExpired ⟨100⟩ = false ∧
    ({ demoTrigger "U1" with ExpirationDate := ⟨100⟩ } : ActionTrigger).IsExpired ⟨101⟩ = true :=
  ⟨(IsExpired_iff { demoTrigger "U1" with ExpirationDate := ⟨100⟩ } ⟨101⟩).1,
    (IsExpired_iff (demoTrigger "U1") ⟨101⟩).2, by decide, by decide⟩

/-- The string accessor fails with the error of the interface accessor. -/
theorem FieldAsString_error (fe : FieldEnv) (trg : Option ActionTrigger)
    (fldPath : List String) (err : Error)
    (h : ActionTrigger.FieldAsInterface fe trg fldPath = .error err) :
    ActionTrigger.FieldAsString fe trg fldPath = .error err := by
  simp [ActionTrigger.FieldAsString, h]

/-- A path that continues past a leaf field fails with the not-found error. -/
theorem fieldSwitch_past_leaf (fe : FieldEnv) (trg : ActionTrigger) (name x : String)
    (rest : List String) (hmem : name ∈ fe.leafNames) (hbal : name ≠ fe.BalanceField) :
    ActionTrigger.FieldAsInterface fe (some trg) (name :: x :: rest) = .error fe.ErrNotFound := by
  simp only [FieldEnv.leafNames, List.mem_cons, List.mem_singleton, List.not_mem_nil,
    or_false] at hmem
  have hleaf : ∀ v, leafField fe (name :: x :: rest) v = .error fe.ErrNotFound := by
    intro v
    simp [leafField]
  show fieldSwitch fe trg name (x :: rest) = .error fe.ErrNotFound
  unfold fieldSwitch
  by_cases c1 : name = fe.ID
  · rw [if_pos c1]
    exact hleaf _
  rw [if_neg c1]
  by_cases c2 : name = fe.UniqueID
  · rw [if_pos c2]
    exact hleaf _
  rw [if_neg c2]
  by_cases c3 : name = fe.ThresholdType
  · rw [if_pos c3]
    exact hleaf _
  rw [if_neg c3]
  by_cases c4 : name = fe.ThresholdValue
  · rw [if_pos c4]
    exact hleaf _
  rw [if_neg c4]
  by_cases c5 : name = fe.Recurrent
  · rw [if_pos c5]
    exact hleaf _
  rw [if_neg c5]
  by_cases c6 : name = fe.MinSleep
  · rw [if_pos c6]
    exact hleaf _
  rw [if_neg c6]
  by_cases c7 : name = fe.ExpirationDate
  · rw [if_pos c7]
    exact hleaf _
  rw [if_neg c7]
  by_cases c8 : name = fe.ActivationDate
  · rw [if_pos c8]
    exact hleaf _
  rw [if_neg c8]
  rw [if_neg hbal]
  by_cases c9 : name = fe.Weight
  · rw [if_pos c9]
    exact hleaf _
  rw [if_neg c9]
  by_cases c10 : name = fe.ActionsID
  · rw [if_pos c10]
    exact hleaf _
  rw [if_neg c10]
  by_cases c11 : name = fe.MinQueuedItems
  · rw [if_pos c11]
    exact hleaf _
  rw [if_neg c11]
  by_cases c12 : name = fe.Executed
  · rw [if_pos c12]
    exact hleaf _
  rw [if_neg c12]
  by_cases c13 : name = fe.LastExecutionTime
  · rw [if_pos c13]
    exact hleaf _
  rw [if_neg c13]
  exfalso
  rcases hmem with h | h | h | h | h | h | h | h | h | h | h | h | h <;> contradiction

/-- A first path element that is no field name fails with the error of the
`default` case. -/
theorem fieldSwitch_unknown (fe : FieldEnv) (trg : ActionTrigger) (name : String)
    (rest : List String) (hmem : name ∉ fe.leafNames) (hbal : name ≠ fe.BalanceField) :
    ActionTrigger.FieldAsInterface fe (some trg) (name :: rest) =
      .error ("unsupported field prefix: <" ++ name ++ ">") := by
  simp only [FieldEnv.leafNames, List.mem_cons, List.mem_singleton, List.not_mem_nil,
    or_false, not_or] at hmem
  obtain ⟨h1, h2, h3, h4, h5, h6, h7, h8, h9, h10, h11, h12, h13⟩ := hmem
  show fieldSwitch fe trg name rest = _
  unfold fieldSwitch
  rw [if_neg h1, if_neg h2, if_neg h3, if_neg h4, if_neg h5, if_neg h6, if_neg h7, if_neg h8,
    if_neg hbal, if_neg h9, if_neg h10, if_neg h11, if_neg h12, if_neg h13]

/-- C23 as stated fails: on a path whose first element is no field name, the
accessor fails with the error of the `default` case, `unsupported field
prefix: <Foo>`, which is not the not-found error; `FieldAsString` hands the
same error on. -/
theorem FieldAsInterface_unknown_prefix :
    "Foo" ∉ demoFieldEnv.leafNames ∧ "Foo" ≠ demoFieldEnv.BalanceField ∧
    ActionTrigger.FieldAsInterface demoFieldEnv (some (demoTrigger "U1")) ["Foo"] =
      .error "unsupported field prefix: <Foo>" ∧
    ActionTrigger.FieldAsString demoFieldEnv (some (demoTrigger "U1")) ["Foo"] =
      .error "unsupported field prefix: <Foo>" ∧
    ("unsupported field prefix: <Foo>" : Error) ≠ demoFieldEnv.ErrNotFound :=
  ⟨by decide, by decide, rfl, rfl, by decide⟩

/-- C23 amended: the accessor fails with the not-found error when the receiver
is nil, when the path is empty, and when the path continues past a leaf field
(a known field other than `Balance` followed by further elements); when the
first path element is no field name it fails with the error
`unsupported field prefix: <name>`. `FieldAsString` fails with the same error
in each of these cases. -/
theorem FieldAsInterface_errors (fe : FieldEnv) (trg : ActionTrigger) (name x : String)
    (rest : List String) :
    (∀ path, ActionTrigger.FieldAsInterface fe none path = .error fe.ErrNotFound ∧
      ActionTrigger.FieldAsString fe none path = .error fe.ErrNotFound) ∧
    (ActionTrigger.FieldAsInterface fe (some trg) [] = .error fe.ErrNotFound ∧
      ActionTrigger.FieldAsString fe (some trg) [] = .error fe.ErrNotFound) ∧
    (name ∈ fe.leafNames → name ≠ fe.BalanceField →
      ActionTrigger.FieldAsInterface fe (some trg) (name :: x :: rest) = .error fe.ErrNotFound ∧
      ActionTrigger.FieldAsString fe (some trg) (name :: x :: rest) = .error fe.ErrNotFound) ∧
    (name ∉ fe.leafNames → name ≠ fe.BalanceField →
      ActionTrigger.FieldAsInterface fe (some trg) (name :: rest) =
        .error ("unsupported field prefix: <" ++ name ++ ">") ∧
      ActionTrigger.FieldAsString fe (some trg) (name :: rest) =
        .error ("unsupported field prefix: <" ++ name ++ ">")) := by
  refine ⟨fun path => ?_, ?_, ?_, ?_⟩
  · have h : ActionTrigger.FieldAsInterface fe none path = .error fe.ErrNotFound := by
      simp [ActionTrigger.FieldAsInterface]
    exact ⟨h, FieldAsString_error fe _ _ _ h⟩
  · have h : ActionTrigger.FieldAsInterface fe (some trg) [] = .error fe.ErrNotFound := by
      simp [ActionTrigger.FieldAsInterface]
    exact ⟨h, FieldAsString_error fe _ _ _ h⟩
  · intro hmem hbal
    have h := fieldSwitch_past_leaf fe trg name x rest hmem hbal
    exact ⟨h, FieldAsString_error fe _ _ _ h⟩
  · intro hmem hbal
    have h := fieldSwitch_unknown fe trg name rest hmem hbal
    exact ⟨h, FieldAsString_error fe _ _ _ h⟩

/-- The accessor on the deployment: a nil trigger, an empty path and the path
`ID.x` fail with `NOT_FOUND`; the path `Foo` fails with the prefix error. -/
theorem FieldAsInterface_errors_witness :
    "ID" ∈ demoFieldEnv.leafNames ∧ "ID" ≠ demoFieldEnv.BalanceField ∧
    "Foo" ∉ demoFieldEnv.leafNames ∧ "Foo" ≠ demoFieldEnv.BalanceField ∧
    ActionTrigger.FieldAsInterface demoFieldEnv none ["ID"] = .error "NOT_FOUND" ∧
    ActionTrigger.FieldAsInterface demoFieldEnv (some (demoTrigger "U1")) ["ID", "x"] =
      .error "NOT_FOUND" ∧
    ActionTrigger.FieldAsString demoFieldEnv (some (demoTrigger "U1")) ["ID", "x"] =
      .error "NOT_FOUND" ∧
    ActionTrigger.FieldAsInterface demoFieldEnv (some (demoTrigger "U1")) ["Foo", "x"] =
      .error ("unsupported field prefix: <" ++ "Foo" ++ ">") ∧
    ActionTrigger.FieldAsString demoFieldEnv (some (demoTrigger "U1")) ["ID"] = .ok "G1" :=
  ⟨by decide, by decide, by decide, by decide,
    ((FieldAsInterface_errors demoFieldEnv (demoTrigger "U1") "ID" "x" []).1 ["ID"]).1,
    ((FieldAsInterface_errors demoFieldEnv (demoTrigger "U1") "ID" "x" []).2.2.1
      (by decide) (by decide)).1,
    ((FieldAsInterface_errors demoFieldEnv (demoTrigger "U1") "ID" "x" []).2.2.1
      (by decide) (by decide)).2,
    ((FieldAsInterface_errors demoFieldEnv (demoTrigger "U1") "Foo" "x" ["x"]).2.2.2
      (by decide) (by decide)).1,
    rfl⟩

/-! ## Execution: latch, time stamp, handler order -/

/-- The trigger the lines after the loop leave. -/
theorem finishExecute_trigger (trg : ActionTrigger) (st : LoopState) :
    (finishExecute trg st).trigger =
      if st.transactionFailed || trg.Recurrent then { trg with Executed := false } else trg := by
  unfold finishExecute
  cases st.ub with
  | none => rfl
  | some acc =>
    dsimp only
    split <;> rfl

/-- The error the lines after the loop return is nil. -/
theorem finishExecute_err (trg : ActionTrigger) (st : LoopState) :
    (finishExecute trg st).err = none := by
  unfold finishExecute
  cases st.ub with
  | none => rfl
  | some acc =>
    dsimp only
    split <;> rfl

/-- C24: whatever `Executed` was at entry, when `Execute` loads its action list
and returns no (filter) error, `Executed` at return is `!Recurrent`, whether the
loop ran to the end or was abandoned on an unresolved action type or a handler
error, the batch-failed flag being false on every path. -/
theorem Execute_latch (env : Env) (sinceNow now : Time) (trg : ActionTrigger)
    (ub : Option Account) (fltrS : FilterS) (aac : List Action)
    (hth : trg.throttled sinceNow = false)
    (hen : ∀ a, ub = some a → a.Disabled = false)
    (hload : env.GetActions trg.ActionsID false env.NonTransactional = .ok aac)
    (hnf : (trg.Execute env sinceNow now ub fltrS).err = none) :
    (trg.runLoop env ub fltrS aac).2.transactionFailed = false ∧
    (trg.Execute env sinceNow now ub fltrS).trigger.Executed = !trg.Recurrent := by
  rw [Execute_loaded env sinceNow now trg ub fltrS aac hth hen hload] at hnf ⊢
  obtain ⟨evs, -, -, -, htf, -⟩ := runLoop_spec env trg ub fltrS aac
  refine ⟨htf, ?_⟩
  rcases hrl : trg.runLoop env ub fltrS aac with ⟨exit, st⟩
  rw [hrl] at hnf htf
  dsimp only at htf
  cases exit with
  | returned e => simp at hnf
  | completed =>
    simp only [finishExecute_trigger, htf, Bool.false_or]
    cases trg.Recurrent <;> rfl
  | abandoned =>
    simp only [finishExecute_trigger, htf, Bool.false_or]
    cases trg.Recurrent <;> rfl

/-- The latch on the deployment: a non-recurrent trigger that had fired is run
again (its handler is invoked) and is latched at return; a non-recurrent
trigger whose loop is abandoned is latched as well. -/
theorem Execute_latch_witness :
    latchedTrigger.throttled ⟨7⟩ = false ∧
    (∀ a, some demoAccount = some a → a.Disabled = false) ∧
    demoEnv.GetActions latchedTrigger.ActionsID false demoEnv.NonTransactional =
      .ok [mkAction "ACT_TOPUP" "*topup" 10] ∧
    (latchedTrigger.Execute demoEnv ⟨7⟩ ⟨8⟩ (some demoAccount) demoFilterS).err = none ∧
    ((latchedTrigger.runLoop demoEnv (some demoAccount) demoFilterS
        [mkAction "ACT_TOPUP" "*topup" 10]).2.transactionFailed = false ∧
      (latchedTrigger.Execute demoEnv ⟨7⟩ ⟨8⟩ (some demoAccount) demoFilterS).trigger.Executed =
        !latchedTrigger.Recurrent) ∧
    latchedTrigger.Executed = true ∧ latchedTrigger.Recurrent = false ∧
    ((latchedTrigger.Execute demoEnv ⟨7⟩ ⟨8⟩ (some demoAccount) demoFilterS).trace.filterMap
      Event.handlerAction).length = 1 ∧
    (latchedTrigger.Execute demoEnv ⟨7⟩ ⟨8⟩ (some demoAccount) demoFilterS).trigger.Executed =
      true ∧
    (mixedTrigger.runLoop demoEnv (some demoAccount) demoFilterS mixedActions).1 = .abandoned ∧
    (mixedTrigger.Execute demoEnv ⟨7⟩ ⟨8⟩ (some demoAccount) demoFilterS).trigger.Executed =
      !mixedTrigger.Recurrent :=
  ⟨by decide, by intro a h; cases h; rfl, rfl, by decide,
    Execute_latch demoEnv ⟨7⟩ ⟨8⟩ latchedTrigger (some demoAccount) demoFilterS
      [mkAction "ACT_TOPUP" "*topup" 10] (by decide) (by intro a h; cases h; rfl) rfl
      (by decide),
    by decide, by decide, by decide, by decide, by decide, by decide⟩

/-- C25: when `Execute` is not throttled, the trigger at return is the trigger
at entry with `LastExecutionTime` set to the time read on line 54 and with
some value of `Executed`; no other field differs, whichever later step fails. -/
theorem Execute_stamp (env : Env) (sinceNow now : Time) (trg : ActionTrigger)
    (ub : Option Account) (fltrS : FilterS)
    (hth : trg.throttled sinceNow = false) :
    (trg.Execute env sinceNow now ub fltrS).trigger.LastExecutionTime = now ∧
    ∃ e, (trg.Execute env sinceNow now ub fltrS).trigger =
      { trg with LastExecutionTime := now, Executed := e } := by
  have key : ∃ e, (trg.Execute env sinceNow now ub fltrS).trigger =
      { trg with LastExecutionTime := now, Executed := e } := by
    simp only [ActionTrigger.Execute, hth, Bool.false_eq_true, if_false]
    cases disabledAccount ub with
    | some acc => exact ⟨trg.Executed, rfl⟩
    | none =>
      cases env.GetActions trg.ActionsID false env.NonTransactional with
      | error err => exact ⟨trg.Executed, rfl⟩
      | ok aac =>
        dsimp only
        rcases ActionTrigger.runLoop env
            { trg with LastExecutionTime := now, Executed := true } ub fltrS aac with ⟨exit, st⟩
        cases exit with
        | returned e => exact ⟨true, rfl⟩
        | completed =>
          dsimp only
          rw [finishExecute_trigger]
          split
          · exact ⟨false, rfl⟩
          · exact ⟨true, rfl⟩
        | abandoned =>
          dsimp only
          rw [finishExecute_trigger]
          split
          · exact ⟨false, rfl⟩
          · exact ⟨true, rfl⟩
  obtain ⟨e, he⟩ := key
  exact ⟨by rw [he], e, he⟩

/-- The time stamp on the deployment: the guard of the disabled account, the
failed load and the failing filter all leave `LastExecutionTime` at the time
read at entry. -/
theorem Execute_stamp_witness :
    (demoTrigger "U1").throttled ⟨7⟩ = false ∧
    ((demoTrigger "U1").Execute demoEnv ⟨7⟩ ⟨8⟩ (some disabledDemoAccount)
        demoFilterS).trigger.LastExecutionTime = ⟨8⟩ ∧
    (∃ e, ((demoTrigger "U1").Execute demoEnv ⟨7⟩ ⟨8⟩ (some disabledDemoAccount)
        demoFilterS).trigger =
      { demoTrigger "U1" with LastExecutionTime := ⟨8⟩, Executed := e }) ∧
    (danglingTrigger.Execute demoEnv ⟨7⟩ ⟨8⟩ (some demoAccount)
        demoFilterS).trigger.LastExecutionTime = ⟨8⟩ ∧
    (filteredTrigger.Execute demoEnv ⟨7⟩ ⟨8⟩ (some demoAccount)
        demoFilterS).trigger.LastExecutionTime = ⟨8⟩ :=
  ⟨by decide,
    (Execute_stamp demoEnv ⟨7⟩ ⟨8⟩ (demoTrigger "U1") (some disabledDemoAccount) demoFilterS
      (by decide)).1,
    (Execute_stamp demoEnv ⟨7⟩ ⟨8⟩ (demoTrigger "U1") (some disabledDemoAccount) demoFilterS
      (by decide)).2,
    by decide, by decide⟩

/-- The handlers the loop invokes are those the specification tells: the
handler events the loop adds to the trace are `invokedActions`, in order. -/
theorem executeLoop_handlers (env : Env) (fltrS : FilterS) :
    ∀ (todo before : List Action) (st : LoopState),
      (executeLoop env fltrS before todo st).2.trace.filterMap Event.handlerAction =
        st.trace.filterMap Event.handlerAction ++
          invokedActions env fltrS before todo st.ub := by
  intro todo
  induction todo with
  | nil => intro before st; simp [executeLoop, invokedActions]
  | cons a after ih =>
    intro before st
    have hrun : ∀ st0 : LoopState, st0.ub = st.ub →
        st0.trace.filterMap Event.handlerAction = st.trace.filterMap Event.handlerAction →
        (match runAction env fltrS before (patchBalance env a) after st0 with
          | .next a1 st1 => executeLoop env fltrS (before ++ [a1]) after st1
          | .brk st1 => (.abandoned, st1)
          | .ret err st1 => (.returned err, st1)).2.trace.filterMap Event.handlerAction =
        st.trace.filterMap Event.handlerAction ++
          (match env.getActionFunc (patchBalance env a).ActionType with
            | none => []
            | some handler =>
              match (handler st.ub (patchBalance env a) (before ++ patchBalance env a :: after)
                fltrS).err with
              | some _ => [patchBalance env a]
              | none =>
                patchBalance env a ::
                  invokedActions env fltrS (before ++ [patchBalance env a]) after
                    (st.ub.map fun _ =>
                      (handler st.ub (patchBalance env a)
                        (before ++ patchBalance env a :: after) fltrS).ub)) := by
      intro st0 hub htr
      cases hf : env.getActionFunc (patchBalance env a).ActionType with
      | none => simp [runAction, hf, Event.handlerAction, htr]
      | some f =>
        cases herr : (f st.ub (patchBalance env a)
            (before ++ patchBalance env a :: after) fltrS).err with
        | some err => simp [runAction, hf, hub, herr, Event.handlerAction, htr]
        | none =>
          by_cases hty : (patchBalance env a).ActionType == env.MetaRemoveAccount
          · simp only [runAction, hf, hub, herr, hty, if_true]
            rw [ih]
            simp [Event.handlerAction, htr]
          · simp only [runAction, hf, hub, herr, hty, Bool.false_eq_true, if_false]
            rw [ih]
            simp [Event.handlerAction, htr]
    by_cases hlen : 0 < a.Filters.length
    · cases hp : fltrS.Pass (env.Tenant a.Id) a.Filters st.ub with
      | error e =>
        simp [executeLoop, loopBody, invokedActions, hlen, hp, Event.handlerAction]
      | ok pass =>
        cases pass with
        | false =>
          simp only [executeLoop, loopBody, invokedActions, hlen, hp, if_true]
          rw [ih]
          simp [Event.handlerAction]
        | true =>
          have := hrun { st with trace := st.trace ++ [.Pass (env.Tenant a.Id) a.Filters st.ub] }
            rfl (by simp [Event.handlerAction])
          simpa only [executeLoop, loopBody, invokedActions, hlen, hp, if_true] using this
    · have := hrun st rfl rfl
      simpa only [executeLoop, loopBody, invokedActions, hlen, if_false] using this
/-- The actions the specification tells are actions of the list, as patched
on lines 79 to 88, in the order of the list. -/
theorem invokedActions_sublist (env : Env) (fltrS : FilterS) :
    ∀ (todo before : List Action) (ub : Option Account),
      (invokedActions env fltrS before todo ub).Sublist (todo.map (patchBalance env)) := by
  intro todo
  induction todo with
  | nil => intro before ub; simp [invokedActions]
  | cons a after ih =>
    intro before ub
    unfold invokedActions
    simp only [List.map_cons]
    split
    · exact List.nil_sublist _
    · exact (ih _ _).cons _
    · split
      · exact List.nil_sublist _
      · split
        · exact (List.nil_sublist _).cons₂ _
        · exact (ih _ _).cons₂ _

/-- The handler events of a whole `Execute` that loaded its action list are the
invocations the specification tells for the sorted list. -/
theorem Execute_handlerActions (env : Env) (sinceNow now : Time) (trg : ActionTrigger)
    (ub : Option Account) (fltrS : FilterS) (aac : List Action)
    (hth : trg.throttled sinceNow = false)
    (hen : ∀ a, ub = some a → a.Disabled = false)
    (hload : env.GetActions trg.ActionsID false env.NonTransactional = .ok aac) :
    (trg.Execute env sinceNow now ub fltrS).trace.filterMap Event.handlerAction =
      invokedActions env fltrS [] (env.SortActions aac) ub := by
  rw [Execute_loaded env sinceNow now trg ub fltrS aac hth hen hload]
  have hloop : (trg.runLoop env ub fltrS aac).2.trace.filterMap Event.handlerAction =
      invokedActions env fltrS [] (env.SortActions aac) ub := by
    unfold ActionTrigger.runLoop
    rw [executeLoop_handlers]
    simp [Event.handlerAction]
  rcases hrl : trg.runLoop env ub fltrS aac with ⟨exit, st⟩
  rw [hrl] at hloop
  dsimp only at hloop
  have hfin : (finishExecute { trg with LastExecutionTime := now, Executed := true }
      st).trace.filterMap Event.handlerAction =
      invokedActions env fltrS [] (env.SortActions aac) ub := by
    rcases finishExecute_trace { trg with LastExecutionTime := now, Executed := true } st with
      h | ⟨acc, -, h⟩
    · rw [h]; exact hloop
    · rw [h, List.filterMap_append, hloop]
      simp [Event.handlerAction]
  cases exit with
  | returned e => exact hloop
  | completed => exact hfin
  | abandoned => exact hfin

/-- C26: in an `Execute` that loads its action list, the handlers are invoked,
in the order of the sorted list, for exactly the actions the specification
tells (`invokedActions`): an action whose filters do not pass is skipped and
the loop goes on; an unresolved action gets no handler and nothing after it
does; an action whose handler fails is the last one invoked. -/
theorem Execute_handlers (env : Env) (sinceNow now : Time) (trg : ActionTrigger)
    (ub : Option Account) (fltrS : FilterS) (aac : List Action)
    (hth : trg.throttled sinceNow = false)
    (hen : ∀ a, ub = some a → a.Disabled = false)
    (hload : env.GetActions trg.ActionsID false env.NonTransactional = .ok aac) :
    (trg.Execute env sinceNow now ub fltrS).trace.filterMap Event.handlerAction =
      invokedActions env fltrS [] (env.SortActions aac) ub ∧
    ((trg.Execute env sinceNow now ub fltrS).trace.filterMap Event.handlerAction).Sublist
      ((env.SortActions aac).map (patchBalance env)) := by
  have h := Execute_handlerActions env sinceNow now trg ub fltrS aac hth hen hload
  exact ⟨h, h ▸ invokedActions_sublist env fltrS _ _ _⟩

/-- Scenario 3 on the deployment: of the three actions, sorted to weights 30,
20, 10, the second has an unresolvable type; only the handler of the first is
invoked. -/
theorem Execute_handlers_witness :
    mixedTrigger.throttled ⟨7⟩ = false ∧
    (∀ a, some demoAccount = some a → a.Disabled = false) ∧
    demoEnv.GetActions mixedTrigger.ActionsID false demoEnv.NonTransactional = .ok mixedActions ∧
    ((mixedTrigger.Execute demoEnv ⟨7⟩ ⟨8⟩ (some demoAccount) demoFilterS).trace.filterMap
        Event.handlerAction =
      invokedActions demoEnv demoFilterS [] (demoEnv.SortActions mixedActions)
        (some demoAccount) ∧
    ((mixedTrigger.Execute demoEnv ⟨7⟩ ⟨8⟩ (some demoAccount) demoFilterS).trace.filterMap
        Event.handlerAction).Sublist
      ((demoEnv.SortActions mixedActions).map (patchBalance demoEnv))) ∧
    (demoEnv.SortActions mixedActions).map (fun a => (a.ActionType, a.Weight)) =
      [("*topup", 30), ("*unknown", 20), ("*topup", 10)] ∧
    (mixedTrigger.Execute demoEnv ⟨7⟩ ⟨8⟩ (some demoAccount) demoFilterS).trace.filterMap
        Event.handlerAction =
      [patchBalance demoEnv (mkAction "ACT_MIXED" "*topup" 30)] :=
  ⟨by decide, by intro a h; cases h; rfl, rfl,
    Execute_handlers demoEnv ⟨7⟩ ⟨8⟩ mixedTrigger (some demoAccount) demoFilterS mixedActions
      (by decide) (by intro a h; cases h; rfl) rfl,
    by decide, by decide⟩

/-- What lines 79 to 88 do to an action: the balance predicate becomes non-nil
(the empty one when it was nil), the expiration is written exactly when the
expiration string is non-empty and parses, and nothing else changes. -/
theorem patchBalance_spec (env : Env) (a0 : Action) :
    patchBalance env a0 = { a0 with Balance := (patchBalance env a0).Balance } ∧
    (∃ b, (patchBalance env a0).Balance = some b) ∧
    (∀ t, a0.ExpirationString ≠ "" →
      env.ParseTimeDetectLayout a0.ExpirationString env.DefaultTimezone = .ok t →
      (patchBalance env a0).Balance =
        some { a0.Balance.getD BalanceFilter.empty with ExpirationDate := some t }) ∧
    ((a0.ExpirationString = "" ∨
        ∃ e, env.ParseTimeDetectLayout a0.ExpirationString env.DefaultTimezone = .error e) →
      (patchBalance env a0).Balance = some (a0.Balance.getD BalanceFilter.empty)) := by
  have hb : (match a0.Balance with
      | none => BalanceFilter.empty
      | some b => b) = a0.Balance.getD BalanceFilter.empty := by
    cases a0.Balance <;> rfl
  by_cases hs : a0.ExpirationString = ""
  · have h : patchBalance env a0 =
        { a0 with Balance := some (a0.Balance.getD BalanceFilter.empty) } := by
      simp [patchBalance, hs, hb]
    rw [h]
    exact ⟨rfl, ⟨_, rfl⟩, fun t hne _ => absurd hs hne, fun _ => rfl⟩
  · cases hp : env.ParseTimeDetectLayout a0.ExpirationString env.DefaultTimezone with
    | ok t =>
      have h : (patchBalance env a0).Balance =
          some { a0.Balance.getD BalanceFilter.empty with ExpirationDate := some t } ∧
          patchBalance env a0 = { a0 with Balance := (patchBalance env a0).Balance } := by
        simp [patchBalance, hs, hp, hb]
      refine ⟨h.2, ⟨_, h.1⟩, fun t1 _ h1 => ?_, fun h1 => ?_⟩
      · cases h1; exact h.1
      · rcases h1 with h1 | ⟨e, h1⟩
        · exact absurd h1 hs
        · cases h1
    | error e =>
      have h : patchBalance env a0 =
          { a0 with Balance := some (a0.Balance.getD BalanceFilter.empty) } := by
        simp [patchBalance, hs, hp, hb]
      rw [h]
      exact ⟨rfl, ⟨_, rfl⟩, fun t _ h1 => (by cases h1), fun _ => rfl⟩

/-- C27: every action `a` a handler is invoked on is an action `a0` of the
sorted list as lines 79 to 88 leave it: its balance predicate is non-nil (the
empty predicate when `a0` had none); when the expiration string of `a0` is
non-empty and parses to `t`, the predicate's expiration is `t`; when the string
is empty or does not parse, the predicate is the one `a0` had (or the empty
one), so an absent expiration stays absent. -/
theorem Execute_handler_balance (env : Env) (sinceNow now : Time) (trg : ActionTrigger)
    (ub : Option Account) (fltrS : FilterS) (aac : List Action)
    (u : Option Account) (a : Action) (l : List Action)
    (hth : trg.throttled sinceNow = false)
    (hen : ∀ acc, ub = some acc → acc.Disabled = false)
    (hload : env.GetActions trg.ActionsID false env.NonTransactional = .ok aac)
    (hev : Event.ActionFunc u a l ∈ (trg.Execute env sinceNow now ub fltrS).trace) :
    ∃ a0, a0 ∈ env.SortActions aac ∧ a = { a0 with Balance := a.Balance } ∧
      (∃ b, a.Balance = some b) ∧
      (∀ t, a0.ExpirationString ≠ "" →
        env.ParseTimeDetectLayout a0.ExpirationString env.DefaultTimezone = .ok t →
        a.Balance = some { a0.Balance.getD BalanceFilter.empty with ExpirationDate := some t }) ∧
      ((a0.ExpirationString = "" ∨
          ∃ e, env.ParseTimeDetectLayout a0.ExpirationString env.DefaultTimezone = .error e) →
        a.Balance = some (a0.Balance.getD BalanceFilter.empty) ∧
        (a0.Balance = none → a.Balance = some BalanceFilter.empty) ∧
        ((a0.Balance.bind fun b => b.ExpirationDate) = none →
          (a.Balance.bind fun b => b.ExpirationDate) = none)) := by
  have hmem : a ∈ (trg.Execute env sinceNow now ub fltrS).trace.filterMap
      Event.handlerAction :=
    List.mem_filterMap.2 ⟨_, hev, rfl⟩
  rw [Execute_handlerActions env sinceNow now trg ub fltrS aac hth hen hload] at hmem
  have hsub := (invokedActions_sublist env fltrS (env.SortActions aac) [] ub).subset hmem
  obtain ⟨a0, ha0, rfl⟩ := List.mem_map.1 hsub
  obtain ⟨h1, h2, h3, h4⟩ := patchBalance_spec env a0
  refine ⟨a0, ha0, h1, h2, h3, fun h => ?_⟩
  have h5 := h4 h
  refine ⟨h5, fun hn => ?_, fun hn => ?_⟩
  · rw [h5, hn]; rfl
  · rw [h5]
    cases hb : a0.Balance with
    | none => rfl
    | some b => rw [hb] at hn; exact hn

/-- Scenario 4 on the deployment: the top-up action has no balance predicate
and an empty expiration string; the handler is handed the empty predicate,
whose expiration is absent. -/
theorem Execute_handler_balance_witness :
    (demoTrigger "U1").throttled ⟨7⟩ = false ∧
    (∀ acc, some demoAccount = some acc → acc.Disabled = false) ∧
    demoEnv.GetActions (demoTrigger "U1").ActionsID false demoEnv.NonTransactional =
      .ok [mkAction "ACT_TOPUP" "*topup" 10] ∧
    Event.ActionFunc (some demoAccount)
        { mkAction "ACT_TOPUP" "*topup" 10 with Balance := some BalanceFilter.empty }
        [{ mkAction "ACT_TOPUP" "*topup" 10 with Balance := some BalanceFilter.empty }] ∈
      ((demoTrigger "U1").Execute demoEnv ⟨7⟩ ⟨8⟩ (some demoAccount) demoFilterS).trace ∧
    ∃ a0, a0 ∈ demoEnv.SortActions [mkAction "ACT_TOPUP" "*topup" 10] ∧
      ({ mkAction "ACT_TOPUP" "*topup" 10 with Balance := some BalanceFilter.empty } : Action) =
        { a0 with Balance := some BalanceFilter.empty } ∧
      (∃ b, some BalanceFilter.empty = some b) ∧
      (∀ t, a0.ExpirationString ≠ "" →
        demoEnv.ParseTimeDetectLayout a0.ExpirationString demoEnv.DefaultTimezone = .ok t →
        some BalanceFilter.empty =
          some { a0.Balance.getD BalanceFilter.empty with ExpirationDate := some t }) ∧
      ((a0.ExpirationString = "" ∨
          ∃ e, demoEnv.ParseTimeDetectLayout a0.ExpirationString demoEnv.DefaultTimezone =
            .error e) →
        some BalanceFilter.empty = some (a0.Balance.getD BalanceFilter.empty) ∧
        (a0.Balance = none → some BalanceFilter.empty = some BalanceFilter.empty) ∧
        ((a0.Balance.bind fun b => b.ExpirationDate) = none →
          ((some BalanceFilter.empty).bind fun b => b.ExpirationDate) = none)) :=
  ⟨by decide, by intro acc h; cases h; rfl, rfl, by decide,
    Execute_handler_balance demoEnv ⟨7⟩ ⟨8⟩ (demoTrigger "U1") (some demoAccount) demoFilterS
      [mkAction "ACT_TOPUP" "*topup" 10] (some demoAccount)
      { mkAction "ACT_TOPUP" "*topup" 10 with Balance := some BalanceFilter.empty }
      [{ mkAction "ACT_TOPUP" "*topup" 10 with Balance := some BalanceFilter.empty }]
      (by decide) (by intro acc h; cases h; rfl) rfl (by decide)⟩

/-! ## The library sort: rearrangements -/

theorem rangePerm_refl (a b : Nat) (f : Nat → ℚ) : RangePerm a b f f :=
  ⟨Equiv.refl _, fun _ _ => rfl, fun _ => rfl⟩

theorem rangePerm_trans {a b : Nat} {f g h : Nat → ℚ}
    (h1 : RangePerm a b f g) (h2 : RangePerm a b g h) : RangePerm a b f h := by
  obtain ⟨σ, hσ, hg⟩ := h1
  obtain ⟨τ, hτ, hh⟩ := h2
  refine ⟨τ.trans σ, fun k hk => ?_, fun k => ?_⟩
  · simp [hτ k hk, hσ k hk]
  · simp [hh k, hg (τ k)]

theorem rangePerm_mono {a b a1 b1 : Nat} {f g : Nat → ℚ} (ha : a1 ≤ a) (hb : b ≤ b1)
    (h : RangePerm a b f g) : RangePerm a1 b1 f g := by
  obtain ⟨σ, hσ, hg⟩ := h
  exact ⟨σ, fun k hk => hσ k (fun hin => hk ⟨Nat.le_trans ha hin.1, Nat.lt_of_lt_of_le hin.2 hb⟩),
    hg⟩

theorem RangePerm.outside {a b : Nat} {f g : Nat → ℚ} (h : RangePerm a b f g) (k : Nat)
    (hk : ¬ (a ≤ k ∧ k < b)) : g k = f k := by
  obtain ⟨σ, hσ, hg⟩ := h
  rw [hg k, hσ k hk]

/-- What holds of every key of the range holds of every key of the range
after a rearrangement. -/
theorem RangePerm.forall {a b : Nat} {f g : Nat → ℚ} (h : RangePerm a b f g) (P : ℚ → Prop)
    (hP : ∀ k, a ≤ k → k < b → P (f k)) : ∀ k, a ≤ k → k < b → P (g k) := by
  obtain ⟨σ, hσ, hg⟩ := h
  intro k hak hkb
  rw [hg k]
  by_cases hin : a ≤ σ k ∧ σ k < b
  · exact hP _ hin.1 hin.2
  · have h1 : σ (σ k) = σ k := hσ _ hin
    have h2 : σ k = k := σ.injective h1
    rw [h2]
    exact hP k hak hkb

theorem rangePerm_swap (a b : Nat) (f : Nat → ℚ) (i j : Nat)
    (hi : a ≤ i ∧ i < b) (hj : a ≤ j ∧ j < b) :
    RangePerm a b f (fun k => f (Equiv.swap i j k)) := by
  refine ⟨Equiv.swap i j, fun k hk => ?_, fun _ => rfl⟩
  apply Equiv.swap_apply_of_ne_of_ne
  · rintro rfl; exact hk hi
  · rintro rfl; exact hk hj

theorem Reach.refl {α : Type} (I : SortInterface α) (key : α → Nat → ℚ) (a b : Nat) (d : α) :
    Reach I key a b d d := ⟨rfl, rangePerm_refl _ _ _⟩

theorem Reach.trans {α : Type} {I : SortInterface α} {key : α → Nat → ℚ} {a b : Nat}
    {d d1 d2 : α} (h1 : Reach I key a b d d1) (h2 : Reach I key a b d1 d2) :
    Reach I key a b d d2 := ⟨h2.1.trans h1.1, rangePerm_trans h1.2 h2.2⟩

theorem Reach.mono {α : Type} {I : SortInterface α} {key : α → Nat → ℚ} {a b a1 b1 : Nat}
    {d d1 : α} (ha : a1 ≤ a) (hb : b ≤ b1) (h : Reach I key a b d d1) :
    Reach I key a1 b1 d d1 := ⟨h.1, rangePerm_mono ha hb h.2⟩

theorem Reach.swap {α : Type} {I : SortInterface α} {key : α → Nat → ℚ} (M : Keyed I key)
    (a b : Nat) (d : α) (i j : Nat) (hb : b ≤ I.Len d)
    (hi : a ≤ i ∧ i < b) (hj : a ≤ j ∧ j < b) :
    Reach I key a b d (I.Swap d i j) := by
  refine ⟨M.len_swap d i j, ?_⟩
  have h := rangePerm_swap a b (key d) i j hi hj
  have e : key (I.Swap d i j) = fun k => key d (Equiv.swap i j k) := by
    funext k
    exact M.key_swap d i j k (Nat.lt_of_lt_of_le hi.2 hb) (Nat.lt_of_lt_of_le hj.2 hb)
  rw [e]
  exact h

theorem Keyed.key_left {α : Type} {I : SortInterface α} {key : α → Nat → ℚ} (M : Keyed I key)
    (d : α) (i j : Nat) (hi : i < I.Len d) (hj : j < I.Len d) :
    key (I.Swap d i j) i = key d j := by
  rw [M.key_swap d i j i hi hj, Equiv.swap_apply_left]

theorem Keyed.key_right {α : Type} {I : SortInterface α} {key : α → Nat → ℚ} (M : Keyed I key)
    (d : α) (i j : Nat) (hi : i < I.Len d) (hj : j < I.Len d) :
    key (I.Swap d i j) j = key d i := by
  rw [M.key_swap d i j j hi hj, Equiv.swap_apply_right]

theorem Keyed.key_other {α : Type} {I : SortInterface α} {key : α → Nat → ℚ} (M : Keyed I key)
    (d : α) (i j k : Nat) (hi : i < I.Len d) (hj : j < I.Len d) (hki : k ≠ i) (hkj : k ≠ j) :
    key (I.Swap d i j) k = key d k := by
  rw [M.key_swap d i j k hi hj, Equiv.swap_apply_of_ne_of_ne hki hkj]

theorem Keyed.less_false {α : Type} {I : SortInterface α} {key : α → Nat → ℚ} (M : Keyed I key)
    (d : α) (i j : Nat) (hi : i < I.Len d) (hj : j < I.Len d) :
    I.Less d i j = false ↔ key d j ≤ key d i := by
  rw [← Bool.not_eq_true, M.less_iff d i j hi hj, not_lt]

/-- Keys in ascending order pair by pair are in ascending order. -/
theorem SortedOn.le {f : Nat → ℚ} {a b : Nat} (h : SortedOn f a b) :
    ∀ i j, a ≤ i → i ≤ j → j < b → f i ≤ f j := by
  intro i j hai hij hjb
  induction j with
  | zero =>
    have : i = 0 := by omega
    subst this
    exact le_refl _
  | succ j ih =>
    by_cases hi : i = j + 1
    · subst hi; exact le_refl _
    · exact le_trans (ih (by omega) (by omega)) (h j (by omega) hjb)

/-! ## The library sort: insertion sort -/

/-- The inner loop of the insertion sort: when the keys from `a` up to `i` are
in order except possibly at the pair ending in `j`, they are in order
afterwards, and only the elements from `a` up to `i` have moved. -/
theorem insertionShift_spec {α : Type} {I : SortInterface α} {key : α → Nat → ℚ}
    (M : Keyed I key) (a i : Nat) :
    ∀ (j : Nat) (d : α), a ≤ j → j ≤ i → i < I.Len d →
      (∀ k, a ≤ k → k + 1 ≤ i → k + 1 ≠ j → key d k ≤ key d (k + 1)) →
      (a < j → j + 1 ≤ i → key d (j - 1) ≤ key d (j + 1)) →
      Reach I key a (i + 1) d (insertionShift I a j d) ∧
      ∀ k, a ≤ k → k + 1 ≤ i →
        key (insertionShift I a j d) k ≤ key (insertionShift I a j d) (k + 1) := by
  intro j
  induction j with
  | zero =>
    intro d _ _ _ h1 _
    exact ⟨Reach.refl _ _ _ _ _, fun k hk hki => h1 k hk hki (Nat.succ_ne_zero k)⟩
  | succ j ih =>
    intro d haj hji hid h1 h2
    unfold insertionShift
    have hj1 : j + 1 < I.Len d := by omega
    have hj0 : j < I.Len d := by omega
    by_cases hc : (decide (a < j + 1) && I.Less d (j + 1) j) = true
    · rw [if_pos hc]
      simp only [Bool.and_eq_true, decide_eq_true_eq] at hc
      obtain ⟨haj1, hless⟩ := hc
      have hlt : key d (j + 1) < key d j := (M.less_iff d _ _ hj1 hj0).1 hless
      have hlen : I.Len (I.Swap d (j + 1) j) = I.Len d := M.len_swap _ _ _
      have key1 := ih (I.Swap d (j + 1) j) (by omega) (by omega) (by rw [hlen]; exact hid)
        (by
          intro k hak hki hkj
          by_cases hkj0 : k = j
          · subst hkj0
            rw [M.key_right d _ _ hj1 hj0, M.key_left d _ _ hj1 hj0]
            exact le_of_lt hlt
          · by_cases hkj1 : k = j + 1
            · subst hkj1
              rw [M.key_left d _ _ hj1 hj0,
                M.key_other d _ _ (j + 1 + 1) hj1 hj0 (by omega) (by omega)]
              have := h2 haj1 hki
              simpa using this
            · rw [M.key_other d _ _ k hj1 hj0 hkj1 hkj0,
                M.key_other d _ _ (k + 1) hj1 hj0 (by omega) (by omega)]
              exact h1 k hak hki (by omega))
        (by
          intro haj2 hj1i
          rw [M.key_other d _ _ (j - 1) hj1 hj0 (by omega) (by omega),
            M.key_left d _ _ hj1 hj0]
          have := h1 (j - 1) (by omega) (by omega) (by omega)
          have e : j - 1 + 1 = j := by omega
          rw [e] at this
          exact this)
      refine ⟨Reach.trans (Reach.swap M a (i + 1) d (j + 1) j (by omega) ⟨by omega, by omega⟩
        ⟨by omega, by omega⟩) key1.1, key1.2⟩
    · rw [if_neg hc]
      refine ⟨Reach.refl _ _ _ _ _, fun k hak hki => ?_⟩
      by_cases hkj : k = j
      · subst hkj
        simp only [Bool.and_eq_true, decide_eq_true_eq, not_and, Bool.not_eq_true] at hc
        exact (M.less_false d _ _ hj1 hj0).1 (hc (by omega))
      · exact h1 k hak hki (by omega)

/-- The outer loop of the insertion sort from index `start` on. -/
theorem insertionLoop_spec {α : Type} {I : SortInterface α} {key : α → Nat → ℚ}
    (M : Keyed I key) (a : Nat) :
    ∀ (m start : Nat) (d : α), a < start → start + m ≤ I.Len d →
      SortedOn (key d) a start →
      Reach I key a (start + m) d
        ((List.range' start m).foldl (fun d i => insertionShift I a i d) d) ∧
      SortedOn (key ((List.range' start m).foldl (fun d i => insertionShift I a i d) d))
        a (start + m) := by
  intro m
  induction m with
  | zero =>
    intro start d _ _ h
    exact ⟨Reach.refl _ _ _ _ _, h⟩
  | succ m ih =>
    intro start d hstart hlen h
    have hs := insertionShift_spec M a start start d (by omega) (Nat.le_refl _) (by omega)
      (fun k hak hk hne => h k hak (by omega)) (fun _ hle => absurd hle (by omega))
    have key1 := ih (start + 1) (insertionShift I a start d) (by omega)
      (by rw [hs.1.1]; omega) (fun k hak hk => hs.2 k hak (by omega))
    simp only [List.range', List.foldl_cons]
    have e : start + (m + 1) = start + 1 + m := by omega
    rw [e]
    exact ⟨Reach.trans (Reach.mono (Nat.le_refl _) (by omega) hs.1) key1.1, key1.2⟩

/-- Function `insertionSort(data, a, b)` sorts the range and moves nothing
else. -/
theorem insertionSort_spec {α : Type} {I : SortInterface α} {key : α → Nat → ℚ}
    (M : Keyed I key) (d : α) (a b : Nat) (hb : b ≤ I.Len d) :
    Reach I key a b d (insertionSort I d a b) ∧ SortedOn (key (insertionSort I d a b)) a b := by
  unfold insertionSort
  by_cases h : a + 1 ≤ b
  · have key1 := insertionLoop_spec M a (b - (a + 1)) (a + 1) d (by omega) (by omega)
      (fun k hak hk => absurd hk (by omega))
    have e : a + 1 + (b - (a + 1)) = b := by omega
    rw [e] at key1
    exact key1
  · have e : b - (a + 1) = 0 := by omega
    rw [e]
    exact ⟨Reach.refl _ _ _ _ _, fun k hak hk => absurd hk (by omega)⟩

/-! ## The library sort: heap sort -/

/-- Function `siftDown`: when every node from `lo` on but `root` meets the heap
condition, and the children of `root` are not above the parent of `root`,
then afterwards every node from `lo` on meets the heap condition; only
elements of the heap from `root` on have moved. -/
theorem siftDown_spec {α : Type} {I : SortInterface α} {key : α → Nat → ℚ}
    (M : Keyed I key) (first hi lo : Nat) :
    ∀ (fuel root : Nat) (d : α), first + hi ≤ I.Len d → hi ≤ root + fuel → lo ≤ root →
      (∀ c, lo ≤ c → c ≠ root → HeapAt (key d) first hi c) →
      (∀ c, lo ≤ c → (root = 2 * c + 1 ∨ root = 2 * c + 2) →
        (2 * root + 1 < hi → key d (first + (2 * root + 1)) ≤ key d (first + c)) ∧
        (2 * root + 2 < hi → key d (first + (2 * root + 2)) ≤ key d (first + c))) →
      Reach I key (first + root) (first + hi) d (siftDown I first hi fuel root d) ∧
      ∀ c, lo ≤ c → HeapAt (key (siftDown I first hi fuel root d)) first hi c := by
  intro fuel
  induction fuel with
  | zero =>
    intro root d _ hfuel _ h1 _
    refine ⟨Reach.refl _ _ _ _ _, fun c hc => ?_⟩
    by_cases hcr : c = root
    · subst hcr
      exact ⟨fun h => absurd h (by omega), fun h => absurd h (by omega)⟩
    · exact h1 c hc hcr
  | succ fuel ih =>
    intro root d hlen hfuel hlo h1 h2
    unfold siftDown
    by_cases hleaf : hi ≤ 2 * root + 1
    · rw [if_pos hleaf]
      refine ⟨Reach.refl _ _ _ _ _, fun c hc => ?_⟩
      by_cases hcr : c = root
      · subst hcr
        exact ⟨fun h => absurd h (by omega), fun h => absurd h (by omega)⟩
      · exact h1 c hc hcr
    · rw [if_neg hleaf]
      dsimp only
      have hchild : ∃ child,
          (if (decide (2 * root + 2 < hi) &&
              I.Less d (first + (2 * root + 1)) (first + (2 * root + 1) + 1)) = true
            then 2 * root + 2 else 2 * root + 1) = child ∧
          (child = 2 * root + 1 ∨ child = 2 * root + 2) ∧ child < hi ∧
          key d (first + (2 * root + 1)) ≤ key d (first + child) ∧
          (2 * root + 2 < hi → key d (first + (2 * root + 2)) ≤ key d (first + child)) := by
        have e : first + (2 * root + 1) + 1 = first + (2 * root + 2) := by omega
        by_cases hc : (decide (2 * root + 2 < hi) &&
            I.Less d (first + (2 * root + 1)) (first + (2 * root + 1) + 1)) = true
        · rw [if_pos hc]
          simp only [Bool.and_eq_true, decide_eq_true_eq] at hc
          obtain ⟨hr, hless⟩ := hc
          rw [e] at hless
          have := (M.less_iff d _ _ (by omega) (by omega)).1 hless
          exact ⟨_, rfl, Or.inr rfl, hr, le_of_lt this, fun _ => le_refl _⟩
        · rw [if_neg hc]
          simp only [Bool.and_eq_true, decide_eq_true_eq, not_and, Bool.not_eq_true] at hc
          refine ⟨_, rfl, Or.inl rfl, by omega, le_refl _, fun hr => ?_⟩
          have := hc hr
          rw [e] at this
          exact (M.less_false d _ _ (by omega) (by omega)).1 this
      obtain ⟨child, he, hcases, hchi, hleft, hright⟩ := hchild
      rw [he]
      have hroot_lt : first + root < I.Len d := by omega
      have hchild_lt : first + child < I.Len d := by omega
      by_cases hl : I.Less d (first + root) (first + child) = true
      · have hcond : ¬ (!I.Less d (first + root) (first + child)) = true := by simp [hl]
        rw [if_neg hcond]
        have hlt : key d (first + root) < key d (first + child) :=
          (M.less_iff d _ _ hroot_lt hchild_lt).1 hl
        have hkr : key (I.Swap d (first + root) (first + child)) (first + root) =
            key d (first + child) := M.key_left d _ _ hroot_lt hchild_lt
        have hkc : key (I.Swap d (first + root) (first + child)) (first + child) =
            key d (first + root) := M.key_right d _ _ hroot_lt hchild_lt
        have hk : ∀ x, x ≠ root → x ≠ child →
            key (I.Swap d (first + root) (first + child)) (first + x) = key d (first + x) :=
          fun x hx1 hx2 => M.key_other d _ _ _ hroot_lt hchild_lt (by omega) (by omega)
        have key1 := ih child (I.Swap d (first + root) (first + child))
          (by rw [M.len_swap]; exact hlen) (by omega) (by omega)
          (by
            intro c hc hcc
            by_cases hcr : c = root
            · subst hcr
              constructor
              · intro hlt1
                rw [hkr]
                rcases hcases with h | h
                · subst h; rw [hkc]; exact le_of_lt hlt
                · rw [hk _ (by omega) (by omega)]; exact hleft
              · intro hlt2
                rw [hkr]
                rcases hcases with h | h
                · rw [hk _ (by omega) (by omega)]; exact hright hlt2
                · subst h; rw [hkc]; exact le_of_lt hlt
            · have hH := h1 c hc hcr
              constructor
              · intro hlt1
                rw [hk c hcr hcc]
                by_cases hp : 2 * c + 1 = root
                · rw [hp, hkr]
                  have := h2 c hc (Or.inl hp.symm)
                  rcases hcases with h | h
                  · subst h; exact this.1 hchi
                  · subst h; exact this.2 hchi
                · rw [hk _ hp (by omega)]
                  exact hH.1 hlt1
              · intro hlt2
                rw [hk c hcr hcc]
                by_cases hp : 2 * c + 2 = root
                · rw [hp, hkr]
                  have := h2 c hc (Or.inr hp.symm)
                  rcases hcases with h | h
                  · subst h; exact this.1 hchi
                  · subst h; exact this.2 hchi
                · rw [hk _ hp (by omega)]
                  exact hH.2 hlt2)
          (by
            intro c hc hpar
            have hcr : c = root := by omega
            subst hcr
            have hH := h1 child (by omega) (by omega)
            rw [hkr]
            constructor
            · intro hlt1
              rw [hk _ (by omega) (by omega)]
              exact hH.1 hlt1
            · intro hlt2
              rw [hk _ (by omega) (by omega)]
              exact hH.2 hlt2)
        refine ⟨Reach.trans (Reach.swap M _ _ d _ _ hlen ⟨by omega, by omega⟩
          ⟨by omega, by omega⟩) (Reach.mono (by omega) (Nat.le_refl _) key1.1), key1.2⟩
      · have hcond : (!I.Less d (first + root) (first + child)) = true := by simp [hl]
        rw [if_pos hcond]
        have hge : key d (first + child) ≤ key d (first + root) :=
          (M.less_false d _ _ hroot_lt hchild_lt).1 (by simpa using hl)
        refine ⟨Reach.refl _ _ _ _ _, fun c hc => ?_⟩
        by_cases hcr : c = root
        · subst hcr
          exact ⟨fun _ => le_trans hleft hge, fun h => le_trans (hright h) hge⟩
        · exact h1 c hc hcr

/-- In a heap no key is above the key of the root. -/
theorem heap_root_max (f : Nat → ℚ) (first n : Nat) (h : ∀ c, HeapAt f first n c) :
    ∀ x, x < n → f (first + x) ≤ f first := by
  intro x
  induction x using Nat.strong_induction_on with
  | _ x ih =>
    intro hx
    by_cases h0 : x = 0
    · subst h0; exact le_refl _
    · have hpar : x = 2 * ((x - 1) / 2) + 1 ∨ x = 2 * ((x - 1) / 2) + 2 := by omega
      have hH := h ((x - 1) / 2)
      have hrec := ih ((x - 1) / 2) (by omega) (by omega)
      rcases hpar with hp | hp
      · have := hH.1 (by omega)
        rw [← hp] at this
        exact le_trans this hrec
      · have := hH.2 (by omega)
        rw [← hp] at this
        exact le_trans this hrec

/-- The first loop of `heapSort` builds the heap, node by node from the last
inner node down to the root. -/
theorem heapBuild_spec {α : Type} {I : SortInterface α} {key : α → Nat → ℚ}
    (M : Keyed I key) (first hi : Nat) :
    ∀ (n : Nat) (d : α), first + hi ≤ I.Len d →
      (∀ c, n ≤ c → HeapAt (key d) first hi c) →
      Reach I key first (first + hi) d
        ((List.range n).reverse.foldl (fun d i => siftDown I first hi (hi + 1) i d) d) ∧
      ∀ c, HeapAt
        (key ((List.range n).reverse.foldl (fun d i => siftDown I first hi (hi + 1) i d) d))
        first hi c := by
  intro n
  induction n with
  | zero =>
    intro d _ h
    exact ⟨Reach.refl _ _ _ _ _, fun c => h c (Nat.zero_le c)⟩
  | succ n ih =>
    intro d hlen h
    rw [List.range_succ, List.reverse_append, List.reverse_singleton, List.singleton_append,
      List.foldl_cons]
    have hs := siftDown_spec M first hi n (hi + 1) n d hlen (by omega) (Nat.le_refl _)
      (fun c hc hne => h c (by omega)) (fun c hc hpar => absurd hpar (by omega))
    have key1 := ih (siftDown I first hi (hi + 1) n d) (by rw [hs.1.1]; exact hlen) hs.2
    exact ⟨Reach.trans (Reach.mono (by omega) (Nat.le_refl _) hs.1) key1.1, key1.2⟩

/-- The second loop of `heapSort` moves the root of the heap behind the heap,
turn by turn: the keys behind the heap are in order and none is below a key
of the heap. -/
theorem heapPop_spec {α : Type} {I : SortInterface α} {key : α → Nat → ℚ}
    (M : Keyed I key) (first hi : Nat) :
    ∀ (n : Nat) (d : α), n ≤ hi → first + hi ≤ I.Len d →
      (∀ c, HeapAt (key d) first n c) →
      SortedOn (key d) (first + n) (first + hi) →
      (∀ x y, x < n → n ≤ y → y < hi → key d (first + x) ≤ key d (first + y)) →
      Reach I key first (first + hi) d
        ((List.range n).reverse.foldl
          (fun d i => siftDown I first i (hi + 1) 0 (I.Swap d first (first + i))) d) ∧
      SortedOn
        (key ((List.range n).reverse.foldl
          (fun d i => siftDown I first i (hi + 1) 0 (I.Swap d first (first + i))) d))
        first (first + hi) := by
  intro n
  induction n with
  | zero =>
    intro d _ _ _ hs _
    exact ⟨Reach.refl _ _ _ _ _, hs⟩
  | succ n ih =>
    intro d hn hlen hheap hsorted hcross
    rw [List.range_succ, List.reverse_append, List.reverse_singleton, List.singleton_append,
      List.foldl_cons]
    have hf : first < I.Len d := by omega
    have hfn : first + n < I.Len d := by omega
    have hlen1 : I.Len (I.Swap d first (first + n)) = I.Len d := M.len_swap _ _ _
    have htop : ∀ x, x < n + 1 → key d (first + x) ≤ key d first :=
      heap_root_max (key d) first (n + 1) hheap
    have hk0 : key (I.Swap d first (first + n)) first = key d (first + n) :=
      M.key_left d _ _ hf hfn
    have hkn : key (I.Swap d first (first + n)) (first + n) = key d first :=
      M.key_right d _ _ hf hfn
    have hk : ∀ x, x ≠ 0 → x ≠ n →
        key (I.Swap d first (first + n)) (first + x) = key d (first + x) :=
      fun x hx1 hx2 => M.key_other d _ _ _ hf hfn (by omega) (by omega)
    have hs := siftDown_spec M first n 0 (hi + 1) 0 (I.Swap d first (first + n))
      (by rw [hlen1]; omega) (by omega) (Nat.le_refl _)
      (by
        intro c _ hc0
        have hH := hheap c
        constructor
        · intro h
          rw [hk _ (by omega) (by omega), hk c hc0 (by omega)]
          exact hH.1 (by omega)
        · intro h
          rw [hk _ (by omega) (by omega), hk c hc0 (by omega)]
          exact hH.2 (by omega))
      (fun c _ hpar => absurd hpar (by omega))
    have hout : ∀ k, ¬ (first + 0 ≤ k ∧ k < first + n) →
        key (siftDown I first n (hi + 1) 0 (I.Swap d first (first + n))) k =
          key (I.Swap d first (first + n)) k := fun k hk1 => hs.1.2.outside k hk1
    have key1 := ih (siftDown I first n (hi + 1) 0 (I.Swap d first (first + n))) (by omega)
      (by rw [hs.1.1, hlen1]; exact hlen) (fun c => hs.2 c (Nat.zero_le c))
      (by
        intro k hk1 hk2
        rw [hout k (by omega), hout (k + 1) (by omega)]
        by_cases hkn1 : k = first + n
        · subst hkn1
          rw [hkn]
          have e : first + n + 1 = first + (n + 1) := by omega
          rw [e, hk _ (by omega) (by omega)]
          exact hcross 0 (n + 1) (by omega) (by omega) (by omega)
        · obtain ⟨x, rfl⟩ : ∃ x, k = first + x := ⟨k - first, by omega⟩
          have e2 : first + x + 1 = first + (x + 1) := by omega
          rw [e2, hk _ (by omega) (by omega), hk _ (by omega) (by omega)]
          have := hsorted (first + x) (by omega) (by omega)
          rw [e2] at this
          exact this)
      (by
        intro x y hx hy hyhi
        rw [hout (first + y) (by omega)]
        have hall : ∀ k, first + 0 ≤ k → k < first + n →
            key (I.Swap d first (first + n)) k ≤ key (I.Swap d first (first + n)) (first + y) := by
          intro k hk1 hk2
          obtain ⟨z, rfl⟩ : ∃ z, k = first + z := ⟨k - first, by omega⟩
          by_cases hyn : y = n
          · subst hyn
            rw [hkn]
            by_cases hk0' : z = 0
            · subst hk0'
              rw [Nat.add_zero, hk0]
              exact htop y (by omega)
            · rw [hk _ (by omega) (by omega)]
              exact htop _ (by omega)
          · rw [hk y (by omega) hyn]
            by_cases hk0' : z = 0
            · subst hk0'
              rw [Nat.add_zero, hk0]
              exact hcross n y (by omega) (by omega) hyhi
            · rw [hk _ (by omega) (by omega)]
              exact hcross _ y (by omega) (by omega) hyhi
        exact hs.1.2.forall
          (fun v => v ≤ key (I.Swap d first (first + n)) (first + y)) hall (first + x)
          (by omega) (by omega))
    refine ⟨?_, key1.2⟩
    have hswap : Reach I key first (first + hi) d (I.Swap d first (first + n)) :=
      Reach.swap M _ _ d _ _ hlen ⟨by omega, by omega⟩ ⟨by omega, by omega⟩
    exact Reach.trans (Reach.trans hswap (Reach.mono (by omega) (by omega) hs.1)) key1.1

/-- Function `heapSort(data, a, b)` sorts the range and moves nothing else. -/
theorem heapSort_spec {α : Type} {I : SortInterface α} {key : α → Nat → ℚ}
    (M : Keyed I key) (d : α) (a b : Nat) (hab : a ≤ b) (hb : b ≤ I.Len d) :
    Reach I key a b d (heapSort I d a b) ∧ SortedOn (key (heapSort I d a b)) a b := by
  unfold heapSort
  dsimp only
  have e : a + (b - a) = b := by omega
  have h1 := heapBuild_spec M a (b - a) ((b - a - 1) / 2 + 1) d (by omega)
    (fun c hc => ⟨fun h => absurd h (by omega), fun h => absurd h (by omega)⟩)
  have h2 := heapPop_spec M a (b - a) (b - a)
    ((List.range ((b - a - 1) / 2 + 1)).reverse.foldl
      (fun d i => siftDown I a (b - a) (b - a + 1) i d) d)
    (Nat.le_refl _) (by rw [h1.1.1]; omega) h1.2
    (fun k hk1 hk2 => absurd hk2 (by omega))
    (fun x y _ hy hy2 => absurd hy2 (by omega))
  rw [e] at h1 h2
  exact ⟨Reach.trans h1.1 h2.1, h2.2⟩

/-! ## The library sort: partition -/

/-- The loop `for i <= j && p(i) { i++ }` stops at the first index from `i` on
that is beyond `j` or fails `p`. -/
theorem scanUp_spec (p : Nat → Bool) (j : Nat) :
    ∀ (fuel i : Nat), j + 1 ≤ i + fuel →
      i ≤ scanUp p j fuel i ∧ (i ≤ j + 1 → scanUp p j fuel i ≤ j + 1) ∧
      (∀ k, i ≤ k → k < scanUp p j fuel i → p k = true) ∧
      (scanUp p j fuel i ≤ j → p (scanUp p j fuel i) = false) := by
  intro fuel
  induction fuel with
  | zero =>
    intro i h
    exact ⟨Nat.le_refl _, fun h1 => h1, fun k h1 h2 => absurd h2 (by simp only [scanUp]; omega),
      fun h1 => absurd h1 (by simp only [scanUp]; omega)⟩
  | succ fuel ih =>
    intro i h
    unfold scanUp
    by_cases hc : (decide (i ≤ j) && p i) = true
    · rw [if_pos hc]
      simp only [Bool.and_eq_true, decide_eq_true_eq] at hc
      obtain ⟨h1, h2, h3, h4⟩ := ih (i + 1) (by omega)
      refine ⟨by omega, fun _ => h2 (by omega), fun k hk1 hk2 => ?_, h4⟩
      by_cases hki : k = i
      · subst hki; exact hc.2
      · exact h3 k (by omega) hk2
    · rw [if_neg hc]
      simp only [Bool.and_eq_true, decide_eq_true_eq, not_and, Bool.not_eq_true] at hc
      exact ⟨Nat.le_refl _, fun h1 => h1, fun k h1 h2 => absurd h2 (by omega), hc⟩

/-- The loop `for i <= j && p(j) { j-- }` stops at the first index from `j`
down that is below `i` or fails `p`. -/
theorem scanDown_spec (p : Nat → Bool) (i : Nat) (hi : 1 ≤ i) :
    ∀ (fuel j : Nat), j + 1 ≤ i + fuel →
      scanDown p i fuel j ≤ j ∧ (i ≤ j + 1 → i ≤ scanDown p i fuel j + 1) ∧
      (∀ k, scanDown p i fuel j < k → k ≤ j → p k = true) ∧
      (i ≤ scanDown p i fuel j → p (scanDown p i fuel j) = false) := by
  intro fuel
  induction fuel with
  | zero =>
    intro j h
    exact ⟨Nat.le_refl _, fun h1 => h1, fun k h1 h2 => absurd h2 (by simp only [scanDown] at h1; omega),
      fun h1 => absurd h1 (by simp only [scanDown]; omega)⟩
  | succ fuel ih =>
    intro j h
    unfold scanDown
    by_cases hc : (decide (i ≤ j) && p j) = true
    · rw [if_pos hc]
      simp only [Bool.and_eq_true, decide_eq_true_eq] at hc
      obtain ⟨h1, h2, h3, h4⟩ := ih (j - 1) (by omega)
      refine ⟨by omega, fun _ => h2 (by omega), fun k hk1 hk2 => ?_, h4⟩
      by_cases hkj : k = j
      · subst hkj; exact hc.2
      · exact h3 k hk1 (by omega)
    · rw [if_neg hc]
      simp only [Bool.and_eq_true, decide_eq_true_eq, not_and, Bool.not_eq_true] at hc
      exact ⟨Nat.le_refl _, fun h1 => h1, fun k h1 h2 => absurd h2 (by omega), hc⟩

/-- The `for` loop of `partition`: with the pivot at `a`, the keys below the
pivot before `i` and the keys not below it after `j`, the loop ends with `j`
the last index of a key below the pivot. -/
theorem partitionLoop_spec {α : Type} {I : SortInterface α} {key : α → Nat → ℚ}
    (M : Keyed I key) (a b : Nat) (p : ℚ) :
    ∀ (fuel : Nat) (d : α) (i j : Nat), b ≤ I.Len d → a + 1 ≤ i → j + 1 ≤ b → i ≤ j + 1 →
      j + 2 ≤ i + fuel → key d a = p →
      (∀ k, a + 1 ≤ k → k < i → key d k < p) →
      (∀ k, j < k → k < b → p ≤ key d k) →
      Reach I key (a + 1) b d (partitionLoop I a fuel d i j).1 ∧
      a ≤ (partitionLoop I a fuel d i j).2 ∧ (partitionLoop I a fuel d i j).2 < b ∧
      (∀ k, a + 1 ≤ k → k ≤ (partitionLoop I a fuel d i j).2 →
        key (partitionLoop I a fuel d i j).1 k < p) ∧
      (∀ k, (partitionLoop I a fuel d i j).2 < k → k < b →
        p ≤ key (partitionLoop I a fuel d i j).1 k) := by
  intro fuel
  induction fuel with
  | zero =>
    intro d i j _ _ _ h1 h2
    exact absurd h2 (by omega)
  | succ fuel ih =>
    intro d i j hlen hai hjb hij hfuel hpa hlow hhigh
    unfold partitionLoop
    dsimp only
    obtain ⟨u1, u2, u3, u4⟩ := scanUp_spec (fun i => I.Less d i a) j (j + 2) i (by omega)
    generalize scanUp (fun i => I.Less d i a) j (j + 2) i = i1 at u1 u2 u3 u4 ⊢
    have hi1 := u2 hij
    obtain ⟨v1, v2, v3, v4⟩ := scanDown_spec (fun j => !I.Less d j a) i1 (by omega) (j + 2) j
      (by omega)
    generalize scanDown (fun j => !I.Less d j a) i1 (j + 2) j = j1 at v1 v2 v3 v4 ⊢
    have hj1 := v2 hi1
    have hlow1 : ∀ k, a + 1 ≤ k → k < i1 → key d k < p := by
      intro k hk1 hk2
      by_cases hki : k < i
      · exact hlow k hk1 hki
      · have := u3 k (by omega) hk2
        rw [← hpa]
        exact (M.less_iff d k a (by omega) (by omega)).1 this
    have hhigh1 : ∀ k, j1 < k → k < b → p ≤ key d k := by
      intro k hk1 hk2
      by_cases hkj : j < k
      · exact hhigh k hkj hk2
      · have := v3 k hk1 (by omega)
        rw [← hpa]
        exact (M.less_false d k a (by omega) (by omega)).1 (by simpa using this)
    by_cases hc : j1 < i1
    · rw [if_pos hc]
      exact ⟨Reach.refl _ _ _ _ _, by omega, by omega, fun k hk1 hk2 => hlow1 k hk1 (by omega),
        hhigh1⟩
    · rw [if_neg hc]
      have hki1 : p ≤ key d i1 := by
        have := u4 (by omega)
        rw [← hpa]
        exact (M.less_false d i1 a (by omega) (by omega)).1 this
      have hkj1 : key d j1 < p := by
        have := v4 (by omega)
        rw [← hpa]
        exact (M.less_iff d j1 a (by omega) (by omega)).1 (by simpa using this)
      have hne : i1 ≠ j1 := by
        rintro rfl
        exact absurd hkj1 (not_lt.2 hki1)
      have hil : i1 < I.Len d := by omega
      have hjl : j1 < I.Len d := by omega
      have key1 := ih (I.Swap d i1 j1) (i1 + 1) (j1 - 1) (by rw [M.len_swap]; exact hlen)
        (by omega) (by omega) (by omega) (by omega)
        (by rw [M.key_other d _ _ a hil hjl (by omega) (by omega)]; exact hpa)
        (by
          intro k hk1 hk2
          by_cases hki : k = i1
          · subst hki
            rw [M.key_left d _ _ hil hjl]
            exact hkj1
          · rw [M.key_other d _ _ k hil hjl hki (by omega)]
            exact hlow1 k hk1 (by omega))
        (by
          intro k hk1 hk2
          by_cases hkj : k = j1
          · subst hkj
            rw [M.key_right d _ _ hil hjl]
            exact hki1
          · rw [M.key_other d _ _ k hil hjl (by omega) hkj]
            exact hhigh1 k (by omega) hk2)
      exact ⟨Reach.trans (Reach.swap M _ _ d _ _ hlen ⟨by omega, by omega⟩ ⟨by omega, by omega⟩)
        key1.1, key1.2⟩

/-- The last step of `partition`: the pivot, kept at `a`, changes places with
the last key below it. -/
theorem partition_finish {α : Type} {I : SortInterface α} {key : α → Nat → ℚ}
    (M : Keyed I key) (a b : Nat) (p : ℚ) (d : α) (j : Nat) (hlen : b ≤ I.Len d)
    (haj : a ≤ j) (hjb : j < b) (hpa : key d a = p)
    (hlow : ∀ k, a + 1 ≤ k → k ≤ j → key d k < p)
    (hhigh : ∀ k, j < k → k < b → p ≤ key d k) :
    Reach I key a b d (I.Swap d j a) ∧
    (∀ k, a ≤ k → k < j → key (I.Swap d j a) k < key (I.Swap d j a) j) ∧
    (∀ k, j < k → k < b → key (I.Swap d j a) j ≤ key (I.Swap d j a) k) := by
  have hjl : j < I.Len d := by omega
  have hal : a < I.Len d := by omega
  have hkj : key (I.Swap d j a) j = p := by rw [M.key_left d _ _ hjl hal]; exact hpa
  refine ⟨Reach.swap M _ _ d _ _ hlen ⟨haj, hjb⟩ ⟨Nat.le_refl _, by omega⟩, ?_, ?_⟩
  · intro k hk1 hk2
    rw [hkj]
    by_cases hka : k = a
    · subst hka
      rw [M.key_right d _ _ hjl hal]
      exact hlow j (by omega) (Nat.le_refl _)
    · rw [M.key_other d _ _ k hjl hal (by omega) hka]
      exact hlow k (by omega) (by omega)
  · intro k hk1 hk2
    rw [hkj, M.key_other d _ _ k hjl hal (by omega) (by omega)]
    exact hhigh k hk1 hk2

/-- Function `partition(data, a, b, pivot)`: the new place of the pivot is in
the range, the keys before it are below the pivot, the keys after it are not,
and only elements of the range have moved. -/
theorem partition_spec {α : Type} {I : SortInterface α} {key : α → Nat → ℚ}
    (M : Keyed I key) (d : α) (a b pivot : Nat) (hb : b ≤ I.Len d)
    (hpa : a ≤ pivot) (hpb : pivot < b) :
    Reach I key a b d (partition I d a b pivot).1 ∧
    a ≤ (partition I d a b pivot).2.1 ∧ (partition I d a b pivot).2.1 < b ∧
    (∀ k, a ≤ k → k < (partition I d a b pivot).2.1 →
      key (partition I d a b pivot).1 k <
        key (partition I d a b pivot).1 (partition I d a b pivot).2.1) ∧
    (∀ k, (partition I d a b pivot).2.1 < k → k < b →
      key (partition I d a b pivot).1 (partition I d a b pivot).2.1 ≤
        key (partition I d a b pivot).1 k) := by
  unfold partition
  dsimp only
  have hal : a < I.Len d := by omega
  have hpl : pivot < I.Len d := by omega
  have hr0 : Reach I key a b d (I.Swap d a pivot) :=
    Reach.swap M _ _ d _ _ hb ⟨Nat.le_refl _, by omega⟩ ⟨hpa, hpb⟩
  have hlen0 : I.Len (I.Swap d a pivot) = I.Len d := M.len_swap _ _ _
  generalize hd0 : I.Swap d a pivot = d0 at hr0 hlen0 ⊢
  have hlen : b ≤ I.Len d0 := by omega
  obtain ⟨u1, u2, u3, u4⟩ := scanUp_spec (fun i => I.Less d0 i a) (b - 1) (b + 2) (a + 1)
    (by omega)
  generalize scanUp (fun i => I.Less d0 i a) (b - 1) (b + 2) (a + 1) = i at u1 u2 u3 u4 ⊢
  have hi := u2 (by omega)
  obtain ⟨v1, v2, v3, v4⟩ := scanDown_spec (fun j => !I.Less d0 j a) i (by omega) (b + 2)
    (b - 1) (by omega)
  generalize scanDown (fun j => !I.Less d0 j a) i (b + 2) (b - 1) = j at v1 v2 v3 v4 ⊢
  have hj := v2 (by omega)
  have hlow : ∀ k, a + 1 ≤ k → k < i → key d0 k < key d0 a := by
    intro k hk1 hk2
    exact (M.less_iff d0 k a (by omega) (by omega)).1 (u3 k hk1 hk2)
  have hhigh : ∀ k, j < k → k < b → key d0 a ≤ key d0 k := by
    intro k hk1 hk2
    have := v3 k hk1 (by omega)
    exact (M.less_false d0 k a (by omega) (by omega)).1 (by simpa using this)
  by_cases hc : j < i
  · rw [if_pos hc]
    dsimp only
    have hf := partition_finish M a b (key d0 a) d0 j hlen (by omega) (by omega) rfl
      (fun k hk1 hk2 => hlow k hk1 (by omega)) hhigh
    exact ⟨Reach.trans hr0 hf.1, by omega, by omega, hf.2.1, hf.2.2⟩
  · rw [if_neg hc]
    dsimp only
    have hki : key d0 a ≤ key d0 i :=
      (M.less_false d0 i a (by omega) (by omega)).1 (u4 (by omega))
    have hkj : key d0 j < key d0 a := by
      have := v4 (by omega)
      exact (M.less_iff d0 j a (by omega) (by omega)).1 (by simpa using this)
    have hne : i ≠ j := by
      rintro rfl
      exact absurd hkj (not_lt.2 hki)
    have hil : i < I.Len d0 := by omega
    have hjl : j < I.Len d0 := by omega
    have hloop := partitionLoop_spec M a b (key d0 a) (b + 2) (I.Swap d0 i j) (i + 1) (j - 1)
      (by rw [M.len_swap]; exact hlen) (by omega) (by omega) (by omega) (by omega)
      (M.key_other d0 _ _ a hil hjl (by omega) (by omega))
      (by
        intro k hk1 hk2
        by_cases hki1 : k = i
        · subst hki1
          rw [M.key_left d0 _ _ hil hjl]
          exact hkj
        · rw [M.key_other d0 _ _ k hil hjl hki1 (by omega)]
          exact hlow k hk1 (by omega))
      (by
        intro k hk1 hk2
        by_cases hkj1 : k = j
        · subst hkj1
          rw [M.key_right d0 _ _ hil hjl]
          exact hki
        · rw [M.key_other d0 _ _ k hil hjl (by omega) hkj1]
          exact hhigh k (by omega) hk2)
    obtain ⟨w1, w2, w3, w4, w5⟩ := hloop
    generalize partitionLoop I a (b + 2) (I.Swap d0 i j) (i + 1) (j - 1) = r at w1 w2 w3 w4 w5 ⊢
    have hrs : Reach I key a b d0 (I.Swap d0 i j) :=
      Reach.swap M _ _ d0 _ _ hlen ⟨by omega, by omega⟩ ⟨by omega, by omega⟩
    have hr1 : Reach I key a b d0 r.1 :=
      Reach.trans hrs (Reach.mono (by omega) (Nat.le_refl _) w1)
    have hpa1 : key r.1 a = key d0 a := by
      rw [w1.2.outside a (by omega)]
      exact M.key_other d0 _ _ a hil hjl (by omega) (by omega)
    have hf := partition_finish M a b (key d0 a) r.1 r.2 (by rw [hr1.1]; exact hlen) w2 w3 hpa1
      w4 w5
    exact ⟨Reach.trans hr0 (Reach.trans hr1 hf.1), w2, w3, hf.2.1, hf.2.2⟩

/-- The `for` loop of `partitionEqual`: with the pivot at `a`, the keys not
above the pivot before `i` and the keys above it after `j`, the loop ends with
`i` the first index of a key above the pivot. -/
theorem partitionEqualLoop_spec {α : Type} {I : SortInterface α} {key : α → Nat → ℚ}
    (M : Keyed I key) (a b : Nat) (p : ℚ) :
    ∀ (fuel : Nat) (d : α) (i j : Nat), b ≤ I.Len d → a + 1 ≤ i → j + 1 ≤ b → i ≤ j + 1 →
      j + 2 ≤ i + fuel → key d a = p →
      (∀ k, a + 1 ≤ k → k < i → key d k ≤ p) →
      (∀ k, j < k → k < b → p < key d k) →
      Reach I key (a + 1) b d (partitionEqualLoop I a fuel d i j).1 ∧
      a + 1 ≤ (partitionEqualLoop I a fuel d i j).2 ∧
      (partitionEqualLoop I a fuel d i j).2 ≤ b ∧
      (∀ k, a + 1 ≤ k → k < (partitionEqualLoop I a fuel d i j).2 →
        key (partitionEqualLoop I a fuel d i j).1 k ≤ p) ∧
      (∀ k, (partitionEqualLoop I a fuel d i j).2 ≤ k → k < b →
        p < key (partitionEqualLoop I a fuel d i j).1 k) := by
  intro fuel
  induction fuel with
  | zero =>
    intro d i j _ _ _ h1 h2
    exact absurd h2 (by omega)
  | succ fuel ih =>
    intro d i j hlen hai hjb hij hfuel hpa hlow hhigh
    unfold partitionEqualLoop
    dsimp only
    obtain ⟨u1, u2, u3, u4⟩ := scanUp_spec (fun i => !I.Less d a i) j (j + 2) i (by omega)
    generalize scanUp (fun i => !I.Less d a i) j (j + 2) i = i1 at u1 u2 u3 u4 ⊢
    have hi1 := u2 hij
    obtain ⟨v1, v2, v3, v4⟩ := scanDown_spec (fun j => I.Less d a j) i1 (by omega) (j + 2) j
      (by omega)
    generalize scanDown (fun j => I.Less d a j) i1 (j + 2) j = j1 at v1 v2 v3 v4 ⊢
    have hj1 := v2 hi1
    have hlow1 : ∀ k, a + 1 ≤ k → k < i1 → key d k ≤ p := by
      intro k hk1 hk2
      by_cases hki : k < i
      · exact hlow k hk1 hki
      · have := u3 k (by omega) hk2
        rw [← hpa]
        exact (M.less_false d a k (by omega) (by omega)).1 (by simpa using this)
    have hhigh1 : ∀ k, j1 < k → k < b → p < key d k := by
      intro k hk1 hk2
      by_cases hkj : j < k
      · exact hhigh k hkj hk2
      · have := v3 k hk1 (by omega)
        rw [← hpa]
        exact (M.less_iff d a k (by omega) (by omega)).1 this
    by_cases hc : j1 < i1
    · rw [if_pos hc]
      exact ⟨Reach.refl _ _ _ _ _, by omega, by omega, hlow1,
        fun k hk1 hk2 => hhigh1 k (by omega) hk2⟩
    · rw [if_neg hc]
      have hki1 : p < key d i1 := by
        have := u4 (by omega)
        rw [← hpa]
        exact (M.less_iff d a i1 (by omega) (by omega)).1 (by simpa using this)
      have hkj1 : key d j1 ≤ p := by
        have := v4 (by omega)
        rw [← hpa]
        exact (M.less_false d a j1 (by omega) (by omega)).1 this
      have hne : i1 ≠ j1 := by
        rintro rfl
        exact absurd hki1 (not_lt.2 hkj1)
      have hil : i1 < I.Len d := by omega
      have hjl : j1 < I.Len d := by omega
      have key1 := ih (I.Swap d i1 j1) (i1 + 1) (j1 - 1) (by rw [M.len_swap]; exact hlen)
        (by omega) (by omega) (by omega) (by omega)
        (by rw [M.key_other d _ _ a hil hjl (by omega) (by omega)]; exact hpa)
        (by
          intro k hk1 hk2
          by_cases hki : k = i1
          · subst hki
            rw [M.key_left d _ _ hil hjl]
            exact hkj1
          · rw [M.key_other d _ _ k hil hjl hki (by omega)]
            exact hlow1 k hk1 (by omega))
        (by
          intro k hk1 hk2
          by_cases hkj : k = j1
          · subst hkj
            rw [M.key_right d _ _ hil hjl]
            exact hki1
          · rw [M.key_other d _ _ k hil hjl (by omega) hkj]
            exact hhigh1 k (by omega) hk2)
      exact ⟨Reach.trans (Reach.swap M _ _ d _ _ hlen ⟨by omega, by omega⟩ ⟨by omega, by omega⟩)
        key1.1, key1.2⟩

/-- Function `partitionEqual(data, a, b, pivot)`: the keys before the index it
returns are not above the pivot, the keys from it on are above the pivot, and
only elements of the range have moved. -/
theorem partitionEqual_spec {α : Type} {I : SortInterface α} {key : α → Nat → ℚ}
    (M : Keyed I key) (d : α) (a b pivot : Nat) (hb : b ≤ I.Len d)
    (hpa : a ≤ pivot) (hpb : pivot < b) :
    Reach I key a b d (partitionEqual I d a b pivot).1 ∧
    a + 1 ≤ (partitionEqual I d a b pivot).2 ∧ (partitionEqual I d a b pivot).2 ≤ b ∧
    (∀ k, a ≤ k → k < (partitionEqual I d a b pivot).2 →
      key (partitionEqual I d a b pivot).1 k ≤ key d pivot) ∧
    (∀ k, (partitionEqual I d a b pivot).2 ≤ k → k < b →
      key d pivot < key (partitionEqual I d a b pivot).1 k) := by
  unfold partitionEqual
  have hal : a < I.Len d := by omega
  have hpl : pivot < I.Len d := by omega
  have hr0 : Reach I key a b d (I.Swap d a pivot) :=
    Reach.swap M _ _ d _ _ hb ⟨Nat.le_refl _, by omega⟩ ⟨hpa, hpb⟩
  have hka : key (I.Swap d a pivot) a = key d pivot := M.key_left d _ _ hal hpl
  have hloop := partitionEqualLoop_spec M a b (key d pivot) (b + 2) (I.Swap d a pivot) (a + 1)
    (b - 1) (by rw [M.len_swap]; exact hb) (Nat.le_refl _) (by omega) (by omega) (by omega) hka
    (fun k hk1 hk2 => absurd hk2 (by omega)) (fun k hk1 hk2 => absurd hk2 (by omega))
  obtain ⟨w1, w2, w3, w4, w5⟩ := hloop
  refine ⟨Reach.trans hr0 (Reach.mono (by omega) (Nat.le_refl _) w1), w2, w3, ?_, w5⟩
  intro k hk1 hk2
  by_cases hka1 : k = a
  · subst hka1
    rw [w1.2.outside k (by omega), hka]
  · exact w4 k (by omega) hk2

/-! ## The library sort: pivot, patterns, partial insertion -/

/-- Function `order2` answers its two indices, in one order or the other. -/
theorem order2_mem {α : Type} (I : SortInterface α) (d : α) (x y s : Nat) :
    ((order2 I d x y s).1 = x ∧ (order2 I d x y s).2.1 = y) ∨
    ((order2 I d x y s).1 = y ∧ (order2 I d x y s).2.1 = x) := by
  unfold order2
  split
  · exact Or.inr ⟨rfl, rfl⟩
  · exact Or.inl ⟨rfl, rfl⟩

/-- Function `median` answers one of its three indices. -/
theorem median_mem {α : Type} (I : SortInterface α) (d : α) (x y z s : Nat) :
    (median I d x y z s).1 = x ∨ (median I d x y z s).1 = y ∨ (median I d x y z s).1 = z := by
  unfold median
  dsimp only
  have h1 := order2_mem I d x y s
  generalize order2 I d x y s = r1 at h1 ⊢
  have h2 := order2_mem I d r1.2.1 z r1.2.2
  generalize order2 I d r1.2.1 z r1.2.2 = r2 at h2 ⊢
  have h3 := order2_mem I d r1.1 r2.1 r2.2.2
  generalize order2 I d r1.1 r2.1 r2.2.2 = r3 at h3 ⊢
  omega

/-- Function `choosePivot` answers an index of the range. -/
theorem choosePivot_range {α : Type} (I : SortInterface α) (d : α) (a b : Nat) (hab : a < b) :
    a ≤ (choosePivot I d a b).1 ∧ (choosePivot I d a b).1 < b := by
  have hfst : ∀ (r : Nat × Nat),
      (if r.2 = 0 then (r.1, SortedHint.increasingHint)
        else if r.2 = 12 then (r.1, SortedHint.decreasingHint)
        else (r.1, SortedHint.unknownHint)).1 = r.1 := by
    intro r
    split
    · rfl
    · split <;> rfl
  unfold choosePivot
  dsimp only
  rw [hfst]
  by_cases h8 : 8 ≤ b - a
  · rw [if_pos h8]
    by_cases h50 : 50 ≤ b - a
    · rw [if_pos h50]
      unfold medianAdjacent
      have hi := median_mem I d (a + (b - a) / 4 * 1 - 1) (a + (b - a) / 4 * 1)
        (a + (b - a) / 4 * 1 + 1) 0
      generalize median I d (a + (b - a) / 4 * 1 - 1) (a + (b - a) / 4 * 1)
        (a + (b - a) / 4 * 1 + 1) 0 = ri at hi ⊢
      have hj := median_mem I d (a + (b - a) / 4 * 2 - 1) (a + (b - a) / 4 * 2)
        (a + (b - a) / 4 * 2 + 1) ri.2
      generalize median I d (a + (b - a) / 4 * 2 - 1) (a + (b - a) / 4 * 2)
        (a + (b - a) / 4 * 2 + 1) ri.2 = rj at hj ⊢
      have hk := median_mem I d (a + (b - a) / 4 * 3 - 1) (a + (b - a) / 4 * 3)
        (a + (b - a) / 4 * 3 + 1) rj.2
      generalize median I d (a + (b - a) / 4 * 3 - 1) (a + (b - a) / 4 * 3)
        (a + (b - a) / 4 * 3 + 1) rj.2 = rk at hk ⊢
      have hm := median_mem I d ri.1 rj.1 rk.1 rk.2
      omega
    · rw [if_neg h50]
      have := median_mem I d (a + (b - a) / 4 * 1) (a + (b - a) / 4 * 2) (a + (b - a) / 4 * 3) 0
      omega
  · rw [if_neg h8]
    dsimp only
    omega

/-- Function `reverseRange` moves only elements of the range. -/
theorem reverseRange_reach {α : Type} {I : SortInterface α} {key : α → Nat → ℚ}
    (M : Keyed I key) (a b : Nat) :
    ∀ (fuel : Nat) (d : α) (i j : Nat), b ≤ I.Len d → a ≤ i → j < b →
      Reach I key a b d (reverseRange I fuel d i j) := by
  intro fuel
  induction fuel with
  | zero => intro d i j _ _ _; exact Reach.refl _ _ _ _ _
  | succ fuel ih =>
    intro d i j hlen hi hj
    unfold reverseRange
    split
    · exact Reach.trans
        (Reach.swap M _ _ d _ _ hlen ⟨hi, by omega⟩ ⟨by omega, hj⟩)
        (ih _ _ _ (by rw [M.len_swap]; exact hlen) (by omega) (by omega))
    · exact Reach.refl _ _ _ _ _

/-- The bit length found by the fold is that of a power of two within `n`. -/
theorem bitsLen_fold (n : Nat) :
    ∀ (m len : Nat), (len = 0 ∨ 2 ^ (len - 1) ≤ n) →
      ((List.range m).foldl (fun len k => if 2 ^ k ≤ n then k + 1 else len) len = 0 ∨
        2 ^ ((List.range m).foldl (fun len k => if 2 ^ k ≤ n then k + 1 else len) len - 1) ≤
          n) := by
  intro m
  induction m with
  | zero => intro len h; exact h
  | succ m ih =>
    intro len h
    rw [List.range_succ, List.foldl_append]
    simp only [List.foldl_cons, List.foldl_nil]
    split
    · right
      simpa using ‹2 ^ m ≤ n›
    · exact ih len h

/-- Function `nextPowerOfTwo`: the power of two it answers is at most twice the
length. -/
theorem bitsLen_pow (n : Nat) (h : 1 ≤ n) : 2 ^ bitsLen n ≤ 2 * n := by
  unfold bitsLen
  have := bitsLen_fold n (n + 1) 0 (Or.inl rfl)
  generalize (List.range (n + 1)).foldl (fun len k => if 2 ^ k ≤ n then k + 1 else len) 0 = r
    at this
  rcases this with h0 | h1
  · subst h0
    simp
    omega
  · by_cases hr : r = 0
    · subst hr
      simp
      omega
    · have e : r = (r - 1) + 1 := by omega
      rw [e, pow_succ]
      omega

/-- The random index of `breakPatterns` is within the length. -/
theorem breakOther_lt (length r : Nat) (h : 1 ≤ length) :
    (if length ≤ r % 2 ^ bitsLen length then r % 2 ^ bitsLen length - length
      else r % 2 ^ bitsLen length) < length := by
  have hm : r % 2 ^ bitsLen length < 2 ^ bitsLen length := Nat.mod_lt _ (by positivity)
  have hp := bitsLen_pow length h
  split <;> omega

/-- Function `breakPatterns` moves only elements of the range. -/
theorem breakPatterns_reach {α : Type} {I : SortInterface α} {key : α → Nat → ℚ}
    (M : Keyed I key) (d : α) (a b : Nat) (hb : b ≤ I.Len d) :
    Reach I key a b d (breakPatterns I d a b) := by
  unfold breakPatterns
  dsimp only
  by_cases h8 : 8 ≤ b - a
  · rw [if_pos h8]
    simp only [List.foldl_cons, List.foldl_nil]
    have ho := fun r => breakOther_lt (b - a) r (by omega)
    have hsw : ∀ (d1 : α) (i r : Nat), i ≤ 2 → I.Len d1 = I.Len d →
        Reach I key a b d1 (I.Swap d1 (a + (b - a) / 4 * 2 - 1 + i)
          (a + if b - a ≤ r % 2 ^ bitsLen (b - a) then r % 2 ^ bitsLen (b - a) - (b - a)
            else r % 2 ^ bitsLen (b - a))) := by
      intro d1 i r hi hl
      have := ho r
      exact Reach.swap M _ _ d1 _ _ (by rw [hl]; exact hb) ⟨by omega, by omega⟩
        ⟨by omega, by omega⟩
    have s0 := hsw d 0 (xorshiftNext (b - a)) (by omega) rfl
    have s1 := hsw _ 1 (xorshiftNext (xorshiftNext (b - a))) (by omega) s0.1
    have s2 := hsw _ 2 (xorshiftNext (xorshiftNext (xorshiftNext (b - a)))) (by omega)
      (s1.1.trans s0.1)
    exact Reach.trans (Reach.trans s0 s1) s2
  · rw [if_neg h8]
    exact Reach.refl _ _ _ _ _

/-- A rearrangement of the range keeps every key of the range at or above the
key just before the range. -/
theorem Reach.lower {α : Type} {I : SortInterface α} {key : α → Nat → ℚ} {a b : Nat} {d d1 : α}
    (h : Reach I key a b d d1)
    (hlb : 0 < a → ∀ k, a ≤ k → k < b → key d (a - 1) ≤ key d k) :
    0 < a → ∀ k, a ≤ k → k < b → key d1 (a - 1) ≤ key d1 k := by
  intro ha
  rw [h.2.outside (a - 1) (by omega)]
  exact h.2.forall (fun v => key d (a - 1) ≤ v) (hlb ha)

/-- The loop `for i < b && !data.Less(i, i-1) { i++ }` stops at the first index
from `i` on whose key is below the key before it. -/
theorem skipOrdered_spec {α : Type} {I : SortInterface α} {key : α → Nat → ℚ}
    (M : Keyed I key) (d : α) (b : Nat) (hb : b ≤ I.Len d) :
    ∀ (fuel i : Nat), 1 ≤ i → b ≤ i + fuel →
      i ≤ skipOrdered I d b fuel i ∧ (i ≤ b → skipOrdered I d b fuel i ≤ b) ∧
      (∀ k, i ≤ k → k < skipOrdered I d b fuel i → key d (k - 1) ≤ key d k) ∧
      (skipOrdered I d b fuel i < b →
        key d (skipOrdered I d b fuel i) < key d (skipOrdered I d b fuel i - 1)) := by
  intro fuel
  induction fuel with
  | zero =>
    intro i _ h
    exact ⟨Nat.le_refl _, fun h1 => h1,
      fun k h1 h2 => absurd h2 (by simp only [skipOrdered]; omega),
      fun h1 => absurd h1 (by simp only [skipOrdered]; omega)⟩
  | succ fuel ih =>
    intro i hi h
    unfold skipOrdered
    by_cases hc : (decide (i < b) && !I.Less d i (i - 1)) = true
    · rw [if_pos hc]
      simp only [Bool.and_eq_true, decide_eq_true_eq, Bool.not_eq_true'] at hc
      obtain ⟨h1, h2, h3, h4⟩ := ih (i + 1) (by omega) (by omega)
      refine ⟨by omega, fun _ => h2 (by omega), fun k hk1 hk2 => ?_, h4⟩
      by_cases hki : k = i
      · subst hki
        exact (M.less_false d k (k - 1) (by omega) (by omega)).1 hc.2
      · exact h3 k (by omega) hk2
    · rw [if_neg hc]
      simp only [Bool.and_eq_true, decide_eq_true_eq, Bool.not_eq_true', not_and,
        Bool.not_eq_false] at hc
      exact ⟨Nat.le_refl _, fun h1 => h1, fun k h1 h2 => absurd h2 (by omega),
        fun h1 => (M.less_iff d i (i - 1) (by omega) (by omega)).1 (hc h1)⟩

/-- The left shift of `partialInsertionSort` is the inner loop of the insertion
sort, as long as no key of the range is below the key just before the range. -/
theorem shiftLeft_eq {α : Type} {I : SortInterface α} {key : α → Nat → ℚ}
    (M : Keyed I key) (a : Nat) :
    ∀ (j : Nat) (d : α), a ≤ j → j < I.Len d →
      (0 < a → ∀ k, a ≤ k → k ≤ j → key d (a - 1) ≤ key d k) →
      shiftLeft I j d = insertionShift I a j d := by
  intro j
  induction j with
  | zero => intro d _ _ _; rfl
  | succ j ih =>
    intro d haj hj hlb
    unfold shiftLeft insertionShift
    have hj0 : j < I.Len d := by omega
    by_cases hless : I.Less d (j + 1) j = true
    · by_cases ha : a = j + 1
      · subst ha
        have h1 := hlb (by omega) (j + 1) (Nat.le_refl _) (Nat.le_refl _)
        have h2 := (M.less_iff d _ _ hj hj0).1 hless
        simp only [Nat.add_sub_cancel] at h1
        exact absurd h2 (not_lt.2 h1)
      · have hc1 : ¬ (!I.Less d (j + 1) j) = true := by simp [hless]
        have hc2 : (decide (a < j + 1) && I.Less d (j + 1) j) = true := by
          simp only [Bool.and_eq_true, decide_eq_true_eq]
          exact ⟨by omega, hless⟩
        rw [if_neg hc1, if_pos hc2]
        apply ih _ (by omega) (by rw [M.len_swap]; exact hj0)
        intro ha0 k hk1 hk2
        rw [M.key_other d _ _ (a - 1) hj hj0 (by omega) (by omega)]
        by_cases hkj : k = j
        · subst hkj
          rw [M.key_right d _ _ hj hj0]
          exact hlb ha0 (k + 1) (by omega) (Nat.le_refl _)
        · rw [M.key_other d _ _ k hj hj0 (by omega) hkj]
          exact hlb ha0 k hk1 (by omega)
    · have hc1 : (!I.Less d (j + 1) j) = true := by simpa using hless
      have hc2 : ¬ (decide (a < j + 1) && I.Less d (j + 1) j) = true := by
        simp only [Bool.and_eq_true, decide_eq_true_eq, not_and]
        exact fun _ => hless
      rw [if_pos hc1, if_neg hc2]

/-- The right shift of `partialInsertionSort` moves only elements from `lo`
on. -/
theorem shiftRight_reach {α : Type} {I : SortInterface α} {key : α → Nat → ℚ}
    (M : Keyed I key) (lo b : Nat) :
    ∀ (fuel j : Nat) (d : α), b ≤ I.Len d → lo < j →
      Reach I key lo b d (shiftRight I b fuel j d) := by
  intro fuel
  induction fuel with
  | zero => intro j d _ _; exact Reach.refl _ _ _ _ _
  | succ fuel ih =>
    intro j d hlen hj
    unfold shiftRight
    split
    · split
      · exact Reach.refl _ _ _ _ _
      · exact Reach.trans
          (Reach.swap M _ _ d _ _ hlen ⟨by omega, by omega⟩ ⟨by omega, by omega⟩)
          (ih _ _ (by rw [M.len_swap]; exact hlen) (by omega))
    · exact Reach.refl _ _ _ _ _

/-- The loop of `partialInsertionSort`: it moves only elements of the range,
and when it answers true the range is in order. -/
theorem partialInsertionLoop_spec {α : Type} {I : SortInterface α} {key : α → Nat → ℚ}
    (M : Keyed I key) (a b : Nat) :
    ∀ (steps : Nat) (d : α) (i : Nat), b ≤ I.Len d → a + 1 ≤ i → i ≤ b →
      SortedOn (key d) a i →
      (0 < a → ∀ k, a ≤ k → k < b → key d (a - 1) ≤ key d k) →
      Reach I key a b d (partialInsertionLoop I a b steps d i).1 ∧
      ((partialInsertionLoop I a b steps d i).2 = true →
        SortedOn (key (partialInsertionLoop I a b steps d i).1) a b) := by
  intro steps
  induction steps with
  | zero =>
    intro d i _ _ _ _ _
    exact ⟨Reach.refl _ _ _ _ _, fun h => absurd h (by simp [partialInsertionLoop])⟩
  | succ steps ih =>
    intro d i hlen hai hib hsorted hlb
    unfold partialInsertionLoop
    dsimp only
    obtain ⟨u1, u2, u3, u4⟩ := skipOrdered_spec M d b hlen (b + 1) i (by omega) (by omega)
    generalize skipOrdered I d b (b + 1) i = i1 at u1 u2 u3 u4 ⊢
    have hi1 := u2 hib
    have hsorted1 : SortedOn (key d) a i1 := by
      intro k hk1 hk2
      by_cases hki : k + 1 < i
      · exact hsorted k hk1 hki
      · have := u3 (k + 1) (by omega) hk2
        simpa using this
    by_cases hc : i1 = b
    · rw [if_pos hc]
      subst hc
      exact ⟨Reach.refl _ _ _ _ _, fun _ => hsorted1⟩
    · rw [if_neg hc]
      by_cases h50 : b - a < 50
      · rw [if_pos h50]
        exact ⟨Reach.refl _ _ _ _ _, fun h => absurd h (by simp)⟩
      · rw [if_neg h50]
        have hil : i1 < I.Len d := by omega
        have hil1 : i1 - 1 < I.Len d := by omega
        have hlen1 : I.Len (I.Swap d i1 (i1 - 1)) = I.Len d := M.len_swap _ _ _
        have hr1 : Reach I key a b d (I.Swap d i1 (i1 - 1)) :=
          Reach.swap M _ _ d _ _ hlen ⟨by omega, by omega⟩ ⟨by omega, by omega⟩
        generalize hd1 : I.Swap d i1 (i1 - 1) = d1 at hlen1 hr1 ⊢
        have hlb1 := hr1.lower hlb
        have hk1 : ∀ k, k + 1 < i1 → key d1 k = key d k := by
          intro k hk
          rw [← hd1]
          exact M.key_other d _ _ k hil hil1 (by omega) (by omega)
        have h2 : Reach I key a i1 d1
            (if 2 ≤ i1 - a then shiftLeft I (i1 - 1) d1 else d1) ∧
            SortedOn (key (if 2 ≤ i1 - a then shiftLeft I (i1 - 1) d1 else d1)) a i1 := by
          by_cases h2a : 2 ≤ i1 - a
          · rw [if_pos h2a]
            rw [shiftLeft_eq M a (i1 - 1) d1 (by omega) (by omega)
              (fun ha k hk1 hk2 => hlb1 ha k hk1 (by omega))]
            have hs := insertionShift_spec M a (i1 - 1) (i1 - 1) d1 (by omega) (Nat.le_refl _)
              (by omega)
              (by
                intro k hk1' hk2 hk3
                rw [hk1 k (by omega), hk1 (k + 1) (by omega)]
                exact hsorted1 k hk1' (by omega))
              (fun _ h => absurd h (by omega))
            have e : i1 - 1 + 1 = i1 := by omega
            rw [e] at hs
            exact ⟨hs.1, fun k hk1' hk2 => hs.2 k hk1' (by omega)⟩
          · rw [if_neg h2a]
            exact ⟨Reach.refl _ _ _ _ _, fun k hk1' hk2 => absurd hk2 (by omega)⟩
        generalize (if 2 ≤ i1 - a then shiftLeft I (i1 - 1) d1 else d1) = d2 at h2 ⊢
        have hlen2 : I.Len d2 = I.Len d := h2.1.1.trans hlen1
        have h3 : Reach I key i1 b d2
            (if 2 ≤ b - i1 then shiftRight I b (b + 1) (i1 + 1) d2 else d2) := by
          split
          · exact shiftRight_reach M i1 b _ _ _ (by rw [hlen2]; exact hlen) (by omega)
          · exact Reach.refl _ _ _ _ _
        generalize (if 2 ≤ b - i1 then shiftRight I b (b + 1) (i1 + 1) d2 else d2) = d3 at h3 ⊢
        have hr3 : Reach I key a b d d3 :=
          Reach.trans hr1 (Reach.trans (Reach.mono (Nat.le_refl _) (by omega) h2.1)
            (Reach.mono (by omega) (Nat.le_refl _) h3))
        have key1 := ih d3 i1 (by rw [hr3.1]; exact hlen) (by omega) (by omega)
          (by
            intro k hk1' hk2
            rw [h3.2.outside k (by omega), h3.2.outside (k + 1) (by omega)]
            exact h2.2 k hk1' hk2)
          (hr3.lower hlb)
        exact ⟨Reach.trans hr3 key1.1, key1.2⟩

/-- Function `partialInsertionSort(data, a, b)`: it moves only elements of the
range, and when it answers true the range is in order. -/
theorem partialInsertionSort_spec {α : Type} {I : SortInterface α} {key : α → Nat → ℚ}
    (M : Keyed I key) (d : α) (a b : Nat) (hab : a < b) (hb : b ≤ I.Len d)
    (hlb : 0 < a → ∀ k, a ≤ k → k < b → key d (a - 1) ≤ key d k) :
    Reach I key a b d (partialInsertionSort I d a b).1 ∧
    ((partialInsertionSort I d a b).2 = true →
      SortedOn (key (partialInsertionSort I d a b).1) a b) :=
  partialInsertionLoop_spec M a b 5 d (a + 1) hb (Nat.le_refl _) (by omega)
    (fun k _ hk2 => absurd hk2 (by omega)) hlb

/-! ## The library sort: the whole run -/

/-- Two ranges in order around a pivot make one range in order. -/
theorem SortedOn.join {f : Nat → ℚ} {a b : Nat} (mid : Nat)
    (h1 : SortedOn f a mid) (h2 : SortedOn f (mid + 1) b)
    (hlow : ∀ k, a ≤ k → k < mid → f k ≤ f mid)
    (hhigh : ∀ k, mid < k → k < b → f mid ≤ f k) : SortedOn f a b := by
  intro k hk1 hk2
  by_cases c1 : k + 1 < mid
  · exact h1 k hk1 c1
  · by_cases c2 : k + 1 = mid
    · rw [c2]; exact hlow k hk1 (by omega)
    · by_cases c3 : k = mid
      · rw [c3]; exact hhigh (mid + 1) (by omega) (by omega)
      · exact h2 k (by omega) hk2

/-- Function `pdqsort(data, a, b, limit)`: with fuel beyond the length of the
range, and no key of the range below the key just before the range, it
returns, it has moved only elements of the range, and the range is in order. -/
theorem pdqsort_spec {α : Type} {I : SortInterface α} {key : α → Nat → ℚ} (M : Keyed I key) :
    ∀ (fuel : Nat) (d : α) (a b limit : Nat) (wb wp : Bool),
      a ≤ b → b ≤ I.Len d → b - a < fuel →
      (0 < a → ∀ k, a ≤ k → k < b → key d (a - 1) ≤ key d k) →
      ∃ out, pdqsort I fuel d a b limit wb wp = some out ∧ Reach I key a b d out ∧
        SortedOn (key out) a b := by
  intro fuel
  induction fuel with
  | zero => intro d a b limit wb wp _ _ h _; exact absurd h (by omega)
  | succ fuel ih =>
    intro d a b limit wb wp hab hlen hfuel hlb
    unfold pdqsort
    dsimp only
    by_cases h12 : b - a ≤ 12
    · rw [if_pos h12]
      have hs := insertionSort_spec M d a b hlen
      exact ⟨_, rfl, hs.1, hs.2⟩
    rw [if_neg h12]
    by_cases hlim : limit = 0
    · rw [if_pos hlim]
      have hs := heapSort_spec M d a b hab hlen
      exact ⟨_, rfl, hs.1, hs.2⟩
    rw [if_neg hlim]
    have hab1 : a < b := by omega
    -- breakPatterns
    have h1 : Reach I key a b d (if wb = true then d else breakPatterns I d a b) := by
      split
      · exact Reach.refl _ _ _ _ _
      · exact breakPatterns_reach M d a b hlen
    generalize (if wb = true then d else breakPatterns I d a b) = d1 at h1 ⊢
    generalize (if wb = true then limit else limit - 1) = limit1
    have hlen1 : b ≤ I.Len d1 := by rw [h1.1]; exact hlen
    -- choosePivot
    have hc := choosePivot_range I d1 a b hab1
    generalize choosePivot I d1 a b = c at hc ⊢
    have h2 : Reach I key a b d1
        (if c.2 = SortedHint.decreasingHint then reverseRange I b d1 a (b - 1) else d1) := by
      split
      · exact reverseRange_reach M a b _ _ _ _ hlen1 (Nat.le_refl _) (by omega)
      · exact Reach.refl _ _ _ _ _
    generalize (if c.2 = SortedHint.decreasingHint then reverseRange I b d1 a (b - 1) else d1) = d2
      at h2 ⊢
    have hp : a ≤ (if c.2 = SortedHint.decreasingHint then b - 1 - (c.1 - a) else c.1) ∧
        (if c.2 = SortedHint.decreasingHint then b - 1 - (c.1 - a) else c.1) < b := by
      split <;> omega
    generalize (if c.2 = SortedHint.decreasingHint then b - 1 - (c.1 - a) else c.1) = pivot
      at hp ⊢
    generalize (if c.2 = SortedHint.decreasingHint then SortedHint.increasingHint else c.2) = hint
    have hr2 : Reach I key a b d d2 := Reach.trans h1 h2
    have hlen2 : b ≤ I.Len d2 := by rw [hr2.1]; exact hlen
    have hlb2 := hr2.lower hlb
    -- partialInsertionSort
    have h3 : Reach I key a b d2
        (if (wb && wp && decide (hint = SortedHint.increasingHint)) = true then
          partialInsertionSort I d2 a b else (d2, false)).1 ∧
        ((if (wb && wp && decide (hint = SortedHint.increasingHint)) = true then
          partialInsertionSort I d2 a b else (d2, false)).2 = true →
          SortedOn (key (if (wb && wp && decide (hint = SortedHint.increasingHint)) = true then
            partialInsertionSort I d2 a b else (d2, false)).1) a b) := by
      split
      · exact partialInsertionSort_spec M d2 a b hab1 hlen2 hlb2
      · exact ⟨Reach.refl _ _ _ _ _, fun h => absurd h (by simp)⟩
    generalize (if (wb && wp && decide (hint = SortedHint.increasingHint)) = true then
        partialInsertionSort I d2 a b else (d2, false)) = s at h3 ⊢
    have hrs : Reach I key a b d s.1 := Reach.trans hr2 h3.1
    have hlens : b ≤ I.Len s.1 := by rw [hrs.1]; exact hlen
    have hlbs := hrs.lower hlb
    by_cases hs2 : s.2 = true
    · rw [if_pos hs2]
      exact ⟨_, rfl, hrs, h3.2 hs2⟩
    rw [if_neg hs2]
    by_cases heq : (decide (0 < a) && !I.Less s.1 (a - 1) pivot) = true
    · -- partitionEqual
      rw [if_pos heq]
      simp only [Bool.and_eq_true, decide_eq_true_eq, Bool.not_eq_true'] at heq
      obtain ⟨ha0, hless⟩ := heq
      have hpk : key s.1 pivot ≤ key s.1 (a - 1) :=
        (M.less_false s.1 _ _ (by omega) (by omega)).1 hless
      obtain ⟨e1, e2, e3, e4, e5⟩ := partitionEqual_spec M s.1 a b pivot hlens hp.1 hp.2
      generalize partitionEqual I s.1 a b pivot = pe at e1 e2 e3 e4 e5 ⊢
      have hlbe := e1.lower hlbs
      have hrec := ih pe.1 pe.2 b limit1 wb wp e3 (by rw [e1.1]; exact hlens) (by omega)
        (by
          intro _ k hk1 hk2
          exact le_trans (e4 (pe.2 - 1) (by omega) (by omega)) (le_of_lt (e5 k hk1 hk2)))
      obtain ⟨out, ho1, ho2, ho3⟩ := hrec
      refine ⟨out, ho1, Reach.trans hrs (Reach.trans e1 (Reach.mono (by omega) (Nat.le_refl _) ho2)),
        ?_⟩
      have hbase : key pe.1 (a - 1) = key s.1 (a - 1) := e1.2.outside _ (by omega)
      have hequal : ∀ k, a ≤ k → k < pe.2 → key out k = key s.1 pivot := by
        intro k hk1 hk2
        rw [ho2.2.outside k (by omega)]
        apply le_antisymm (e4 k hk1 hk2)
        have := hlbe ha0 k hk1 (by omega)
        rw [hbase] at this
        exact le_trans hpk this
      have hgreater : ∀ k, pe.2 ≤ k → k < b → key s.1 pivot ≤ key out k :=
        ho2.2.forall (fun v => key s.1 pivot ≤ v) (fun k hk1 hk2 => le_of_lt (e5 k hk1 hk2))
      intro k hk1 hk2
      by_cases c1 : k + 1 < pe.2
      · rw [hequal k hk1 (by omega), hequal (k + 1) (by omega) c1]
      · by_cases c2 : k + 1 = pe.2
        · rw [hequal k hk1 (by omega)]
          exact hgreater (k + 1) (by omega) hk2
        · exact ho3 k (by omega) hk2
    · -- partition
      rw [if_neg heq]
      obtain ⟨p1, p2, p3, p4, p5⟩ := partition_spec M s.1 a b pivot hlens hp.1 hp.2
      generalize partition I s.1 a b pivot = r at p1 p2 p3 p4 p5 ⊢
      have hrr : Reach I key a b d r.1 := Reach.trans hrs p1
      have hlenr : b ≤ I.Len r.1 := by rw [hrr.1]; exact hlen
      have hlbr := hrr.lower hlb
      by_cases hside : r.2.1 - a < b - r.2.1
      · rw [if_pos hside]
        obtain ⟨out1, q1, q2, q3⟩ := ih r.1 a r.2.1 limit1 true true p2 (by omega) (by omega)
          (fun ha0 k hk1 hk2 => hlbr ha0 k hk1 (by omega))
        rw [q1]
        dsimp only
        have hmid1 : key out1 r.2.1 = key r.1 r.2.1 := q2.2.outside _ (by omega)
        obtain ⟨out2, w1, w2, w3⟩ := ih out1 (r.2.1 + 1) b limit1
          (decide ((b - a) / 8 ≤ r.2.1 - a)) r.2.2 (by omega) (by rw [q2.1]; exact hlenr)
          (by omega)
          (by
            intro _ k hk1 hk2
            simp only [Nat.add_sub_cancel]
            rw [hmid1, q2.2.outside k (by omega)]
            exact p5 k (by omega) hk2)
        refine ⟨out2, w1, Reach.trans hrr (Reach.trans (Reach.mono (Nat.le_refl _) (by omega) q2)
          (Reach.mono (by omega) (Nat.le_refl _) w2)), ?_⟩
        have hmid2 : key out2 r.2.1 = key r.1 r.2.1 := by
          rw [w2.2.outside _ (by omega)]; exact hmid1
        apply SortedOn.join r.2.1
        · intro k hk1 hk2
          rw [w2.2.outside k (by omega), w2.2.outside (k + 1) (by omega)]
          exact q3 k hk1 hk2
        · exact w3
        · intro k hk1 hk2
          rw [hmid2, w2.2.outside k (by omega)]
          exact q2.2.forall (fun v => v ≤ key r.1 r.2.1)
            (fun k hk1 hk2 => le_of_lt (p4 k hk1 hk2)) k hk1 hk2
        · intro k hk1 hk2
          rw [hmid2]
          exact w2.2.forall (fun v => key r.1 r.2.1 ≤ v)
            (fun k hk1 hk2 => by
              rw [q2.2.outside k (by omega)]
              exact p5 k (by omega) hk2) k (by omega) hk2
      · rw [if_neg hside]
        obtain ⟨out1, q1, q2, q3⟩ := ih r.1 (r.2.1 + 1) b limit1 true true (by omega) hlenr
          (by omega)
          (by
            intro _ k hk1 hk2
            simp only [Nat.add_sub_cancel]
            exact p5 k (by omega) hk2)
        rw [q1]
        dsimp only
        have hmid1 : key out1 r.2.1 = key r.1 r.2.1 := q2.2.outside _ (by omega)
        have hbase1 : key out1 (a - 1) = key r.1 (a - 1) := q2.2.outside _ (by omega)
        obtain ⟨out2, w1, w2, w3⟩ := ih out1 a r.2.1 limit1
          (decide ((b - a) / 8 ≤ b - r.2.1)) r.2.2 p2 (by rw [q2.1]; omega)
          (by omega)
          (by
            intro ha0 k hk1 hk2
            rw [hbase1, q2.2.outside k (by omega)]
            exact hlbr ha0 k hk1 (by omega))
        refine ⟨out2, w1, Reach.trans hrr (Reach.trans (Reach.mono (by omega) (Nat.le_refl _) q2)
          (Reach.mono (Nat.le_refl _) (by omega) w2)), ?_⟩
        have hmid2 : key out2 r.2.1 = key r.1 r.2.1 := by
          rw [w2.2.outside _ (by omega)]; exact hmid1
        apply SortedOn.join r.2.1
        · exact w3
        · intro k hk1 hk2
          rw [w2.2.outside k (by omega), w2.2.outside (k + 1) (by omega)]
          exact q3 k hk1 hk2
        · intro k hk1 hk2
          rw [hmid2]
          exact w2.2.forall (fun v => v ≤ key r.1 r.2.1)
            (fun k hk1 hk2 => by
              rw [q2.2.outside k (by omega)]
              exact le_of_lt (p4 k hk1 hk2)) k hk1 hk2
        · intro k hk1 hk2
          rw [hmid2, w2.2.outside k (by omega)]
          exact q2.2.forall (fun v => key r.1 r.2.1 ≤ v)
            (fun k hk1 hk2 => p5 k (by omega) hk2) k (by omega) hk2

/-- Function `sort.Sort(data)` returns, its result has the length and the keys
of the data, rearranged, and the keys are in ascending order. -/
theorem sortSort_spec {α : Type} {I : SortInterface α} {key : α → Nat → ℚ} (M : Keyed I key)
    (d : α) :
    ∃ out, sortSort I d = some out ∧ I.Len out = I.Len d ∧
      RangePerm 0 (I.Len d) (key d) (key out) ∧ SortedOn (key out) 0 (I.Len d) := by
  unfold sortSort
  by_cases h1 : I.Len d ≤ 1
  · rw [if_pos h1]
    exact ⟨d, rfl, rfl, rangePerm_refl _ _ _, fun k _ hk => absurd hk (by omega)⟩
  · rw [if_neg h1]
    obtain ⟨out, h2, h3, h4⟩ := pdqsort_spec M (I.Len d + 1) d 0 (I.Len d) (bitsLen (I.Len d))
      true true (Nat.zero_le _) (Nat.le_refl _) (by omega) (fun h => absurd h (by omega))
    exact ⟨out, h2, h3.1, h3.2, h4⟩

/-! ## Sorting the trigger set: order and content -/

/-- The trigger set meets what the proofs of the library sort ask: `Swap`
keeps the length and exchanges two triggers, and `Less` compares the keys. -/
theorem sortInterface_keyed : Keyed ActionTriggers.sortInterface ActionTriggers.sortKey := by
  refine ⟨fun d i j => Swap_length d i j, ?_, ?_⟩
  · intro d i j k hi hj
    have hi1 : i < d.length := hi
    have hj1 : j < d.length := hj
    have e : (if k = j then i else if k = i then j else k) = Equiv.swap i j k := by
      rw [Equiv.swap_apply_def]
      split_ifs <;> omega
    show ActionTriggers.sortKey (ActionTriggers.Swap d i j) k = ActionTriggers.sortKey d _
    unfold ActionTriggers.sortKey
    rw [Swap_getElem? d i j k hi1 hj1, e]
  · intro d i j hi hj
    have hi1 : i < d.length := hi
    have hj1 : j < d.length := hj
    show ActionTriggers.Less d i j = true ↔ _
    simp [ActionTriggers.Less, ActionTriggers.sortKey, List.getElem?_eq_getElem hi1,
      List.getElem?_eq_getElem hj1]

/-- For every trigger set `Sort` returns, and the set it leaves has the length
of the input and its keys in ascending order. -/
theorem Sort_returns (atpl : List ActionTrigger) :
    ∃ out, ActionTriggers.Sort sortSort atpl = some out ∧ out.length = atpl.length ∧
      SortedOn (ActionTriggers.sortKey out) 0 atpl.length := by
  obtain ⟨out, h1, h2, -, h4⟩ := sortSort_spec sortInterface_keyed atpl
  exact ⟨out, h1, h2, h4⟩

/-- C15: `Less(x, y)` holds exactly when the element at `x` has strictly higher
weight than the element at `y`. For every trigger set `Sort` returns, the set
it leaves has the length of the input, no element of it is `Less` than its
predecessor, and every adjacent pair `(a, b)` has `a.Weight >= b.Weight`. -/
theorem Sort_descending (atpl : List ActionTrigger) :
    (∀ (l : List ActionTrigger) (x y : Nat) (a b : ActionTrigger),
      l[x]? = some a → l[y]? = some b →
      (ActionTriggers.Less l x y = true ↔ b.Weight < a.Weight)) ∧
    ∃ out, ActionTriggers.Sort sortSort atpl = some out ∧ out.length = atpl.length ∧
      (∀ i, i + 1 < ActionTriggers.Len out → ActionTriggers.Less out (i + 1) i = false) ∧
      ∀ (i : Nat) (a b : ActionTrigger), out[i]? = some a → out[i + 1]? = some b →
        a.Weight ≥ b.Weight := by
  have hless : ∀ (l : List ActionTrigger) (x y : Nat) (a b : ActionTrigger),
      l[x]? = some a → l[y]? = some b →
      (ActionTriggers.Less l x y = true ↔ b.Weight < a.Weight) := by
    intro l x y a b ha hb
    simp [ActionTriggers.Less, ha, hb]
  obtain ⟨out, hrun, hlen, hsorted⟩ := Sort_returns atpl
  have hadj : ∀ (i : Nat) (a b : ActionTrigger), out[i]? = some a → out[i + 1]? = some b →
      a.Weight ≥ b.Weight := by
    intro i a b ha hb
    have hi : i + 1 < out.length := (List.getElem?_eq_some.1 hb).1
    have h := hsorted i (Nat.zero_le _) (by rw [← hlen]; exact hi)
    simp only [ActionTriggers.sortKey, ha, hb] at h
    exact neg_le_neg_iff.1 h
  refine ⟨hless, out, hrun, hlen, fun i hi => ?_, hadj⟩
  have hi1 : i + 1 < out.length := hi
  obtain ⟨a, ha⟩ : ∃ a, out[i]? = some a := ⟨out[i], List.getElem?_eq_getElem (by omega)⟩
  obtain ⟨b, hb⟩ : ∃ b, out[i + 1]? = some b := ⟨out[i + 1], List.getElem?_eq_getElem hi1⟩
  have h := hadj i a b ha hb
  have h2 := (hless out (i + 1) i b a hb ha).not
  rw [Bool.not_eq_true] at h2
  exact h2.2 (not_lt.2 h)

/-- Sorting on the deployment: three triggers of weights 10, 30, 20 come out as
30, 20, 10; fourteen triggers of weights 0, 1, 0, 1, ... come out with the
seven of weight 1 first; the thirteen triggers come out by descending
weight. -/
theorem Sort_descending_witness :
    ActionTriggers.Sort sortSort threeTriggers =
      some [weighted "T1" 30, weighted "T2" 20, weighted "T0" 10] ∧
    (ActionTriggers.Sort sortSort fourteenTriggers).map (List.map fun t => t.UniqueID) =
      some ["T9", "T1", "T13", "T3", "T7", "T5", "T11", "T12", "T6", "T0", "T10", "T8", "T4",
        "T2"] ∧
    ∃ out, ActionTriggers.Sort sortSort thirteenTriggers = some out ∧
      out.length = thirteenTriggers.length ∧
      (∀ i, i + 1 < ActionTriggers.Len out → ActionTriggers.Less out (i + 1) i = false) ∧
      ∀ (i : Nat) (a b : ActionTrigger), out[i]? = some a → out[i + 1]? = some b →
        a.Weight ≥ b.Weight :=
  ⟨by decide, by decide, (Sort_descending thirteenTriggers).2⟩

/-- C16 amended: for every trigger set `Sort` returns, and the set it leaves is
a rearrangement of the input, so for every weight the triggers of that weight
after `Sort` are those of the input, as a permutation; their relative order
is not promised. -/
theorem Sort_keeps_triggers (atpl : List ActionTrigger) :
    ∃ out, ActionTriggers.Sort sortSort atpl = some out ∧ out.Perm atpl ∧
      ∀ w : ℚ, (out.filter fun t => t.Weight = w).Perm (atpl.filter fun t => t.Weight = w) := by
  obtain ⟨out, hrun, -, -⟩ := Sort_returns atpl
  have hperm : out.Perm atpl :=
    sortSort_keeps ActionTriggers.sortInterface (fun l => l.Perm atpl)
      (fun d i j h => (Swap_perm d i j).trans h) atpl out (List.Perm.refl _) hrun
  exact ⟨out, hrun, hperm, fun w => hperm.filter _⟩

/-- The thirteen triggers after `Sort`: the same triggers, rearranged. -/
theorem Sort_keeps_triggers_witness :
    ActionTriggers.Sort sortSort thirteenTriggers =
      some [weighted "T12" 20, weighted "T6" 10, weighted "T2" 10, weighted "T3" 10,
        weighted "T4" 10, weighted "T5" 10, weighted "T0" 10, weighted "T7" 10,
        weighted "T8" 10, weighted "T9" 10, weighted "T10" 10, weighted "T11" 10,
        weighted "T1" 10] ∧
    ∃ out, ActionTriggers.Sort sortSort thirteenTriggers = some out ∧
      out.Perm thirteenTriggers ∧
      ∀ w : ℚ, (out.filter fun t => t.Weight = w).Perm
        (thirteenTriggers.filter fun t => t.Weight = w) :=
  ⟨by decide, Sort_keeps_triggers thirteenTriggers⟩

/-! ## The copy of a set -/

/-- A valid pointer reads the same, and stays valid, on a heap that has grown. -/
theorem load_extend (h h1 : Heap) (ts : List TriggerCell) (fs : List BalanceFilter)
    (ht : h1.triggers = h.triggers ++ ts) (hf : h1.filters = h.filters ++ fs) (p : Ptr)
    (hv : h.validTrigger p = true) :
    h1.load (some p) = h.load (some p) ∧ h1.validTrigger p = true ∧ p < h.triggers.length := by
  unfold Heap.validTrigger at hv
  cases hcell : h.triggers[p]? with
  | none => simp [hcell] at hv
  | some cell =>
    have hp : p < h.triggers.length := (List.getElem?_eq_some.1 hcell).1
    have hcell1 : h1.triggers[p]? = some cell := by
      rw [ht, List.getElem?_append_left hp]; exact hcell
    cases hb : cell.Balance with
    | none =>
      refine ⟨?_, ?_, hp⟩
      · simp [Heap.load, Heap.read, hcell, hcell1, hb]
      · simp [Heap.validTrigger, hcell1, hb]
    | some bp =>
      simp only [hcell, hb, decide_eq_true_eq] at hv
      have hbp1 : h1.filters[bp]? = h.filters[bp]? := by
        rw [hf, List.getElem?_append_left hv]
      refine ⟨?_, ?_, hp⟩
      · simp [Heap.load, Heap.read, hcell, hcell1, hb, hbp1]
      · simp only [Heap.validTrigger, hcell1, hb, decide_eq_true_eq, hf, List.length_append]
        exact Nat.lt_of_lt_of_le hv (Nat.le_add_right _ _)

/-- The copy of a valid trigger: the heap has grown, the pointer returned is
the first new address, it is valid, and it reads as the value-level clone of
the original. -/
theorem CloneTrigger_valid (h : Heap) (p : Ptr) (hv : h.validTrigger p = true) :
    (∃ ts, (h.CloneTrigger (some p)).1.triggers = h.triggers ++ ts) ∧
    (∃ fs, (h.CloneTrigger (some p)).1.filters = h.filters ++ fs) ∧
    (h.CloneTrigger (some p)).2 = some h.triggers.length ∧
    (h.CloneTrigger (some p)).1.validTrigger h.triggers.length = true ∧
    (h.CloneTrigger (some p)).1.load (some h.triggers.length) =
      ActionTrigger.Clone (h.load (some p)) := by
  unfold Heap.validTrigger at hv
  cases hcell : h.triggers[p]? with
  | none => simp [hcell] at hv
  | some cell =>
    cases hb : cell.Balance with
    | none =>
      refine ⟨⟨[{ cell with Balance := none }], ?_⟩, ⟨[], ?_⟩, ?_, ?_, ?_⟩
      · simp [Heap.CloneTrigger, hcell, hb, Heap.CloneFilter]
      · simp [Heap.CloneTrigger, hcell, hb, Heap.CloneFilter]
      · simp [Heap.CloneTrigger, hcell, hb, Heap.CloneFilter]
      · simp [Heap.CloneTrigger, hcell, hb, Heap.CloneFilter, Heap.validTrigger]
      · simp [Heap.CloneTrigger, hcell, hb, Heap.CloneFilter, Heap.load, Heap.read,
          ActionTrigger.Clone, BalanceFilter.Clone]
    | some bp =>
      simp only [hcell, hb, decide_eq_true_eq] at hv
      obtain ⟨f, hf⟩ : ∃ f, h.filters[bp]? = some f :=
        ⟨h.filters[bp], List.getElem?_eq_getElem hv⟩
      refine ⟨⟨[{ cell with Balance := some h.filters.length }], ?_⟩, ⟨[f], ?_⟩, ?_, ?_, ?_⟩
      · simp [Heap.CloneTrigger, hcell, hb, Heap.CloneFilter, hf]
      · simp [Heap.CloneTrigger, hcell, hb, Heap.CloneFilter, hf]
      · simp [Heap.CloneTrigger, hcell, hb, Heap.CloneFilter, hf]
      · simp [Heap.CloneTrigger, hcell, hb, Heap.CloneFilter, hf, Heap.validTrigger]
      · simp [Heap.CloneTrigger, hcell, hb, Heap.CloneFilter, hf, Heap.load, Heap.read,
          ActionTrigger.Clone, BalanceFilter.Clone]

/-- The loop of `ActionTriggers.Clone` after `n` turns: the heap has only
grown; the clone has the length of the set; the cells not yet reached are
nil; a nil element has a nil clone; the clone of a non-nil element is a
pointer that reads as the value-level clone of the element; every pointer of
the clone is valid and is an address the input heap did not have; no two
cells of the clone hold the same pointer. -/
theorem cloneLoop_spec (h : Heap) (l : List (Option Ptr))
    (hvalid : ∀ p, some p ∈ l → h.validTrigger p = true) :
    ∀ n, n ≤ l.length →
      (∃ ts, ((List.range n).foldl (Heap.cloneAt l)
        (h, List.replicate l.length none)).1.triggers = h.triggers ++ ts) ∧
      (∃ fs, ((List.range n).foldl (Heap.cloneAt l)
        (h, List.replicate l.length none)).1.filters = h.filters ++ fs) ∧
      ((List.range n).foldl (Heap.cloneAt l) (h, List.replicate l.length none)).2.length =
        l.length ∧
      (∀ i, n ≤ i → i < l.length →
        ((List.range n).foldl (Heap.cloneAt l) (h, List.replicate l.length none)).2[i]? =
          some none) ∧
      (∀ i, i < n → l[i]? = some none →
        ((List.range n).foldl (Heap.cloneAt l) (h, List.replicate l.length none)).2[i]? =
          some none) ∧
      (∀ i p, i < n → l[i]? = some (some p) →
        ∃ q, ((List.range n).foldl (Heap.cloneAt l)
            (h, List.replicate l.length none)).2[i]? = some (some q) ∧
          ((List.range n).foldl (Heap.cloneAt l)
            (h, List.replicate l.length none)).1.load (some q) =
            ActionTrigger.Clone (h.load (some p))) ∧
      (∀ (i : Nat) (q : Ptr), ((List.range n).foldl (Heap.cloneAt l)
          (h, List.replicate l.length none)).2[i]? = some (some q) →
        ((List.range n).foldl (Heap.cloneAt l)
          (h, List.replicate l.length none)).1.validTrigger q = true ∧
        h.triggers.length ≤ q) ∧
      (∀ (i j : Nat) (q : Ptr), ((List.range n).foldl (Heap.cloneAt l)
          (h, List.replicate l.length none)).2[i]? = some (some q) →
        ((List.range n).foldl (Heap.cloneAt l)
          (h, List.replicate l.length none)).2[j]? = some (some q) → i = j) := by
  intro n
  induction n with
  | zero =>
    intro _
    simp only [List.range_zero, List.foldl_nil]
    refine ⟨⟨[], by simp⟩, ⟨[], by simp⟩, by simp, ?_, ?_, ?_, ?_, ?_⟩
    · intro i _ hi
      simp [List.getElem?_replicate, hi]
    · intro i hi; exact absurd hi (by omega)
    · intro i p hi; exact absurd hi (by omega)
    · intro i q hq
      simp [List.getElem?_replicate] at hq
    · intro i j q hq
      simp [List.getElem?_replicate] at hq
  | succ n ih =>
    intro hn
    have hnl : n < l.length := hn
    obtain ⟨⟨ts, hA⟩, ⟨fs, hB⟩, hC, hD, hE, hF, hG, hH⟩ := ih (by omega)
    rw [List.range_succ, List.foldl_append]
    simp only [List.foldl_cons, List.foldl_nil]
    generalize (List.range n).foldl (Heap.cloneAt l) (h, List.replicate l.length none) = s
      at hA hB hC hD hE hF hG hH ⊢
    have hns : n < s.2.length := by rw [hC]; exact hnl
    have hset_ne : ∀ (x : Option Ptr) (i : Nat), i ≠ n → (s.2.set n x)[i]? = s.2[i]? :=
      fun x i hi => List.getElem?_set_ne (Ne.symm hi)
    have hset_eq : ∀ x : Option Ptr, (s.2.set n x)[n]? = some x := by
      intro x
      simp [List.getElem?_set, hns]
    cases hln : l[n] with
    | none =>
      have hln1 : l[n]? = some none := by rw [List.getElem?_eq_getElem hnl, hln]
      have hget : l.getD n none = none := by
        simp [List.getD_eq_getElem?_getD, hln1]
      have hstep : Heap.cloneAt l s n = (s.1, s.2.set n none) := by
        unfold Heap.cloneAt
        rw [hget]
        rfl
      rw [hstep]
      refine ⟨⟨ts, hA⟩, ⟨fs, hB⟩, by simpa using hC, ?_, ?_, ?_, ?_, ?_⟩
      · intro i hi1 hi2
        show (s.2.set n none)[i]? = some none
        rw [hset_ne _ i (by omega)]
        exact hD i (by omega) hi2
      · intro i hi1 hi2
        show (s.2.set n none)[i]? = some none
        by_cases hin : i = n
        · subst hin; exact hset_eq none
        · rw [hset_ne _ i hin]
          exact hE i (by omega) hi2
      · intro i p hi1 hi2
        have hin : i ≠ n := by
          rintro rfl
          rw [hln1] at hi2
          cases hi2
        obtain ⟨q, hq1, hq2⟩ := hF i p (by omega) hi2
        exact ⟨q, by show (s.2.set n none)[i]? = _; rw [hset_ne _ i hin]; exact hq1, hq2⟩
      · intro i q hq
        have hq' : (s.2.set n none)[i]? = some (some q) := hq
        have hin : i ≠ n := by
          rintro rfl
          rw [hset_eq] at hq'
          cases hq'
        rw [hset_ne _ i hin] at hq'
        exact hG i q hq'
      · intro i j q hq1 hq2
        have hq1' : (s.2.set n none)[i]? = some (some q) := hq1
        have hq2' : (s.2.set n none)[j]? = some (some q) := hq2
        have hin : i ≠ n := by
          rintro rfl
          rw [hset_eq] at hq1'
          cases hq1'
        have hjn : j ≠ n := by
          rintro rfl
          rw [hset_eq] at hq2'
          cases hq2'
        rw [hset_ne _ i hin] at hq1'
        rw [hset_ne _ j hjn] at hq2'
        exact hH i j q hq1' hq2'
    | some p =>
      have hln1 : l[n]? = some (some p) := by rw [List.getElem?_eq_getElem hnl, hln]
      have hget : l.getD n none = some p := by
        simp [List.getD_eq_getElem?_getD, hln1]
      have hpmem : some p ∈ l := by
        rw [← hln]
        exact List.getElem_mem hnl
      have hvs := load_extend h s.1 ts fs hA hB p (hvalid p hpmem)
      obtain ⟨⟨ts1, c1⟩, ⟨fs1, c2⟩, c3, c4, c5⟩ := CloneTrigger_valid s.1 p hvs.2.1
      have hstep : Heap.cloneAt l s n =
          ((s.1.CloneTrigger (some p)).1, s.2.set n (some s.1.triggers.length)) := by
        unfold Heap.cloneAt
        rw [hget, c3]
      rw [hstep]
      generalize (s.1.CloneTrigger (some p)).1 = h1 at c1 c2 c4 c5 ⊢
      have hold : ∀ q, s.1.validTrigger q = true →
          h1.load (some q) = s.1.load (some q) ∧ h1.validTrigger q = true ∧
            q < s.1.triggers.length :=
        fun q hq => load_extend s.1 h1 ts1 fs1 c1 c2 q hq
      refine ⟨⟨ts ++ ts1, by rw [c1, hA, List.append_assoc]⟩,
        ⟨fs ++ fs1, by rw [c2, hB, List.append_assoc]⟩, by simpa using hC, ?_, ?_, ?_, ?_, ?_⟩
      · intro i hi1 hi2
        show (s.2.set n _)[i]? = some none
        rw [hset_ne _ i (by omega)]
        exact hD i (by omega) hi2
      · intro i hi1 hi2
        show (s.2.set n _)[i]? = some none
        have hin : i ≠ n := by
          rintro rfl
          rw [hln1] at hi2
          cases hi2
        rw [hset_ne _ i hin]
        exact hE i (by omega) hi2
      · intro i p1 hi1 hi2
        by_cases hin : i = n
        · subst hin
          rw [hln1] at hi2
          cases hi2
          refine ⟨s.1.triggers.length, hset_eq _, ?_⟩
          show h1.load _ = _
          rw [c5, hvs.1]
        · obtain ⟨q, hq1, hq2⟩ := hF i p1 (by omega) hi2
          refine ⟨q, by show (s.2.set n _)[i]? = _; rw [hset_ne _ i hin]; exact hq1, ?_⟩
          show h1.load _ = _
          rw [(hold q (hG i q hq1).1).1]
          exact hq2
      · intro i q hq
        have hq' : (s.2.set n (some s.1.triggers.length))[i]? = some (some q) := hq
        by_cases hin : i = n
        · subst hin
          rw [hset_eq] at hq'
          cases hq'
          refine ⟨c4, ?_⟩
          rw [hA, List.length_append]
          exact Nat.le_add_right _ _
        · rw [hset_ne _ i hin] at hq'
          exact ⟨(hold q (hG i q hq').1).2.1, (hG i q hq').2⟩
      · intro i j q hq1 hq2
        have hq1' : (s.2.set n (some s.1.triggers.length))[i]? = some (some q) := hq1
        have hq2' : (s.2.set n (some s.1.triggers.length))[j]? = some (some q) := hq2
        by_cases hin : i = n
        · by_cases hjn : j = n
          · rw [hin, hjn]
          · subst hin
            rw [hset_eq] at hq1'
            cases hq1'
            rw [hset_ne _ j hjn] at hq2'
            exact absurd (hold _ (hG j _ hq2').1).2.2 (Nat.lt_irrefl _)
        · by_cases hjn : j = n
          · subst hjn
            rw [hset_eq] at hq2'
            cases hq2'
            rw [hset_ne _ i hin] at hq1'
            exact absurd (hold _ (hG i _ hq1').1).2.2 (Nat.lt_irrefl _)
          · rw [hset_ne _ i hin] at hq1'
            rw [hset_ne _ j hjn] at hq2'
            exact hH i j q hq1' hq2'

/-- C19: `ActionTriggers.Clone` of the nil set is nil, and of the empty set the
empty set. For a set `l` of valid or nil pointers it returns a non-nil set of
the same length. A nil element has a nil clone. The clone of a non-nil element
`p` at index `i` is a pointer `q` at index `i` that the input heap did not
have, so a new struct; `q` reads as `ActionTrigger.Clone` of what `p` read,
and `p` reads as before. No two cells of the clone hold the same pointer. On
values, the clone read through its pointers is the value-level clone of the
set read through its pointers. -/
theorem ActionTriggers_Clone_spec (h : Heap) (l : List (Option Ptr))
    (hvalid : ∀ p, some p ∈ l → h.validTrigger p = true) :
    h.CloneTriggers none = (h, none) ∧
    h.CloneTriggers (some []) = (h, some []) ∧
    ∃ clone, (h.CloneTriggers (some l)).2 = some clone ∧ clone.length = l.length ∧
      (∀ i : Nat, l[i]? = some none → clone[i]? = some none) ∧
      (∀ (i : Nat) (p : Ptr), l[i]? = some (some p) →
        ∃ q, clone[i]? = some (some q) ∧ h.triggers.length ≤ q ∧
          (h.CloneTriggers (some l)).1.load (some q) = ActionTrigger.Clone (h.load (some p)) ∧
          (h.CloneTriggers (some l)).1.load (some p) = h.load (some p)) ∧
      (∀ (i j : Nat) (q : Ptr), clone[i]? = some (some q) → clone[j]? = some (some q) →
        i = j) ∧
      ActionTriggers.Clone (some (l.map h.load)) =
        some (clone.map (h.CloneTriggers (some l)).1.load) := by
  refine ⟨rfl, rfl, ?_⟩
  obtain ⟨⟨ts, hA⟩, ⟨fs, hB⟩, hC, -, hE, hF, hG, hH⟩ :=
    cloneLoop_spec h l hvalid l.length (Nat.le_refl _)
  have hrun : h.CloneTriggers (some l) =
      (((List.range l.length).foldl (Heap.cloneAt l) (h, List.replicate l.length none)).1,
        some ((List.range l.length).foldl (Heap.cloneAt l)
          (h, List.replicate l.length none)).2) := rfl
  rw [hrun]
  generalize (List.range l.length).foldl (Heap.cloneAt l) (h, List.replicate l.length none) = s
    at hA hB hC hE hF hG hH ⊢
  have hnone : ∀ i : Nat, l[i]? = some none → s.2[i]? = some none :=
    fun i hi => hE i (List.getElem?_eq_some.1 hi).1 hi
  have hsome : ∀ (i : Nat) (p : Ptr), l[i]? = some (some p) →
      ∃ q, s.2[i]? = some (some q) ∧ h.triggers.length ≤ q ∧
        s.1.load (some q) = ActionTrigger.Clone (h.load (some p)) ∧
        s.1.load (some p) = h.load (some p) := by
    intro i p hi
    obtain ⟨hil, hip⟩ := List.getElem?_eq_some.1 hi
    obtain ⟨q, hq1, hq2⟩ := hF i p hil hi
    have hpmem : some p ∈ l := by rw [← hip]; exact List.getElem_mem hil
    exact ⟨q, hq1, (hG i q hq1).2, hq2, (load_extend h s.1 ts fs hA hB p (hvalid p hpmem)).1⟩
  refine ⟨s.2, rfl, hC, hnone, hsome, hH, ?_⟩
  rw [ActionTriggers_Clone_values]
  congr 1
  apply List.ext_getElem?
  intro i
  by_cases hi : i < l.length
  · have his : i < s.2.length := by rw [hC]; exact hi
    simp only [List.getElem?_map, List.getElem?_eq_getElem hi, List.getElem?_eq_getElem his,
      Option.map_some']
    cases hli : l[i] with
    | none =>
      have h1 := hnone i (by rw [List.getElem?_eq_getElem hi, hli])
      rw [List.getElem?_eq_getElem his] at h1
      rw [Option.some.inj h1]
      rfl
    | some p =>
      obtain ⟨q, h1, -, h2, -⟩ := hsome i p (by rw [List.getElem?_eq_getElem hi, hli])
      rw [List.getElem?_eq_getElem his] at h1
      rw [Option.some.inj h1, h2]
  · have hle : l.length ≤ i := Nat.le_of_not_lt hi
    have hles : s.2.length ≤ i := by rw [hC]; exact hle
    simp [List.getElem?_eq_none hle, List.getElem?_eq_none hles]

/-- The copy of a set on a heap with two triggers: the set of a pointer, a nil
pointer and a second pointer is cloned to two new structs, at the addresses 2
and 3, with the nil pointer between them; the predicate of the first is
copied too. -/
theorem ActionTriggers_Clone_spec_witness :
    (∀ p, some p ∈ [some 0, none, some 1] → setHeap.validTrigger p = true) ∧
    setHeap.CloneTriggers (some [some 0, none, some 1]) =
      ({ triggers := [demoCell, { demoCell with UniqueID := "U2", Balance := none },
          { demoCell with Balance := some 1 },
          { demoCell with UniqueID := "U2", Balance := none }],
         filters := [typedFilter "*monetary", typedFilter "*monetary"] },
        some [some 2, none, some 3]) ∧
    (setHeap.CloneTriggers none = (setHeap, none) ∧
      setHeap.CloneTriggers (some []) = (setHeap, some []) ∧
      ∃ clone, (setHeap.CloneTriggers (some [some 0, none, some 1])).2 = some clone ∧
        clone.length = [some 0, none, some 1].length ∧
        (∀ i : Nat, [some 0, none, some 1][i]? = some none → clone[i]? = some none) ∧
        (∀ (i : Nat) (p : Ptr), [some 0, none, some 1][i]? = some (some p) →
          ∃ q, clone[i]? = some (some q) ∧ setHeap.triggers.length ≤ q ∧
            (setHeap.CloneTriggers (some [some 0, none, some 1])).1.load (some q) =
              ActionTrigger.Clone (setHeap.load (some p)) ∧
            (setHeap.CloneTriggers (some [some 0, none, some 1])).1.load (some p) =
              setHeap.load (some p)) ∧
        (∀ (i j : Nat) (q : Ptr), clone[i]? = some (some q) → clone[j]? = some (some q) →
          i = j) ∧
        ActionTriggers.Clone (some ([some 0, none, some 1].map setHeap.load)) =
          some (clone.map (setHeap.CloneTriggers (some [some 0, none, some 1])).1.load)) := by
  have hv : ∀ p, some p ∈ [some 0, none, some 1] → setHeap.validTrigger p = true := by
    intro p hp
    simp only [List.mem_cons, Option.some.injEq, List.mem_singleton, reduceCtorEq, false_or,
      List.not_mem_nil, or_false] at hp
    rcases hp with rfl | rfl <;> decide
  exact ⟨hv, by decide, ActionTriggers_Clone_spec setHeap [some 0, none, some 1] hv⟩

end Engine
